import Mathlib

/-!
# AOS-P2P: tracker authority, peer serving endpoint, download orchestrator, content hasher

A shallow embedding of `tracker/tracker.cpp`, `client/client.cpp` and `client/sha1.h`.

* A C++ `char` is a Lean `Char`; a `std::string` is a `List Char` (`Str`).  Every byte string
  is such a list (its characters are below 256).
* `std::map<std::string, V>` is an association list kept in key order, `std::set<std::string>`
  a list kept in order without repetition; the order is the one of `std::string::operator<`.
* `int` and `long` are `Int`; the conversions `std::stoi` / `std::stol` check the range and
  throw, which is an `Except StdExn`.
-/

namespace P2P

/-! ## Strings -/

/-- A `std::string`. -/
abbrev Str := List Char

/-- The order of `std::string::operator<`: lexicographic, characters compared by code. -/
def strLt : Str → Str → Bool
  | [], [] => false
  | [], _ :: _ => true
  | _ :: _, [] => false
  | a :: as, b :: bs =>
    if a.toNat < b.toNat then true
    else if b.toNat < a.toNat then false
    else strLt as bs

/-- The exceptions of the standard library that the program can meet. -/
inductive StdExn where
  | invalid_argument
  | out_of_range
  deriving DecidableEq, Repr

deriving instance DecidableEq for Except

/-- The function `split_string` of both programs: `std::getline` on a `std::stringstream` until it fails.
A token ends at each delimiter; what follows the last delimiter is a token only when it
is not empty. -/
def split_string (str : Str) (delimiter : Char) : List Str :=
  match str with
  | [] => []
  | c :: cs =>
    if c = delimiter then [] :: split_string cs delimiter
    else
      match split_string cs delimiter with
      | [] => [[c]]
      | t :: ts => (c :: t) :: ts

/-- The C function `isspace` in the "C" locale. -/
def isspace (c : Char) : Bool :=
  c.toNat = 32 || (9 ≤ c.toNat && c.toNat ≤ 13)

/-- The C function `isdigit`. -/
def isdigit (c : Char) : Bool :=
  48 ≤ c.toNat && c.toNat ≤ 57

/-- Value of a decimal digit character. -/
def digitVal (c : Char) : Nat := c.toNat - 48

/-- Value of a string of decimal digits, most significant first. -/
def decValue (ds : Str) : Nat := ds.foldl (fun acc c => 10 * acc + digitVal c) 0

/-- The conversion `strtol(s, &end, 10)` without the range check: optional white space, an
optional sign, then the longest run of digits; `none` when there is no digit (no
conversion). -/
def strtol_base10 (s : Str) : Option Int :=
  let t := s.dropWhile isspace
  let (neg, u) :=
    match t with
    | '-' :: r => (true, r)
    | '+' :: r => (false, r)
    | _ => (false, t)
  let ds := u.takeWhile isdigit
  if ds = [] then none
  else some (if neg then - (decValue ds : Int) else (decValue ds : Int))

/-- The function `std::stoi`: throws `invalid_argument` when no conversion can be done and
`out_of_range` when the value does not fit an `int`. -/
def stoi (s : Str) : Except StdExn Int :=
  match strtol_base10 s with
  | none => .error .invalid_argument
  | some v =>
    if v < -2147483648 ∨ 2147483647 < v then .error .out_of_range else .ok v

/-- The function `std::stol` (64-bit `long`). -/
def stol (s : Str) : Except StdExn Int :=
  match strtol_base10 s with
  | none => .error .invalid_argument
  | some v =>
    if v < -9223372036854775808 ∨ 9223372036854775807 < v then .error .out_of_range
    else .ok v

/-- The character of a decimal digit. -/
def digitChar (d : Nat) : Char := Char.ofNat (48 + d)

/-- Decimal digits of `n`, least significant first; `fuel` bounds the number of digits. -/
def decDigitsRev : Nat → Nat → Str
  | 0, _ => []
  | fuel + 1, n =>
    digitChar (n % 10) :: (if n / 10 = 0 then [] else decDigitsRev fuel (n / 10))

/-- Decimal rendering of a natural number. -/
def natToDec (n : Nat) : Str := (decDigitsRev (n + 1) n).reverse

/-- The function `std::to_string` on `int`, `long` and `size_t`. -/
def to_string (n : Int) : Str :=
  if n < 0 then '-' :: natToDec n.natAbs else natToDec n.natAbs

/-- The method `std::string::substr(pos, len)` for `pos ≤ size()`. -/
def substr (s : Str) (pos len : Nat) : Str := (s.drop pos).take len

/-- The method `std::string::find(pat)`: position of the first occurrence, `none` for `npos`. -/
def strFind (pat : Str) : Str → Option Nat
  | [] => if pat = [] then some 0 else none
  | c :: cs =>
    if pat.isPrefixOf (c :: cs) then some 0
    else (strFind pat cs).map (· + 1)

/-! ## Ordered containers -/

/-- The method `std::map::find`: the value stored under a key. -/
def mapFind {V : Type} (k : Str) : List (Str × V) → Option V
  | [] => none
  | (k1, v1) :: rest => if k1 = k then some v1 else mapFind k rest

/-- The assignment `m[k] = v` on a `std::map`: replaces the value of an existing key,
otherwise inserts the pair at its place in key order. -/
def mapInsert {V : Type} (k : Str) (v : V) : List (Str × V) → List (Str × V)
  | [] => [(k, v)]
  | (k1, v1) :: rest =>
    if strLt k k1 then (k, v) :: (k1, v1) :: rest
    else if k1 = k then (k, v) :: rest
    else (k1, v1) :: mapInsert k v rest

/-- An update `m[k].field = ...` through `std::map::operator[]`: a missing key is first
inserted with a value-initialised value. -/
def mapModify {V : Type} (dflt : V) (k : Str) (f : V → V) (m : List (Str × V)) :
    List (Str × V) :=
  mapInsert k (f ((mapFind k m).getD dflt)) m

/-- The method `std::set::insert`. -/
def setInsert (x : Str) : List Str → List Str
  | [] => [x]
  | y :: ys =>
    if strLt x y then x :: y :: ys
    else if y = x then y :: ys
    else y :: setInsert x ys

/-- The method `std::set::erase(key)`. -/
def setErase (x : Str) (s : List Str) : List Str := s.filter (fun y => !(decide (y = x)))

/-! ## Tracker data model (`tracker.h`) -/

/-- The struct `User`. -/
structure User where
  user_id : Str
  password : Str
  ip : Str
  port : Int
  online : Bool
  groups : List Str
  deriving DecidableEq, Repr

/-- The struct `Group`. -/
structure Group where
  group_id : Str
  owner : Str
  members : List Str
  pending_requests : List Str
  shared_files : List (Str × List Str)
  deriving DecidableEq, Repr

/-- The struct `FileEntry`. -/
structure FileEntry where
  filename : Str
  file_hash : Str
  piece_hashes : List Str
  file_size : Int
  owner : Str
  group_id : Str
  deriving DecidableEq, Repr

/-- The catalog held by the class `Tracker`. -/
structure Tracker where
  users : List (Str × User)
  groups : List (Str × Group)
  files : List (Str × FileEntry)
  deriving DecidableEq, Repr

/-- A value-initialised `User`, as `users[k]` creates for a missing key. -/
def User.dflt : User := ⟨[], [], [], 0, false, []⟩

/-- A value-initialised `Group`. -/
def Group.dflt : Group := ⟨[], [], [], [], []⟩

/-- The tracker right after construction: no user, no group, no file. -/
def Tracker.empty : Tracker := ⟨[], [], []⟩

/-- The test `users.find(u) == users.end() || !users[u].online`, negated. -/
def Tracker.loggedIn (s : Tracker) (u : Str) : Bool :=
  match mapFind u s.users with
  | some usr => usr.online
  | none => false

/-! ## Tracker command handlers (`tracker.cpp`) -/

/-- The method `Tracker::handle_create_user`. -/
def handle_create_user (s : Tracker) (tokens : List Str) : Str × Tracker :=
  match tokens with
  | _ :: user_id :: password :: _ =>
    if (mapFind user_id s.users).isSome then
      ("ERROR: User already exists\n".toList, s)
    else
      let user : User := ⟨user_id, password, [], 0, false, []⟩
      ("SUCCESS: User created\n".toList, { s with users := mapInsert user_id user s.users })
  | _ => ("ERROR: Invalid CREATE_USER command\n".toList, s)

/-- The method `Tracker::handle_login`.  The port is converted with `std::stoi` outside any
`try` block, before the user is looked up. -/
def handle_login (s : Tracker) (tokens : List Str) : Except StdExn (Str × Tracker) :=
  match tokens with
  | _ :: user_id :: password :: ip :: port_tok :: _ =>
    match stoi port_tok with
    | .error e => .error e
    | .ok port =>
      match mapFind user_id s.users with
      | none => .ok ("ERROR: User not found\n".toList, s)
      | some usr =>
        if usr.password ≠ password then
          .ok ("ERROR: Invalid password\n".toList, s)
        else
          .ok ("SUCCESS: Login successful\n".toList,
            { s with users := (mapModify User.dflt user_id
                (fun u => { u with online := true, ip := ip, port := port }) s.users) })
  | _ => .ok ("ERROR: Invalid LOGIN command\n".toList, s)

/-- The method `Tracker::handle_create_group`. -/
def handle_create_group (s : Tracker) (tokens : List Str) : Str × Tracker :=
  match tokens with
  | _ :: user_id :: group_id :: _ =>
    if !s.loggedIn user_id then ("ERROR: User not logged in\n".toList, s)
    else if (mapFind group_id s.groups).isSome then
      ("ERROR: Group already exists\n".toList, s)
    else
      let group : Group := ⟨group_id, user_id, setInsert user_id [], [], []⟩
      ("SUCCESS: Group created\n".toList,
        { s with
          groups := mapInsert group_id group s.groups
          users := (mapModify User.dflt user_id
            (fun u => { u with groups := setInsert group_id u.groups }) s.users) })
  | _ => ("ERROR: Invalid CREATE_GROUP command\n".toList, s)

/-- The method `Tracker::handle_join_group`. -/
def handle_join_group (s : Tracker) (tokens : List Str) : Str × Tracker :=
  match tokens with
  | _ :: user_id :: group_id :: _ =>
    if !s.loggedIn user_id then ("ERROR: User not logged in\n".toList, s)
    else
      match mapFind group_id s.groups with
      | none => ("ERROR: Group not found\n".toList, s)
      | some grp =>
        if user_id ∈ grp.members then ("ERROR: Already a member\n".toList, s)
        else
          ("SUCCESS: Join request sent\n".toList,
            { s with groups := (mapModify Group.dflt group_id
                (fun g => { g with pending_requests := setInsert user_id g.pending_requests })
                s.groups) })
  | _ => ("ERROR: Invalid JOIN_GROUP command\n".toList, s)

/-- The three statements of `handle_leave_group` on `groups[group_id]`: the user is erased
from the members; when the user is the owner and members remain, the owner becomes
`*members.begin()`. -/
def leaveUpdate (user_id : Str) (g : Group) : Group :=
  let g1 := { g with members := setErase user_id g.members }
  match g1.members with
  | first :: _ => if g1.owner = user_id then { g1 with owner := first } else g1
  | [] => g1

/-- The method `Tracker::handle_leave_group`. -/
def handle_leave_group (s : Tracker) (tokens : List Str) : Str × Tracker :=
  match tokens with
  | _ :: user_id :: group_id :: _ =>
    if !s.loggedIn user_id then ("ERROR: User not logged in\n".toList, s)
    else
      match mapFind group_id s.groups with
      | none => ("ERROR: Group not found\n".toList, s)
      | some grp =>
        if user_id ∉ grp.members then ("ERROR: Not a member\n".toList, s)
        else
          ("SUCCESS: Left group\n".toList,
            { s with
              groups := (mapModify Group.dflt group_id (leaveUpdate user_id) s.groups)
              users := (mapModify User.dflt user_id
                (fun u => { u with groups := setErase group_id u.groups }) s.users) })
  | _ => ("ERROR: Invalid LEAVE_GROUP command\n".toList, s)

/-- The method `Tracker::handle_list_groups`. -/
def handle_list_groups (s : Tracker) (_tokens : List Str) : Str × Tracker :=
  if s.groups = [] then ("No groups available\n".toList, s)
  else
    (s.groups.foldl
      (fun result group =>
        result ++ (group.1 ++ " (Owner: ".toList ++ group.2.owner ++ ", Members: ".toList ++
          to_string group.2.members.length ++ ")\n".toList))
      [], s)

/-- The method `Tracker::handle_list_requests`. -/
def handle_list_requests (s : Tracker) (tokens : List Str) : Str × Tracker :=
  match tokens with
  | _ :: user_id :: group_id :: _ =>
    if !s.loggedIn user_id then ("ERROR: User not logged in\n".toList, s)
    else
      match mapFind group_id s.groups with
      | none => ("ERROR: Group not found\n".toList, s)
      | some grp =>
        if grp.owner ≠ user_id then ("ERROR: Not group owner\n".toList, s)
        else if grp.pending_requests = [] then ("No pending requests\n".toList, s)
        else
          (grp.pending_requests.foldl (fun result request => result ++ (request ++ ['\n'])) [], s)
  | _ => ("ERROR: Invalid LIST_REQUESTS command\n".toList, s)

/-- The two statements of `handle_accept_request` on `groups[group_id]`. -/
def acceptUpdate (user_id : Str) (g : Group) : Group :=
  { g with
    pending_requests := setErase user_id g.pending_requests
    members := setInsert user_id g.members }

/-- The method `Tracker::handle_accept_request`. -/
def handle_accept_request (s : Tracker) (tokens : List Str) : Str × Tracker :=
  match tokens with
  | _ :: owner_id :: group_id :: user_id :: _ =>
    if !s.loggedIn owner_id then ("ERROR: Owner not logged in\n".toList, s)
    else
      match mapFind group_id s.groups with
      | none => ("ERROR: Group not found\n".toList, s)
      | some grp =>
        if grp.owner ≠ owner_id then ("ERROR: Not group owner\n".toList, s)
        else if user_id ∉ grp.pending_requests then
          ("ERROR: No pending request from user\n".toList, s)
        else
          ("SUCCESS: Request accepted\n".toList,
            { s with
              groups := (mapModify Group.dflt group_id (acceptUpdate user_id) s.groups)
              users := (mapModify User.dflt user_id
                (fun u => { u with groups := setInsert group_id u.groups }) s.users) })
  | _ => ("ERROR: Invalid ACCEPT_REQUEST command\n".toList, s)

/-- The seeders of one file as `handle_list_files` prints them: separated by `, `. -/
def joinSeeders : List Str → Str
  | [] => []
  | [u] => u
  | u :: v :: rest => u ++ ", ".toList ++ joinSeeders (v :: rest)

/-- The method `Tracker::handle_list_files`. -/
def handle_list_files (s : Tracker) (tokens : List Str) : Str × Tracker :=
  match tokens with
  | _ :: user_id :: group_id :: _ =>
    if !s.loggedIn user_id then ("ERROR: User not logged in\n".toList, s)
    else
      match mapFind group_id s.groups with
      | none => ("ERROR: Group not found\n".toList, s)
      | some grp =>
        if user_id ∉ grp.members then ("ERROR: Not a group member\n".toList, s)
        else if grp.shared_files = [] then ("No files shared in this group\n".toList, s)
        else
          (grp.shared_files.foldl
            (fun result file =>
              result ++ (file.1 ++ " (Shared by: ".toList ++ joinSeeders file.2 ++ ")\n".toList))
            [], s)
  | _ => ("ERROR: Invalid LIST_FILES command\n".toList, s)

/-- The loops `for (i = 0; i < len; i += step)` of `handle_upload_file` that cut the blob of
piece hashes: `substr(i, step)` is pushed at each step, with `onlyFull` only when
`i + step <= len`.  `fuel` bounds the number of steps (`len` is enough). -/
def cutHashes (step : Nat) (onlyFull : Bool) (str : Str) : Nat → Nat → List Str
  | 0, _ => []
  | fuel + 1, i =>
    if i < str.length then
      if onlyFull && !(decide (i + step ≤ str.length)) then
        cutHashes step onlyFull str fuel (i + step)
      else
        substr str i step :: cutHashes step onlyFull str fuel (i + step)
    else []

/-- The block "Parse piece hashes intelligently" of `handle_upload_file`. -/
def parse_piece_hashes (piece_hashes_str : Str) : List Str :=
  match strFind "TRUNCATED".toList piece_hashes_str with
  | some truncated_pos =>
    let clean_hashes := substr piece_hashes_str 0 truncated_pos
    cutHashes 8 true clean_hashes clean_hashes.length 0
  | none =>
    if piece_hashes_str.length % 8 = 0 then
      cutHashes 8 false piece_hashes_str piece_hashes_str.length 0
    else if piece_hashes_str.length % 20 = 0 then
      cutHashes 20 false piece_hashes_str piece_hashes_str.length 0
    else
      cutHashes 8 true piece_hashes_str piece_hashes_str.length 0

/-- The update of `groups[group_id].shared_files` in `handle_upload_file`: the file name
gets an empty seeder list when it is new, then the user is pushed unless already there. -/
def addSeeder (filename user_id : Str) (g : Group) : Group :=
  let file_users := (mapFind filename g.shared_files).getD []
  { g with shared_files := (mapInsert filename
      (if user_id ∈ file_users then file_users else file_users ++ [user_id]) g.shared_files) }

/-- The method `Tracker::handle_upload_file`.  The size is converted with `std::stol` inside a
`try` block.  The `catch` around the parsing of the piece hashes is never entered: every
`substr` there starts inside the string. -/
def handle_upload_file (s : Tracker) (tokens : List Str) : Str × Tracker :=
  match tokens with
  | _ :: user_id :: group_id :: filename :: file_hash :: piece_hashes_str :: size_tok :: _ =>
    match stol size_tok with
    | .error _ => ("ERROR: Invalid file size\n".toList, s)
    | .ok file_size =>
      if !s.loggedIn user_id then ("ERROR: User not logged in\n".toList, s)
      else
        match mapFind group_id s.groups with
        | none => ("ERROR: Group not found\n".toList, s)
        | some grp =>
          if user_id ∉ grp.members then ("ERROR: Not a group member\n".toList, s)
          else
            let file_entry : FileEntry :=
              ⟨filename, file_hash, parse_piece_hashes piece_hashes_str, file_size,
                user_id, group_id⟩
            ("SUCCESS: Large file uploaded successfully\n".toList,
              { s with
                groups := mapModify Group.dflt group_id (addSeeder filename user_id) s.groups
                files := mapInsert file_hash file_entry s.files })
  | _ => ("ERROR: Invalid UPLOAD_FILE command - insufficient parameters\n".toList, s)

/-- The loop of `handle_download_file` over the seeders: for each seeder that is a known
user and online, `ip + " " + to_string(port) + " " + peer_id + " "` is appended. -/
def peerList (s : Tracker) : List Str → Str
  | [] => []
  | peer_id :: rest =>
    match mapFind peer_id s.users with
    | some usr =>
      if usr.online then
        usr.ip ++ [' '] ++ to_string usr.port ++ [' '] ++ peer_id ++ [' '] ++ peerList s rest
      else peerList s rest
    | none => peerList s rest

/-- The counter `peer_count` of `handle_download_file`. -/
def peerCount (s : Tracker) (seeders : List Str) : Nat :=
  (seeders.filter (fun peer_id => s.loggedIn peer_id)).length

/-- The method `Tracker::handle_download_file`. -/
def handle_download_file (s : Tracker) (tokens : List Str) : Str × Tracker :=
  match tokens with
  | _ :: user_id :: group_id :: filename :: _ =>
    if !s.loggedIn user_id then ("ERROR: User not logged in\n".toList, s)
    else
      match mapFind group_id s.groups with
      | none => ("ERROR: Group not found\n".toList, s)
      | some grp =>
        if user_id ∉ grp.members then ("ERROR: Not a group member\n".toList, s)
        else
          match mapFind filename grp.shared_files with
          | none => ("ERROR: File not found in group\n".toList, s)
          | some seeders =>
            let result := "PEERS: ".toList ++ peerList s seeders
            if peerCount s seeders = 0 then ("ERROR: No online peers available\n".toList, s)
            else
              let result := if result.getLast? = some ' ' then result.dropLast else result
              (result ++ ['\n'], s)
  | _ => ("ERROR: Invalid DOWNLOAD_FILE command\n".toList, s)

/-- The method `Tracker::handle_logout`. -/
def handle_logout (s : Tracker) (tokens : List Str) : Str × Tracker :=
  match tokens with
  | _ :: user_id :: _ =>
    if (mapFind user_id s.users).isSome then
      ("SUCCESS: Logged out\n".toList,
        { s with users := (mapModify User.dflt user_id (fun u => { u with online := false })
            s.users) })
    else ("SUCCESS: Logged out\n".toList, s)
  | _ => ("ERROR: Invalid LOGOUT command\n".toList, s)

/-- The method `Tracker::process_command`: the reply and the catalog after the command, or the
exception that leaves the function.  The arguments `client_ip` and `client_port` are
passed on to `handle_login`, which ignores them. -/
def process_command (s : Tracker) (command : Str) : Except StdExn (Str × Tracker) :=
  let tokens := split_string command ' '
  match tokens with
  | [] => .ok ("ERROR: Empty command\n".toList, s)
  | verb :: _ =>
    if verb = "CREATE_USER".toList then .ok (handle_create_user s tokens)
    else if verb = "LOGIN".toList then handle_login s tokens
    else if verb = "CREATE_GROUP".toList then .ok (handle_create_group s tokens)
    else if verb = "JOIN_GROUP".toList then .ok (handle_join_group s tokens)
    else if verb = "LEAVE_GROUP".toList then .ok (handle_leave_group s tokens)
    else if verb = "LIST_GROUPS".toList then .ok (handle_list_groups s tokens)
    else if verb = "LIST_REQUESTS".toList then .ok (handle_list_requests s tokens)
    else if verb = "ACCEPT_REQUEST".toList then .ok (handle_accept_request s tokens)
    else if verb = "LIST_FILES".toList then .ok (handle_list_files s tokens)
    else if verb = "UPLOAD_FILE".toList then .ok (handle_upload_file s tokens)
    else if verb = "DOWNLOAD_FILE".toList then .ok (handle_download_file s tokens)
    else if verb = "LOGOUT".toList then .ok (handle_logout s tokens)
    else .ok ("ERROR: Unknown command\n".toList, s)

/-- The catalogs the tracker can be in: those reached from the empty catalog by commands
that `process_command` answers. -/
inductive Reachable : Tracker → Prop where
  | init : Reachable Tracker.empty
  | step {s s1 : Tracker} {command reply : Str} :
      Reachable s → process_command s command = .ok (reply, s1) → Reachable s1

/-- Runs a list of commands from a catalog, keeping the catalog when a command throws (the
connection worker catches the exception; the catalog is untouched). -/
def runCommands (s : Tracker) : List String → Tracker
  | [] => s
  | c :: cs =>
    match process_command s c.toList with
    | .ok (_, s1) => runCommands s1 cs
    | .error _ => runCommands s cs

/-- What one command does to the group stored under the key `g`: nothing, or one of the five
updates of the handlers, each with the conditions under which the handler reaches it. -/
inductive GroupStep (s : Tracker) (tokens : List Str) (g : Str) :
    Option Group → Option Group → Prop where
  | same (o : Option Group) : GroupStep s tokens g o o
  | create (verb u : Str) (rest : List Str) :
      tokens = verb :: u :: g :: rest → s.loggedIn u = true →
      GroupStep s tokens g none (some ⟨g, u, setInsert u [], [], []⟩)
  | join (verb u : Str) (rest : List Str) (grp : Group) :
      tokens = verb :: u :: g :: rest → s.loggedIn u = true → u ∉ grp.members →
      GroupStep s tokens g (some grp)
        (some { grp with pending_requests := setInsert u grp.pending_requests })
  | leave (verb u : Str) (rest : List Str) (grp : Group) :
      tokens = verb :: u :: g :: rest → s.loggedIn u = true → u ∈ grp.members →
      GroupStep s tokens g (some grp) (some (leaveUpdate u grp))
  | accept (verb owner v : Str) (rest : List Str) (grp : Group) :
      tokens = verb :: owner :: g :: v :: rest → s.loggedIn owner = true →
      grp.owner = owner → v ∈ grp.pending_requests →
      GroupStep s tokens g (some grp) (some (acceptUpdate v grp))
  | upload (u f : Str) (rest : List Str) (grp : Group) :
      tokens = "UPLOAD_FILE".toList :: u :: g :: f :: rest → s.loggedIn u = true →
      u ∈ grp.members →
      GroupStep s tokens g (some grp) (some (addSeeder f u grp))

/-- The seeder list `groups[g].shared_files[f]`, empty when the group or the file is not
there. -/
def Tracker.seeders (s : Tracker) (g f : Str) : List Str :=
  match mapFind g s.groups with
  | some grp => (mapFind f grp.shared_files).getD []
  | none => []

/-- The triple `ip port user` of a seeder, as the reply to `DOWNLOAD_FILE` prints it. -/
def peerTriple (s : Tracker) (peer_id : Str) : Str :=
  match mapFind peer_id s.users with
  | some usr => usr.ip ++ [' '] ++ to_string usr.port ++ [' '] ++ peer_id
  | none => []

/-- Strings separated by one space. -/
def joinSpaced : List Str → Str
  | [] => []
  | [t] => t
  | t :: t2 :: rest => t ++ [' '] ++ joinSpaced (t2 :: rest)

/-- A catalog used in examples: `alice` and `bob` are logged in, `alice` owns the group `g1`
and `bob` has asked to join it. -/
def exampleCatalog : Tracker :=
  runCommands Tracker.empty
    ["CREATE_USER alice pw", "LOGIN alice pw 10.0.0.1 7001", "CREATE_USER bob pw",
      "LOGIN bob pw 10.0.0.2 7002", "CREATE_GROUP alice g1", "JOIN_GROUP bob g1"]

/-- A catalog used in examples: `bob` has been accepted into `g1` of `exampleCatalog`, and
`alice` then `bob` have uploaded the file `F` of 1,200,000 bytes to it. -/
def exampleShared : Tracker :=
  runCommands exampleCatalog
    ["ACCEPT_REQUEST alice g1 bob",
      "UPLOAD_FILE alice g1 F 1f2e3d4c aaaaaaaaaaaaaaaaaaaabbbbbbbbbbbbbbbbbbbbcccccccccccccccccccc 1200000",
      "UPLOAD_FILE bob g1 F 1f2e3d4c aaaaaaaaaaaaaaaaaaaabbbbbbbbbbbbbbbbbbbbcccccccccccccccccccc 1200000"]

/-- The constructor `std::string(const char*)`: the characters before the first NUL. -/
def c_string (buffer : Str) : Str := buffer.takeWhile (fun c => !(decide (c.toNat = 0)))

/-- The statement `if (!s.empty() && s.back() == '\n') s.pop_back();`. -/
def strip_newline (s : Str) : Str :=
  if s.getLast? = some '\n' then s.dropLast else s

/-- The method `Tracker::handle_client` on the buffers that the successive `recv` calls deliver
(each of 1 to 65535 bytes): the replies sent and the catalog when the worker ends.  An
exception leaving `process_command` is caught outside the loop: the worker sends nothing
for that command, leaves the loop and closes the socket, so the buffers that follow are
not read. -/
def handle_client (s : Tracker) : List Str → List Str × Tracker
  | [] => ([], s)
  | buffer :: later =>
    let command := strip_newline (c_string buffer)
    match process_command s command with
    | .ok (response, s1) =>
      let r := handle_client s1 later
      (response :: r.1, r.2)
    | .error _ => ([], s)

/-! ## Content hasher (`sha1.h`) -/

/-- The state of an object of class `SHA1`: `digest` holds five 32-bit words, `buffer` 64 bytes,
`transforms` and `total_bytes` are 64-bit counters. -/
structure SHA1 where
  digest : List Nat
  buffer : List Nat
  transforms : Nat
  total_bytes : Nat
  deriving DecidableEq, Repr

namespace SHA1

/-- The method `SHA1::reset` (also the state after construction). -/
def reset : SHA1 :=
  ⟨[0x67452301, 0xEFCDAB89, 0x98BADCFE, 0x10325476, 0xC3D2E1F0], List.replicate 64 0, 0, 0⟩

/-- The function `SHA1::rol` on 32-bit words. -/
def rol (value bits : Nat) : Nat :=
  ((value <<< bits) % 4294967296) ||| (value >>> (32 - bits))

/-- The sixteen big-endian words of a 64-byte block. -/
def blockWords (block : List Nat) : List Nat :=
  (List.range 16).map (fun i =>
    (block.getD (i * 4) 0 <<< 24) ||| (block.getD (i * 4 + 1) 0 <<< 16) |||
      (block.getD (i * 4 + 2) 0 <<< 8) ||| block.getD (i * 4 + 3) 0)

/-- The loop "Extend to 80 words": `n` more words are appended to `w`. -/
def extendWords : Nat → List Nat → List Nat
  | 0, w => w
  | n + 1, w =>
    let i := w.length
    extendWords n
      (w ++ [rol (w.getD (i - 3) 0 ^^^ w.getD (i - 8) 0 ^^^ w.getD (i - 14) 0 ^^^
        w.getD (i - 16) 0) 1])

/-- One step `i` of the main loop of `process_block` on the registers `(a, b, c, d, e)`. -/
def roundStep (w : List Nat) (r : Nat × Nat × Nat × Nat × Nat) (i : Nat) :
    Nat × Nat × Nat × Nat × Nat :=
  let (a, b, c, d, e) := r
  let fk : Nat × Nat :=
    if i < 20 then ((b &&& c) ||| ((b ^^^ 4294967295) &&& d), 0x5A827999)
    else if i < 40 then (b ^^^ c ^^^ d, 0x6ED9EBA1)
    else if i < 60 then ((b &&& c) ||| (b &&& d) ||| (c &&& d), 0x8F1BBCDC)
    else (b ^^^ c ^^^ d, 0xCA62C1D6)
  let temp := (rol a 5 + fk.1 + e + fk.2 + w.getD i 0) % 4294967296
  (temp, a, rol b 30, c, d)

/-- The method `SHA1::process_block`: the new digest. -/
def process_block (digest : List Nat) (block : List Nat) : List Nat :=
  let w := extendWords 64 (blockWords block)
  let r0 := (digest.getD 0 0, digest.getD 1 0, digest.getD 2 0, digest.getD 3 0,
    digest.getD 4 0)
  let (a, b, c, d, e) := (List.range 80).foldl (roundStep w) r0
  [(digest.getD 0 0 + a) % 4294967296, (digest.getD 1 0 + b) % 4294967296,
    (digest.getD 2 0 + c) % 4294967296, (digest.getD 3 0 + d) % 4294967296,
    (digest.getD 4 0 + e) % 4294967296]

/-- The call `std::copy(data, data + data.size(), buffer + offset)`. -/
def copyInto (buffer : List Nat) (offset : Nat) (data : List Nat) : List Nat :=
  buffer.take offset ++ data ++ buffer.drop (offset + data.length)

/-- The loop "Process remaining full blocks" of `update`; `fuel` bounds the number of blocks.
Returns the state and the bytes left over. -/
def fullBlocks : Nat → SHA1 → List Nat → SHA1 × List Nat
  | 0, h, data => (h, data)
  | fuel + 1, h, data =>
    if 64 ≤ data.length then
      let buffer := copyInto h.buffer 0 (data.take 64)
      fullBlocks fuel
        { h with buffer := buffer, digest := process_block h.digest buffer,
                 transforms := (h.transforms + 1) % 18446744073709551616 }
        (data.drop 64)
    else (h, data)

/-- The method `SHA1::update(const uint8_t* data, size_t len)`.  The write position in the
buffer is `transforms % 64`. -/
def updateBytes (h : SHA1) (data : List Nat) : SHA1 :=
  let h0 := { h with total_bytes := (h.total_bytes + data.length) % 18446744073709551616 }
  let offset := h0.transforms % 64
  let (h1, data1, offset1) :=
    if 64 ≤ offset + data.length then
      let copy_len := 64 - offset
      let buffer := copyInto h0.buffer offset (data.take copy_len)
      ({ h0 with buffer := buffer, digest := process_block h0.digest buffer,
                 transforms := (h0.transforms + 1) % 18446744073709551616 },
        data.drop copy_len, 0)
    else (h0, data, offset)
  let (h2, data2) := fullBlocks data1.length h1 data1
  { h2 with buffer := copyInto h2.buffer offset1 data2 }

/-- The bytes of a `std::string`. -/
def bytesOf (s : Str) : List Nat := s.map (fun c => c.toNat % 256)

/-- The method `SHA1::update(const std::string&)` and `update(const char*, size_t)`. -/
def update (h : SHA1) (s : Str) : SHA1 := updateBytes h (bytesOf s)

/-- The eight bytes of a 64-bit value, most significant first. -/
def lengthBytes (bit_length : Nat) : List Nat :=
  (List.range 8).map (fun i => (bit_length >>> (8 * (7 - i))) % 256)

/-- The method `SHA1::pad`.  The padding goes through `update`, which adds its length to
`total_bytes` before the bit length is taken. -/
def pad (h : SHA1) : SHA1 :=
  let pad_len :=
    if h.total_bytes % 64 < 56 then 56 - h.total_bytes % 64 else 120 - h.total_bytes % 64
  let h1 := updateBytes h (0x80 :: List.replicate (pad_len - 1) 0)
  let bit_length := (h1.total_bytes * 8) % 18446744073709551616
  updateBytes h1 (lengthBytes bit_length)

/-- One hexadecimal digit, lower case. -/
def hexDigit (d : Nat) : Char :=
  if d < 10 then Char.ofNat (48 + d) else Char.ofNat (87 + d)

/-- The output `std::hex << std::setfill('0') << std::setw(8)` of a 32-bit word. -/
def hex8 (x : Nat) : Str :=
  (List.range 8).map (fun i => hexDigit ((x >>> (4 * (7 - i))) % 16))

/-- The method `SHA1::final`: the digest as 40 hexadecimal characters.  (It also resets the object,
which is not used again.) -/
def final (h : SHA1) : Str :=
  let h1 := pad h
  let digest :=
    if h1.total_bytes % 64 ≠ 0 then process_block h1.digest h1.buffer else h1.digest
  (digest.map hex8).foldr (· ++ ·) []

/-- The read loop of `SHA1::from_file`: `update` on successive chunks of 1 MiB. -/
def updateChunks : Nat → SHA1 → Str → SHA1
  | 0, h, _ => h
  | fuel + 1, h, content =>
    if content = [] then h
    else updateChunks fuel (update h (content.take 1048576)) (content.drop 1048576)

/-- The function `SHA1::from_file` on the content of the file (`none` for a file that cannot be
opened, for which the function returns the empty string). -/
def from_file (file : Option Str) : Str :=
  match file with
  | none => []
  | some content => final (updateChunks content.length reset content)

/-- The digest of a byte string hashed with one `update` followed by `final`. -/
def digestOf (s : Str) : Str := final (update reset s)

end SHA1

/-- The message padding of FIPS 180-4, section 5.1.1: the bit 1, then zero bits up to 448
modulo 512, then the length of the message in bits as a 64-bit big-endian integer. -/
def fipsPad (m : List Nat) : List Nat :=
  m ++ 0x80 :: List.replicate ((119 - m.length % 64) % 64) 0 ++
    SHA1.lengthBytes ((m.length * 8) % 18446744073709551616)

/-- The hash computation of FIPS 180-4, section 6.1.2, over the 64-byte blocks of a padded message. -/
def fipsBlocks : Nat → List Nat → List Nat → List Nat
  | 0, digest, _ => digest
  | fuel + 1, digest, padded =>
    if padded = [] then digest
    else fipsBlocks fuel (SHA1.process_block digest (padded.take 64)) (padded.drop 64)

/-- The SHA-1 digest of a byte string as FIPS 180-4 defines it (the compression of one block
is the one of `process_block`), in 40 hexadecimal characters. -/
def fipsSha1 (m : Str) : Str :=
  let padded := fipsPad (SHA1.bytesOf m)
  ((fipsBlocks padded.length SHA1.reset.digest padded).map SHA1.hex8).foldr (· ++ ·) []

/-! ## Peer serving endpoint (`client.cpp`) -/

/-- The constant `PIECE_SIZE` (and `ACTUAL_PIECE_SIZE`). -/
def PIECE_SIZE : Nat := 524288

/-- The files a process can open: the content under each path that `std::ifstream` opens. -/
abbrev Files := Str → Option Str

/-- The list `possible_paths` of `handle_peer_connection`. -/
def possible_paths (filename : Str) : List Str :=
  [filename, "client/".toList ++ filename, "./".toList ++ filename, "../".toList ++ filename]

/-- The search loop of `handle_peer_connection`: the first candidate path that opens. -/
def find_file (fs : Files) : List Str → Option Str
  | [] => none
  | path :: rest => if (fs path).isSome then some path else find_file fs rest

/-- The loop that sends the piece in chunks of 1024 bytes (each `send` taking the whole
chunk); `fuel` bounds the number of chunks. -/
def sendChunks : Nat → Str → List Str
  | 0, _ => []
  | fuel + 1, data =>
    if data = [] then [] else data.take 1024 :: sendChunks fuel (data.drop 1024)

/-- The method `P2PClient::handle_peer_connection` on the bytes that its single `recv` delivers
(none when `recv` fails): the list of the `send` calls before the socket is closed, or the
exception that leaves the function.  The piece index is converted with `std::stoi` outside
any `try` block.  Reading from an opened file is taken to succeed. -/
def handle_peer_connection (fs : Files) (received : Str) : Except StdExn (List Str) :=
  if received = [] then .ok []
  else
    let request := strip_newline (c_string received)
    let tokens := split_string request ' '
    match tokens with
    | verb :: filename :: index_tok :: _ =>
      if verb = "GET_PIECE".toList then
        match stoi index_tok with
        | .error e => .error e
        | .ok piece_index =>
          match find_file fs (possible_paths filename) with
          | none => .ok ["PIECE_NOT_FOUND\n".toList]
          | some file_path =>
            match fs file_path with
            | none => .ok ["PIECE_NOT_FOUND\n".toList]
            | some content =>
              let file_size : Int := content.length
              let piece_offset : Int := piece_index * 524288
              if piece_offset ≥ file_size then .ok ["PIECE_NOT_FOUND\n".toList]
              else if piece_offset < 0 then .ok ["PIECE_NOT_FOUND\n".toList]
              else
                let remaining_file_size : Int := file_size - piece_offset
                let piece_data_size : Int := min 524288 remaining_file_size
                if piece_data_size ≤ 0 then .ok ["PIECE_NOT_FOUND\n".toList]
                else
                  let piece_buffer := substr content piece_offset.toNat piece_data_size.toNat
                  let actual_read : Int := piece_buffer.length
                  if actual_read ≤ 0 then .ok ["PIECE_NOT_FOUND\n".toList]
                  else
                    let response_header :=
                      "PIECE_DATA ".toList ++ to_string actual_read ++ ['\n']
                    .ok (response_header :: sendChunks piece_buffer.length piece_buffer)
      else .ok ["INVALID_REQUEST\n".toList]
    | _ => .ok ["INVALID_REQUEST\n".toList]

/-- The bytes that a peer connection carries back: the `send` calls one after the other. -/
def flattenSends (sends : List Str) : Str := sends.foldr (· ++ ·) []

/-! ## Download orchestrator (`client.cpp`) -/

/-- The struct `PeerInfo`. -/
structure PeerInfo where
  ip : Str
  port : Int
  user_id : Str
  deriving DecidableEq, Repr, Inhabited

/-- The struct `DownloadInfo` (without the fields `group_id` and `pieces_downloaded`, which the
orchestrator leaves empty). -/
structure DownloadInfo where
  filename : Str
  dest_path : Str
  total_size : Int
  downloaded_size : Int
  is_complete : Bool
  deriving DecidableEq, Repr

/-- The method `std::string::find(char)`. -/
def strFindChar (c : Char) : Str → Option Nat
  | [] => none
  | x :: xs => if x = c then some 0 else (strFindChar c xs).map (· + 1)

/-- One `recv(socket, buffer, maxlen, 0)` on a connection without transport failure: `stream`
holds the bytes that the peer sends before it closes, and the head of `sched` says how many
of them this call delivers (at least one, at most `maxlen`; everything available when
`sched` is empty).  Returns the bytes delivered, nothing once the peer has closed, with the
rest of the stream and of the schedule. -/
def recv (stream : Str) (sched : List Nat) (maxlen : Nat) : Str × Str × List Nat :=
  let n :=
    match sched with
    | [] => maxlen
    | k :: _ => max 1 (min k maxlen)
  (stream.take n, stream.drop n, sched.tail)

/-- The loop "If we need more data, receive it" of `download_piece_from_peer`: `none` when a
`recv` delivers nothing.  `fuel` bounds the number of `recv` calls; each call delivers at
least one byte, so the number of bytes still expected is enough. -/
def receiveRest (expected_piece_size : Int) :
    Nat → Str → Str → List Nat → Option Str
  | 0, piece_data, _, _ =>
    if (piece_data.length : Int) < expected_piece_size then none else some piece_data
  | fuel + 1, piece_data, stream, sched =>
    if (piece_data.length : Int) < expected_piece_size then
      let remaining : Int := expected_piece_size - piece_data.length
      let to_receive : Int := min remaining 1024
      let r := recv stream sched to_receive.toNat
      if r.1 = [] then none
      else receiveRest expected_piece_size fuel (piece_data ++ r.1) r.2.1 r.2.2
    else some piece_data

/-- The part of `download_piece_from_peer` after the request is sent, on the bytes `stream`
that the peer sends back and the schedule of their delivery: the data written to the
piece file when the function returns `true`, `none` when it returns `false`. -/
def receive_piece (stream : Str) (sched : List Nat) : Option Str :=
  let r := recv stream sched 1023
  let full_response := r.1
  if full_response = [] then none
  else if (strFind "PIECE_NOT_FOUND".toList full_response).isSome then none
  else if (strFind "PIECE_DATA".toList full_response).isNone then none
  else
    match strFindChar '\n' full_response with
    | none => none
    | some header_end =>
      let header := substr full_response 0 header_end
      match strFindChar ' ' header with
      | none => none
      | some space_pos =>
        match stoi (header.drop (space_pos + 1)) with
        | .error _ => none
        | .ok expected_piece_size =>
          let piece_data :=
            if header_end + 1 < full_response.length then full_response.drop (header_end + 1)
            else []
          match receiveRest expected_piece_size expected_piece_size.toNat piece_data
              r.2.1 r.2.2 with
          | none => none
          | some data =>
            if (data.length : Int) ≠ expected_piece_size then none else some data

/-- The other processes of the network, as the downloader meets them: for the address of a
peer, the files of the client process that listens there, `none` when the connection is
refused or the address is not valid; and for each piece index the delivery schedule of the
reply on its connection. -/
structure Network where
  listening : PeerInfo → Option Files
  sched : Int → List Nat

/-- The method `P2PClient::download_piece_from_peer` without the write of the piece file: the
request goes to the serving endpoint of the peer, which receives it in one `recv` of at most
1023 bytes; the bytes it sends back are received by `receive_piece`.  A serving endpoint that
throws ends its process and sends nothing. -/
def download_piece_from_peer (net : Network) (peer : PeerInfo) (filename : Str)
    (piece_index : Int) : Option Str :=
  match net.listening peer with
  | none => none
  | some fs =>
    let request := "GET_PIECE ".toList ++ filename ++ [' '] ++ to_string piece_index ++ ['\n']
    match handle_peer_connection fs (request.take 1023) with
    | .error _ => none
    | .ok sends => receive_piece (flattenSends sends) (net.sched piece_index)

/-- The name of the file of piece `i`: `dest_path + "/" + filename + ".piece" + to_string(i)`. -/
def piece_file (dest_path filename : Str) (piece_index : Int) : Str :=
  dest_path ++ ['/'] ++ filename ++ ".piece".toList ++ to_string piece_index

/-- The name of the assembled file: `dest_path + "/" + filename`. -/
def final_path (dest_path filename : Str) : Str := dest_path ++ ['/'] ++ filename

/-- The variables of the download loop of `piece_selection_algorithm`, with the files of the
downloader. -/
structure LoopState where
  successful_pieces : List Int
  piece_index : Int
  consecutive_failures : Int
  failed_pieces : Int
  downloaded_bytes : Int
  total_bytes : Int
  active_downloads : List (Str × DownloadInfo)
  files : Files

/-- The update "Update active downloads" inside the loop. -/
def updateProgress (filename : Str) (downloaded total : Int)
    (active : List (Str × DownloadInfo)) : List (Str × DownloadInfo) :=
  match mapFind filename active with
  | some info =>
    mapInsert filename { info with downloaded_size := downloaded, total_size := total } active
  | none => active

/-- The loop `while (piece_index < MAX_PIECES && consecutive_failures < MAX_CONSECUTIVE_FAILURES)`
of `piece_selection_algorithm`, for any way `fetch` of getting a piece from a peer.  Each
turn that does not leave the loop adds one to `piece_index`, so `fuel = MAX_PIECES` turns
are enough from `piece_index = 0`. -/
def download_loop (fetch : PeerInfo → Int → Option Str) (working_peers : List PeerInfo)
    (filename dest_path : Str) : Nat → LoopState → LoopState
  | 0, st => st
  | fuel + 1, st =>
    if st.piece_index < 1000 ∧ st.consecutive_failures < 3 then
      let selected_peer :=
        working_peers.getD (st.piece_index.toNat % working_peers.length) default
      match fetch selected_peer st.piece_index with
      | some data =>
        let successful_pieces := st.successful_pieces ++ [st.piece_index]
        let downloaded_bytes := st.downloaded_bytes + 524288
        let total_bytes := max st.total_bytes ((successful_pieces.length + 5 : Int) * 524288)
        download_loop fetch working_peers filename dest_path fuel
          { st with
            successful_pieces := successful_pieces
            consecutive_failures := 0
            downloaded_bytes := downloaded_bytes
            total_bytes := total_bytes
            active_downloads :=
              (updateProgress filename downloaded_bytes total_bytes st.active_downloads)
            files := (Function.update st.files (piece_file dest_path filename st.piece_index)
              (some data))
            piece_index := st.piece_index + 1 }
      | none =>
        let st1 := { st with
          consecutive_failures := st.consecutive_failures + 1
          failed_pieces := st.failed_pieces + 1 }
        if st1.successful_pieces = [] ∧ st1.consecutive_failures < 3 then
          download_loop fetch working_peers filename dest_path fuel
            { st1 with piece_index := st1.piece_index + 1 }
        else if st1.successful_pieces ≠ [] then st1
        else
          download_loop fetch working_peers filename dest_path fuel
            { st1 with piece_index := st1.piece_index + 1 }
    else st

/-- The loop "for (int piece_num : successful_pieces)" that combines the pieces: the bytes
appended to the final file and the files after the `unlink` calls. -/
def combine_pieces (dest_path filename : Str) : List Int → Str × Files → Str × Files
  | [], acc => acc
  | piece_num :: rest, (written, files) =>
    match files (piece_file dest_path filename piece_num) with
    | some content =>
      combine_pieces dest_path filename rest
        (written ++ content,
          Function.update files (piece_file dest_path filename piece_num) none)
    | none => combine_pieces dest_path filename rest (written, files)

/-- The statement `active_downloads.emplace(filename, info)`: nothing changes when the key
is already there. -/
def mapEmplace {V : Type} (k : Str) (v : V) (m : List (Str × V)) : List (Str × V) :=
  if (mapFind k m).isSome then m else mapInsert k v m

/-- What `piece_selection_algorithm` leaves behind: the files of the downloader, the map
`active_downloads` and the pieces that were fetched. -/
structure DownloadResult where
  files : Files
  active_downloads : List (Str × DownloadInfo)
  successful_pieces : List Int

/-- The method `P2PClient::piece_selection_algorithm`, for any way `fetch` of getting a piece
(the display of the progress is left out).  Creating a file in the destination directory
is taken to succeed. -/
def piece_selection_with (fetch : PeerInfo → Int → Option Str)
    (reachable : PeerInfo → Bool) (peers : List PeerInfo) (filename dest_path : Str)
    (active : List (Str × DownloadInfo)) (files : Files) : DownloadResult :=
  let working_peers := peers.filter reachable
  if working_peers = [] then ⟨files, active, []⟩
  else
    let download_info : DownloadInfo := ⟨filename, dest_path, 0, 0, false⟩
    let active1 := mapEmplace filename download_info active
    let st := download_loop fetch working_peers filename dest_path 1000
      ⟨[], 0, 0, 0, 0, 0, active1, files⟩
    if st.successful_pieces = [] then
      let active2 :=
        match mapFind filename st.active_downloads with
        | some info => mapInsert filename { info with is_complete := false } st.active_downloads
        | none => st.active_downloads
      ⟨st.files, active2, []⟩
    else
      let files1 := Function.update st.files (final_path dest_path filename) (some [])
      let sorted := st.successful_pieces.insertionSort (· ≤ ·)
      let r := combine_pieces dest_path filename sorted ([], files1)
      let files2 := Function.update r.2 (final_path dest_path filename) (some r.1)
      let total_bytes_written : Int := r.1.length
      let active2 :=
        match mapFind filename st.active_downloads with
        | some info =>
          mapInsert filename
            { info with is_complete := true, total_size := total_bytes_written,
                        downloaded_size := total_bytes_written }
            st.active_downloads
        | none => st.active_downloads
      ⟨files2, active2, sorted⟩

/-- Files used in examples: one file `F` holding `hello world`. -/
def exampleFiles : Files :=
  fun path => if path = "F".toList then some "hello world".toList else none

/-- The bytes of piece `i` of a file: at most `PIECE_SIZE` bytes from offset `i * PIECE_SIZE`. -/
def piece_of (F : Str) (i : Nat) : Str := (F.drop (i * 524288)).take 524288

/-- The header line `PIECE_DATA <n>` with its newline. -/
def piece_header (n : Nat) : Str := "PIECE_DATA ".toList ++ to_string n ++ ['\n']

/-- The bytes that the serving endpoint sends for piece `i` of a file that has it. -/
def piece_reply (F : Str) (i : Nat) : Str :=
  piece_header (piece_of F i).length ++ piece_of F i

/-- The number of pieces of a file: its size divided by `PIECE_SIZE`, rounded up. -/
def piece_count (F : Str) : Nat := (F.length + 524287) / 524288

/-- A peer used in examples. -/
def examplePeer : PeerInfo := ⟨"10.0.0.1".toList, 7001, "alice".toList⟩

/-- A network used in examples: only `examplePeer` listens; its process can open one file, `F`,
with the given content; every `recv` delivers all that is available. -/
def exampleNetwork (content : Str) : Network :=
  ⟨fun p =>
      if p = examplePeer then
        some (fun path => if path = "F".toList then some content else none)
      else none,
    fun _ => []⟩

/-- The invariant of a `std::set<std::string>`: its elements are in strictly increasing order. -/
abbrev isStdSet (l : List Str) : Prop := l.Pairwise (fun a b => strLt a b = true)

/-- A catalog used in examples: `exampleCatalog` after `alice` has accepted `bob` into `g1`. -/
def exampleAccepted : Tracker :=
  runCommands exampleCatalog ["ACCEPT_REQUEST alice g1 bob"]

/-- A catalog used in examples: `exampleAccepted` after `alice` has uploaded the file `F` of
three pieces to `g1`. -/
def exampleUploaded : Tracker :=
  runCommands exampleAccepted
    ["UPLOAD_FILE alice g1 F 1f2e3d4c aaaaaaaaaaaaaaaaaaaabbbbbbbbbbbbbbbbbbbbcccccccccccccccccccc 1200000"]

/-- The read loop of `P2PClient::calculate_piece_hashes` on what is left of the file:
`file.read(buffer, PIECE_SIZE)` takes the next 524288 bytes, fewer at the end of the file, where
it fails; the loop goes on while the read succeeded or delivered something; each chunk is
hashed by a fresh `SHA1` object and the hash is pushed unless empty.  `fuel` bounds the number
of reads. -/
def pieceHashesLoop : Nat → Str → List Str
  | 0, _ => []
  | fuel + 1, content =>
    let chunk := content.take 524288
    if chunk.length = 524288 ∨ 0 < chunk.length then
      let hash := SHA1.final (SHA1.update SHA1.reset chunk)
      (if hash ≠ [] then [hash] else []) ++ pieceHashesLoop fuel (content.drop 524288)
    else []

/-- The method `P2PClient::calculate_piece_hashes` on the content of the file (`none` for a file
that cannot be opened). -/
def calculate_piece_hashes (file : Option Str) : List Str :=
  match file with
  | none => []
  | some content => pieceHashesLoop (content.length + 1) content

/-- The loop "Create hash string" of `P2PClient::upload_file`: the first 20 characters of each
piece hash, the whole hash when it is shorter. -/
def hash_string (piece_hashes : List Str) : Str :=
  piece_hashes.foldl
    (fun acc hash => acc ++ (if 20 ≤ hash.length then substr hash 0 20 else hash)) []

/-- The expression `filepath.substr(filepath.find_last_of("/\\") + 1)`: what follows the last
slash or backslash, the whole path when there is none. -/
def base_name (filepath : Str) : Str :=
  (filepath.reverse.takeWhile (fun c => c ≠ '/' ∧ c ≠ '\\')).reverse

/-- The command that `P2PClient::upload_file` sends to the tracker, for a logged-in client
whose file opens with the given content and whose connection to the tracker succeeds; `none`
when the function returns `false` before it sends anything. -/
def upload_file_command (user_id group_id filepath content : Str) : Option Str :=
  let file_size : Int := content.length
  if file_size = 0 then none
  else
    let filename := base_name filepath
    if filename = [] then none
    else
      let file_hash := SHA1.from_file (some content)
      if file_hash = [] then none
      else
        let piece_hashes := calculate_piece_hashes (some content)
        if piece_hashes = [] then none
        else
          some ("UPLOAD_FILE ".toList ++ user_id ++ [' '] ++ group_id ++ [' '] ++ filename ++ [' ']
            ++ file_hash ++ [' '] ++ hash_string piece_hashes ++ [' '] ++ to_string file_size
            ++ ['\n'])

/-! ## The reply to `DOWNLOAD_FILE` on the client (`client.cpp`) -/

/-- The method `P2PClient::receive_from_tracker`: one `recv` of at most 1023 bytes into a
buffer that is then read as a C string; the empty string when nothing arrives. -/
def receive_from_tracker (stream : Str) (sched : List Nat) : Str :=
  let r := recv stream sched 1023
  if 0 < r.1.length then c_string r.1 else []

/-- The loop `while (!peer_data.empty() && peer_data.back() == ' ') peer_data.pop_back();`. -/
def strip_trailing_spaces (peer_data : Str) : Str :=
  (peer_data.reverse.dropWhile (fun c => c = ' ')).reverse

/-- The loop "Parse tokens in groups of 3" of `download_file`: a group with an empty token is
skipped, and so is one whose port `std::stoi` rejects; an incomplete last group is
dropped. -/
def parse_peer_tokens : List Str → List PeerInfo
  | ip :: port_str :: username :: rest =>
    if ip = [] ∨ port_str = [] ∨ username = [] then parse_peer_tokens rest
    else
      match stoi port_str with
      | .ok port => ⟨ip, port, username⟩ :: parse_peer_tokens rest
      | .error _ => parse_peer_tokens rest
  | _ => []

/-- The body of the loop of `download_file` over the lines of the response: the peers that
one line adds.  `line.substr(7)` throws `out_of_range` on a line of fewer than 7
characters. -/
def parse_peers_line (line : Str) : Except StdExn (List PeerInfo) :=
  if (strFind "PEERS:".toList line).isSome then
    if line.length < 7 then .error .out_of_range
    else
      let peer_data := strip_trailing_spaces (line.drop 7)
      if peer_data = [] then .ok []
      else .ok (parse_peer_tokens (split_string peer_data ' '))
  else .ok []

/-- The loop of `download_file` over the lines of the response. -/
def parse_peers_lines : List Str → Except StdExn (List PeerInfo)
  | [] => .ok []
  | line :: rest =>
    match parse_peers_line line with
    | .error e => .error e
    | .ok peers =>
      match parse_peers_lines rest with
      | .error e => .error e
      | .ok more => .ok (peers ++ more)

/-- The part of `P2PClient::download_file` between the response of the tracker and the start
of the download thread: the peers handed to `piece_selection_algorithm`, `none` when the
function returns `false`. -/
def download_file_peers (response : Str) : Except StdExn (Option (List PeerInfo)) :=
  if (strFind "ERROR".toList response).isSome then .ok none
  else
    let lines := split_string response '\n'
    if lines = [] then .ok none
    else
      match parse_peers_lines lines with
      | .error e => .error e
      | .ok peers => if peers = [] then .ok none else .ok (some peers)

/-- The online seeders of a seeder list with their endpoints, in the order of the list: what
the reply to `DOWNLOAD_FILE` describes. -/
def onlinePeers (s : Tracker) : List Str → List PeerInfo
  | [] => []
  | peer_id :: rest =>
    match mapFind peer_id s.users with
    | some usr =>
      if usr.online then ⟨usr.ip, usr.port, peer_id⟩ :: onlinePeers s rest
      else onlinePeers s rest
    | none => onlinePeers s rest

/-- A catalog used in examples: a user named `ERROR` uploads the file `F` to a group of their own. -/
def exampleErrorName : Tracker :=
  runCommands Tracker.empty
    ["CREATE_USER ERROR pw", "LOGIN ERROR pw 10.0.0.3 7003", "CREATE_GROUP ERROR g1",
     "UPLOAD_FILE ERROR g1 F 1f2e3d4c aaaaaaaaaaaaaaaaaaaa 9"]

/-- The three tokens that the reply to `DOWNLOAD_FILE` holds for one peer. -/
def peerTokens (p : PeerInfo) : List Str := [p.ip, to_string p.port, p.user_id]

/-- A token that the reply to `DOWNLOAD_FILE` carries unharmed: not empty, and without space,
newline or NUL. -/
abbrev wireToken (t : Str) : Prop :=
  t ≠ [] ∧ ' ' ∉ t ∧ '\n' ∉ t ∧ ∀ c ∈ t, c.toNat ≠ 0

/-- The command that `P2PClient::stop_share` sends to the tracker. -/
def stop_share_command (user_id group_id filename : Str) : Str :=
  "STOP_SHARE ".toList ++ user_id ++ [' '] ++ group_id ++ [' '] ++ filename ++ ['\n']

/-- One turn of the loop of `piece_selection_algorithm`: `none` when the loop condition
fails; otherwise the peer and the piece index of the call of `download_piece_from_peer`, the
state after the turn, and whether the loop goes on (`false` after `break`). -/
def download_turn (fetch : PeerInfo → Int → Option Str) (working_peers : List PeerInfo)
    (filename dest_path : Str) (st : LoopState) : Option (PeerInfo × Int × LoopState × Bool) :=
  if st.piece_index < 1000 ∧ st.consecutive_failures < 3 then
    let selected_peer :=
      working_peers.getD (st.piece_index.toNat % working_peers.length) default
    match fetch selected_peer st.piece_index with
    | some data =>
      let successful_pieces := st.successful_pieces ++ [st.piece_index]
      let downloaded_bytes := st.downloaded_bytes + 524288
      let total_bytes := max st.total_bytes ((successful_pieces.length + 5 : Int) * 524288)
      some (selected_peer, st.piece_index,
        { st with
          successful_pieces := successful_pieces
          consecutive_failures := 0
          downloaded_bytes := downloaded_bytes
          total_bytes := total_bytes
          active_downloads :=
            (updateProgress filename downloaded_bytes total_bytes st.active_downloads)
          files := (Function.update st.files (piece_file dest_path filename st.piece_index)
            (some data))
          piece_index := st.piece_index + 1 }, true)
    | none =>
      let st1 := { st with
        consecutive_failures := st.consecutive_failures + 1
        failed_pieces := st.failed_pieces + 1 }
      if st1.successful_pieces = [] ∧ st1.consecutive_failures < 3 then
        some (selected_peer, st.piece_index, { st1 with piece_index := st1.piece_index + 1 }, true)
      else if st1.successful_pieces ≠ [] then
        some (selected_peer, st.piece_index, st1, false)
      else
        some (selected_peer, st.piece_index, { st1 with piece_index := st1.piece_index + 1 }, true)
  else none

/-- The calls of `download_piece_from_peer` that the loop of `piece_selection_algorithm`
makes, in order: the peer and the piece index of each. -/
def download_calls (fetch : PeerInfo → Int → Option Str) (working_peers : List PeerInfo)
    (filename dest_path : Str) : Nat → LoopState → List (PeerInfo × Int)
  | 0, _ => []
  | fuel + 1, st =>
    match download_turn fetch working_peers filename dest_path st with
    | none => []
    | some (peer, i, st1, go) =>
      (peer, i) ::
        (if go then download_calls fetch working_peers filename dest_path fuel st1 else [])

/-- The state of the loop of `piece_selection_algorithm` when it is entered: nothing fetched
yet, with the map `active_downloads` and the files of the downloader. -/
def loop_start (active : List (Str × DownloadInfo)) (files : Files) : LoopState :=
  ⟨[], 0, 0, 0, 0, 0, active, files⟩

/-- The percentage that the loop passes to the progress display:
`min(total > 0 ? downloaded * 100 / total : 0, 95)`. -/
def progress_percent (downloaded_bytes total_bytes : Int) : Int :=
  min (if total_bytes > 0 then (downloaded_bytes * 100) / total_bytes else 0) 95

/-- The expression `working_peers[piece_index % working_peers.size()]`. -/
def selected_peer (working_peers : List PeerInfo) (piece_index : Int) : PeerInfo :=
  working_peers.getD (piece_index.toNat % working_peers.length) default

/-- The agreement of the two membership records of a catalog: `g` is in `users[u].groups`
exactly when `u` is in `groups[g].members`, and whoever is a member of a group or has a
pending request in it is a key of `users`. -/
def MembershipAgree (s : Tracker) : Prop :=
  (∀ u g : Str,
    (∃ usr : User, mapFind u s.users = some usr ∧ g ∈ usr.groups) ↔
      (∃ grp : Group, mapFind g s.groups = some grp ∧ u ∈ grp.members)) ∧
  (∀ u g : Str,
    (∃ grp : Group, mapFind g s.groups = some grp ∧
      (u ∈ grp.members ∨ u ∈ grp.pending_requests)) →
    ∃ usr : User, mapFind u s.users = some usr)

/-- The percentage that `P2PClient::show_downloads` prints for an entry of
`active_downloads`: `total_size > 0 ? downloaded_size * 100 / total_size : 0`, without a
cap. -/
def show_downloads_progress (info : DownloadInfo) : Int :=
  if info.total_size > 0 then (info.downloaded_size * 100) / info.total_size else 0

/-- A catalog used in examples: `alice`, logged in from the address `ip`, owns the group `g1`
and is the one seeder of `F` in it.  It is the catalog after `CREATE_USER alice pw`,
`LOGIN alice pw <ip> 7001`, `CREATE_GROUP alice g1` and an `UPLOAD_FILE` of `F`. -/
def exampleSeederAt (ip : Str) : Tracker :=
  ⟨[("alice".toList, ⟨"alice".toList, "pw".toList, ip, 7001, true, ["g1".toList]⟩)],
    [("g1".toList,
      ⟨"g1".toList, "alice".toList, ["alice".toList], [], [("F".toList, ["alice".toList])]⟩)],
    [("1f2e3d4c".toList,
      ⟨"F".toList, "1f2e3d4c".toList, ["aaaaaaaaaaaaaaaaaaaa".toList], 9, "alice".toList,
        "g1".toList⟩)]⟩

theorem mapFind_mapInsert {V : Type} (k k2 : Str) (v : V) (m : List (Str × V)) :
    mapFind k2 (mapInsert k v m) = if k2 = k then some v else mapFind k2 m := by
  induction m with
  | nil =>
    by_cases h : k2 = k
    · simp [mapInsert, mapFind, h]
    · have h2 : ¬ k = k2 := fun e => h e.symm
      simp [mapInsert, mapFind, h, h2]
  | cons p rest ih =>
    obtain ⟨k1, v1⟩ := p
    by_cases h : k2 = k
    · subst h
      rw [if_pos rfl]
      unfold mapInsert
      split
      · simp [mapFind]
      · split
        · simp [mapFind]
        · rename_i h1
          rw [mapFind, if_neg h1, ih, if_pos rfl]
    · have h2 : ¬ k = k2 := fun e => h e.symm
      rw [if_neg h]
      unfold mapInsert
      split
      · rw [mapFind, if_neg h2]
      · split
        · rename_i h1
          subst h1
          rw [mapFind, if_neg h2, mapFind, if_neg h2]
        · rw [mapFind, ih, if_neg h, mapFind]

theorem mapFind_mapModify {V : Type} (dflt : V) (k k2 : Str) (f : V → V) (m : List (Str × V)) :
    mapFind k2 (mapModify dflt k f m)
      = if k2 = k then some (f ((mapFind k m).getD dflt)) else mapFind k2 m := by
  unfold mapModify
  exact mapFind_mapInsert k k2 _ m

theorem mem_setInsert (a x : Str) (s : List Str) : a ∈ setInsert x s ↔ a = x ∨ a ∈ s := by
  induction s with
  | nil => simp [setInsert]
  | cons y ys ih =>
    unfold setInsert
    split
    · simp
    · split
      · rename_i hy
        subst hy
        simp
      · rw [List.mem_cons, ih, List.mem_cons]
        tauto

theorem mem_setErase (a x : Str) (s : List Str) : a ∈ setErase x s ↔ a ≠ x ∧ a ∈ s := by
  unfold setErase
  rw [List.mem_filter]
  simp only [Bool.not_eq_true', decide_eq_false_iff_not, ne_eq]
  tauto

/-! ## What a command does to a group -/

theorem handle_create_group_step (s : Tracker) (tokens : List Str) (g : Str) :
    GroupStep s tokens g (mapFind g s.groups)
      (mapFind g (handle_create_group s tokens).2.groups) := by
  unfold handle_create_group
  split
  · rename_i hd user_id group_id tl
    split
    · exact GroupStep.same _
    · rename_i hlog
      split
      · exact GroupStep.same _
      · rename_i hnew
        dsimp only
        rw [mapFind_mapInsert]
        by_cases hg : g = group_id
        · subst hg
          rw [if_pos rfl]
          have hnone : mapFind g s.groups = none := by
            cases hf : mapFind g s.groups with
            | none => rfl
            | some v => rw [hf] at hnew; simp at hnew
          rw [hnone]
          exact GroupStep.create hd user_id tl rfl (by simpa using hlog)
        · rw [if_neg hg]
          exact GroupStep.same _
  · exact GroupStep.same _

theorem handle_join_group_step (s : Tracker) (tokens : List Str) (g : Str) :
    GroupStep s tokens g (mapFind g s.groups)
      (mapFind g (handle_join_group s tokens).2.groups) := by
  unfold handle_join_group
  split
  · rename_i hd user_id group_id tl
    split
    · exact GroupStep.same _
    · rename_i hlog
      split
      · exact GroupStep.same _
      · rename_i grp hfind
        split
        · exact GroupStep.same _
        · rename_i hmem
          dsimp only
          rw [mapFind_mapModify]
          by_cases hg : g = group_id
          · subst hg
            rw [if_pos rfl, hfind]
            exact GroupStep.join hd user_id tl grp rfl (by simpa using hlog) hmem
          · rw [if_neg hg]
            exact GroupStep.same _
  · exact GroupStep.same _

theorem handle_leave_group_step (s : Tracker) (tokens : List Str) (g : Str) :
    GroupStep s tokens g (mapFind g s.groups)
      (mapFind g (handle_leave_group s tokens).2.groups) := by
  unfold handle_leave_group
  split
  · rename_i hd user_id group_id tl
    split
    · exact GroupStep.same _
    · rename_i hlog
      split
      · exact GroupStep.same _
      · rename_i grp hfind
        split
        · exact GroupStep.same _
        · rename_i hmem
          dsimp only
          rw [mapFind_mapModify]
          by_cases hg : g = group_id
          · subst hg
            rw [if_pos rfl, hfind]
            exact GroupStep.leave hd user_id tl grp rfl (by simpa using hlog)
              (Decidable.not_not.mp hmem)
          · rw [if_neg hg]
            exact GroupStep.same _
  · exact GroupStep.same _

theorem handle_accept_request_step (s : Tracker) (tokens : List Str) (g : Str) :
    GroupStep s tokens g (mapFind g s.groups)
      (mapFind g (handle_accept_request s tokens).2.groups) := by
  unfold handle_accept_request
  split
  · rename_i hd owner_id group_id user_id tl
    split
    · exact GroupStep.same _
    · rename_i hlog
      split
      · exact GroupStep.same _
      · rename_i grp hfind
        split
        · exact GroupStep.same _
        · rename_i howner
          split
          · exact GroupStep.same _
          · rename_i hpend
            dsimp only
            rw [mapFind_mapModify]
            by_cases hg : g = group_id
            · subst hg
              rw [if_pos rfl, hfind]
              exact GroupStep.accept hd owner_id user_id tl grp rfl (by simpa using hlog)
                (Decidable.not_not.mp howner) (Decidable.not_not.mp hpend)
            · rw [if_neg hg]
              exact GroupStep.same _
  · exact GroupStep.same _

theorem handle_upload_file_step (s : Tracker) (tokens : List Str) (g : Str)
    (hverb : tokens.head? = some "UPLOAD_FILE".toList) :
    GroupStep s tokens g (mapFind g s.groups)
      (mapFind g (handle_upload_file s tokens).2.groups) := by
  unfold handle_upload_file
  split
  · rename_i hd user_id group_id filename file_hash blob size_tok tl
    have hhd : hd = "UPLOAD_FILE".toList := by simpa using hverb
    subst hhd
    split
    · exact GroupStep.same _
    · split
      · exact GroupStep.same _
      · rename_i hlog
        split
        · exact GroupStep.same _
        · rename_i grp hfind
          split
          · exact GroupStep.same _
          · rename_i hmem
            dsimp only
            rw [mapFind_mapModify]
            by_cases hg : g = group_id
            · subst hg
              rw [if_pos rfl, hfind]
              exact GroupStep.upload user_id filename _ grp rfl (by simpa using hlog)
                (Decidable.not_not.mp hmem)
            · rw [if_neg hg]
              exact GroupStep.same _
  · exact GroupStep.same _

theorem handle_login_groups (s s1 : Tracker) (tokens : List Str) (reply : Str)
    (h : handle_login s tokens = .ok (reply, s1)) : s1.groups = s.groups := by
  unfold handle_login at h
  split at h
  · split at h
    · cases h
    · split at h
      · cases h; rfl
      · split at h
        · cases h; rfl
        · cases h; rfl
  · cases h; rfl

theorem handle_create_user_groups (s : Tracker) (tokens : List Str) :
    (handle_create_user s tokens).2.groups = s.groups := by
  unfold handle_create_user
  split
  · split <;> rfl
  · rfl

theorem handle_logout_groups (s : Tracker) (tokens : List Str) :
    (handle_logout s tokens).2.groups = s.groups := by
  unfold handle_logout
  split
  · split <;> rfl
  · rfl

theorem handle_list_groups_state (s : Tracker) (tokens : List Str) :
    (handle_list_groups s tokens).2 = s := by
  unfold handle_list_groups
  split <;> rfl

theorem handle_list_requests_state (s : Tracker) (tokens : List Str) :
    (handle_list_requests s tokens).2 = s := by
  unfold handle_list_requests
  repeat (first | rfl | split)

theorem handle_list_files_state (s : Tracker) (tokens : List Str) :
    (handle_list_files s tokens).2 = s := by
  unfold handle_list_files
  repeat (first | rfl | split)

theorem handle_download_file_state (s : Tracker) (tokens : List Str) :
    (handle_download_file s tokens).2 = s := by
  unfold handle_download_file
  repeat (first | rfl | split)

theorem ok_parts {a : Str × Tracker} {reply : Str} {s1 : Tracker}
    (h : (Except.ok a : Except StdExn (Str × Tracker)) = .ok (reply, s1)) :
    s1 = a.2 ∧ reply = a.1 := by
  cases h
  exact ⟨rfl, rfl⟩

/-- Every command that `process_command` answers changes each group by one `GroupStep`. -/
theorem process_command_groupStep (s s1 : Tracker) (command reply : Str)
    (h : process_command s command = .ok (reply, s1)) (g : Str) :
    GroupStep s (split_string command ' ') g (mapFind g s.groups) (mapFind g s1.groups) := by
  unfold process_command at h
  generalize split_string command ' ' = tokens at h ⊢
  dsimp only at h
  split at h
  · obtain ⟨e, -⟩ := ok_parts h; subst e; exact GroupStep.same _
  · rename_i verb tl
    by_cases h1 : verb = "CREATE_USER".toList
    · rw [if_pos h1] at h
      obtain ⟨e, -⟩ := ok_parts h; subst e; rw [handle_create_user_groups]; exact GroupStep.same _
    rw [if_neg h1] at h
    by_cases h2 : verb = "LOGIN".toList
    · rw [if_pos h2] at h
      rw [handle_login_groups s s1 _ reply h]; exact GroupStep.same _
    rw [if_neg h2] at h
    by_cases h3 : verb = "CREATE_GROUP".toList
    · rw [if_pos h3] at h
      obtain ⟨e, -⟩ := ok_parts h; subst e; exact handle_create_group_step s _ g
    rw [if_neg h3] at h
    by_cases h4 : verb = "JOIN_GROUP".toList
    · rw [if_pos h4] at h
      obtain ⟨e, -⟩ := ok_parts h; subst e; exact handle_join_group_step s _ g
    rw [if_neg h4] at h
    by_cases h5 : verb = "LEAVE_GROUP".toList
    · rw [if_pos h5] at h
      obtain ⟨e, -⟩ := ok_parts h; subst e; exact handle_leave_group_step s _ g
    rw [if_neg h5] at h
    by_cases h6 : verb = "LIST_GROUPS".toList
    · rw [if_pos h6] at h
      obtain ⟨e, -⟩ := ok_parts h; subst e; rw [handle_list_groups_state]; exact GroupStep.same _
    rw [if_neg h6] at h
    by_cases h7 : verb = "LIST_REQUESTS".toList
    · rw [if_pos h7] at h
      obtain ⟨e, -⟩ := ok_parts h; subst e; rw [handle_list_requests_state]; exact GroupStep.same _
    rw [if_neg h7] at h
    by_cases h8 : verb = "ACCEPT_REQUEST".toList
    · rw [if_pos h8] at h
      obtain ⟨e, -⟩ := ok_parts h; subst e; exact handle_accept_request_step s _ g
    rw [if_neg h8] at h
    by_cases h9 : verb = "LIST_FILES".toList
    · rw [if_pos h9] at h
      obtain ⟨e, -⟩ := ok_parts h; subst e; rw [handle_list_files_state]; exact GroupStep.same _
    rw [if_neg h9] at h
    by_cases h10 : verb = "UPLOAD_FILE".toList
    · rw [if_pos h10] at h
      obtain ⟨e, -⟩ := ok_parts h; subst e
      exact handle_upload_file_step s _ g (by rw [h10]; rfl)
    rw [if_neg h10] at h
    by_cases h11 : verb = "DOWNLOAD_FILE".toList
    · rw [if_pos h11] at h
      obtain ⟨e, -⟩ := ok_parts h; subst e; rw [handle_download_file_state]; exact GroupStep.same _
    rw [if_neg h11] at h
    by_cases h12 : verb = "LOGOUT".toList
    · rw [if_pos h12] at h
      obtain ⟨e, -⟩ := ok_parts h; subst e; rw [handle_logout_groups]; exact GroupStep.same _
    rw [if_neg h12] at h
    obtain ⟨e, -⟩ := ok_parts h; subst e; exact GroupStep.same _

theorem reachable_runCommands (s : Tracker) (h : Reachable s) (cmds : List String) :
    Reachable (runCommands s cmds) := by
  induction cmds generalizing s with
  | nil => exact h
  | cons c cs ih =>
    unfold runCommands
    cases hp : process_command s c.toList with
    | error e => exact ih s h
    | ok a =>
      obtain ⟨reply, s1⟩ := a
      exact ih s1 (Reachable.step h hp)

theorem leaveUpdate_members (u : Str) (g : Group) :
    (leaveUpdate u g).members = setErase u g.members := by
  unfold leaveUpdate
  dsimp only
  split
  · split <;> simp_all
  · simp_all

theorem leaveUpdate_pending (u : Str) (g : Group) :
    (leaveUpdate u g).pending_requests = g.pending_requests := by
  unfold leaveUpdate
  dsimp only
  split
  · split <;> rfl
  · rfl

theorem leaveUpdate_shared_files (u : Str) (g : Group) :
    (leaveUpdate u g).shared_files = g.shared_files := by
  unfold leaveUpdate
  dsimp only
  split
  · split <;> rfl
  · rfl

/-- A property of groups that the creation of a group establishes and the four updates
preserve holds of every group of every reachable catalog. -/
theorem reachable_group_inv (P : Group → Prop)
    (hcreate : ∀ g u : Str, P ⟨g, u, setInsert u [], [], []⟩)
    (hjoin : ∀ (grp : Group) (u : Str), P grp → u ∉ grp.members →
      P { grp with pending_requests := setInsert u grp.pending_requests })
    (hleave : ∀ (grp : Group) (u : Str), P grp → u ∈ grp.members → P (leaveUpdate u grp))
    (haccept : ∀ (grp : Group) (v : Str), P grp → v ∈ grp.pending_requests →
      P (acceptUpdate v grp))
    (hupload : ∀ (grp : Group) (f u : Str), P grp → u ∈ grp.members → P (addSeeder f u grp))
    (s : Tracker) (h : Reachable s) :
    ∀ (g : Str) (grp : Group), mapFind g s.groups = some grp → P grp := by
  induction h with
  | init =>
    intro g grp hg
    simp [Tracker.empty, mapFind] at hg
  | step hr hp ih =>
    rename_i s0 s1 command reply
    intro g grp hg
    have hstep := process_command_groupStep s0 s1 command reply hp g
    rw [hg] at hstep
    generalize hO : mapFind g s0.groups = o at hstep
    generalize hN : some grp = n at hstep
    cases hstep with
    | same => subst hN; exact ih g grp hO
    | create verb u rest _ _ => cases hN; exact hcreate g u
    | join verb u rest grp0 _ _ hmem => cases hN; exact hjoin grp0 u (ih g grp0 hO) hmem
    | leave verb u rest grp0 _ _ hmem => cases hN; exact hleave grp0 u (ih g grp0 hO) hmem
    | accept verb owner v rest grp0 _ _ _ hpend =>
      cases hN; exact haccept grp0 v (ih g grp0 hO) hpend
    | upload u f rest grp0 _ _ hmem => cases hN; exact hupload grp0 f u (ih g grp0 hO) hmem

/-- Claim C4: in every catalog reachable from the empty one through `process_command`, no
user is at once in the pending requests and in the members of a group. -/
theorem C4_pending_disjoint_members (s : Tracker) (h : Reachable s) (g : Str) (grp : Group)
    (hg : mapFind g s.groups = some grp) (u : Str) (hp : u ∈ grp.pending_requests) :
    u ∉ grp.members := by
  refine reachable_group_inv (fun grp => ∀ u, u ∈ grp.pending_requests → u ∉ grp.members)
    ?_ ?_ ?_ ?_ ?_ s h g grp hg u hp
  · intro g u v hv
    simp at hv
  · intro grp u ih hmem v hv
    dsimp only at hv ⊢
    rcases (mem_setInsert v u _).mp hv with e | hv2
    · subst e; exact hmem
    · exact ih v hv2
  · intro grp u ih _ v hv
    rw [leaveUpdate_pending] at hv
    rw [leaveUpdate_members, mem_setErase]
    exact fun hc => ih v hv hc.2
  · intro grp w ih _ v hv
    unfold acceptUpdate at hv ⊢
    dsimp only at hv ⊢
    rw [mem_setErase] at hv
    rw [mem_setInsert]
    rintro (e | hc)
    · exact hv.1 e
    · exact ih v hv.2 hc
  · intro grp f u ih _ v hv
    exact ih v hv

theorem exampleCatalog_reachable : Reachable exampleCatalog :=
  reachable_runCommands _ Reachable.init _

theorem C4_pending_disjoint_members_witness :
    Reachable exampleCatalog ∧
      mapFind "g1".toList exampleCatalog.groups
        = some ⟨"g1".toList, "alice".toList, ["alice".toList], ["bob".toList], []⟩ ∧
      "bob".toList ∈ ["bob".toList] ∧ "bob".toList ∉ ["alice".toList] :=
  ⟨exampleCatalog_reachable, by decide, by decide,
    C4_pending_disjoint_members exampleCatalog exampleCatalog_reachable "g1".toList
      ⟨"g1".toList, "alice".toList, ["alice".toList], ["bob".toList], []⟩
      (by decide) "bob".toList (by decide)⟩

/-- Claim C3: the owner of a group can stay owner after leaving it as its last member, and can
then accept a pending request: the group has a member and its owner is not one.  The
catalog below is reached by eight commands. -/
theorem C3_owner_outside_members :
    Reachable (runCommands Tracker.empty
        ["CREATE_USER alice pw", "LOGIN alice pw 10.0.0.1 7001", "CREATE_USER bob pw",
          "LOGIN bob pw 10.0.0.2 7002", "CREATE_GROUP alice g1", "JOIN_GROUP bob g1",
          "LEAVE_GROUP alice g1", "ACCEPT_REQUEST alice g1 bob"]) ∧
      ∃ grp : Group,
        mapFind "g1".toList (runCommands Tracker.empty
          ["CREATE_USER alice pw", "LOGIN alice pw 10.0.0.1 7001", "CREATE_USER bob pw",
            "LOGIN bob pw 10.0.0.2 7002", "CREATE_GROUP alice g1", "JOIN_GROUP bob g1",
            "LEAVE_GROUP alice g1", "ACCEPT_REQUEST alice g1 bob"]).groups = some grp ∧
        grp.members = ["bob".toList] ∧ grp.owner = "alice".toList ∧
        grp.owner ∉ grp.members :=
  ⟨reachable_runCommands _ Reachable.init _,
    ⟨"g1".toList, "alice".toList, ["bob".toList], [], []⟩,
    by decide, by decide, by decide, by decide⟩

/-- Case analysis on `process_command`: a property of its result follows from the property
of each handler's result, of the two fixed error replies, each under the verb that
selects it. -/
theorem process_command_cases (Q : Except StdExn (Str × Tracker) → Prop) (s : Tracker)
    (command : Str)
    (hempty : split_string command ' ' = [] → Q (.ok ("ERROR: Empty command\n".toList, s)))
    (hunknown : Q (.ok ("ERROR: Unknown command\n".toList, s)))
    (hcu : (split_string command ' ').head? = some "CREATE_USER".toList →
      Q (.ok (handle_create_user s (split_string command ' '))))
    (hlogin : (split_string command ' ').head? = some "LOGIN".toList →
      Q (handle_login s (split_string command ' ')))
    (hcg : (split_string command ' ').head? = some "CREATE_GROUP".toList →
      Q (.ok (handle_create_group s (split_string command ' '))))
    (hjg : (split_string command ' ').head? = some "JOIN_GROUP".toList →
      Q (.ok (handle_join_group s (split_string command ' '))))
    (hlg : (split_string command ' ').head? = some "LEAVE_GROUP".toList →
      Q (.ok (handle_leave_group s (split_string command ' '))))
    (hlgs : (split_string command ' ').head? = some "LIST_GROUPS".toList →
      Q (.ok (handle_list_groups s (split_string command ' '))))
    (hlr : (split_string command ' ').head? = some "LIST_REQUESTS".toList →
      Q (.ok (handle_list_requests s (split_string command ' '))))
    (har : (split_string command ' ').head? = some "ACCEPT_REQUEST".toList →
      Q (.ok (handle_accept_request s (split_string command ' '))))
    (hlf : (split_string command ' ').head? = some "LIST_FILES".toList →
      Q (.ok (handle_list_files s (split_string command ' '))))
    (huf : (split_string command ' ').head? = some "UPLOAD_FILE".toList →
      Q (.ok (handle_upload_file s (split_string command ' '))))
    (hdf : (split_string command ' ').head? = some "DOWNLOAD_FILE".toList →
      Q (.ok (handle_download_file s (split_string command ' '))))
    (hlo : (split_string command ' ').head? = some "LOGOUT".toList →
      Q (.ok (handle_logout s (split_string command ' ')))) :
    Q (process_command s command) := by
  unfold process_command
  generalize split_string command ' ' = tokens at *
  dsimp only
  split
  · exact hempty rfl
  · rename_i verb tl
    have hhead : ∀ v : Str, verb = v → (verb :: tl).head? = some v := by
      intro v e; rw [e]; rfl
    by_cases h1 : verb = "CREATE_USER".toList
    · rw [if_pos h1]; exact hcu (hhead _ h1)
    rw [if_neg h1]
    by_cases h2 : verb = "LOGIN".toList
    · rw [if_pos h2]; exact hlogin (hhead _ h2)
    rw [if_neg h2]
    by_cases h3 : verb = "CREATE_GROUP".toList
    · rw [if_pos h3]; exact hcg (hhead _ h3)
    rw [if_neg h3]
    by_cases h4 : verb = "JOIN_GROUP".toList
    · rw [if_pos h4]; exact hjg (hhead _ h4)
    rw [if_neg h4]
    by_cases h5 : verb = "LEAVE_GROUP".toList
    · rw [if_pos h5]; exact hlg (hhead _ h5)
    rw [if_neg h5]
    by_cases h6 : verb = "LIST_GROUPS".toList
    · rw [if_pos h6]; exact hlgs (hhead _ h6)
    rw [if_neg h6]
    by_cases h7 : verb = "LIST_REQUESTS".toList
    · rw [if_pos h7]; exact hlr (hhead _ h7)
    rw [if_neg h7]
    by_cases h8 : verb = "ACCEPT_REQUEST".toList
    · rw [if_pos h8]; exact har (hhead _ h8)
    rw [if_neg h8]
    by_cases h9 : verb = "LIST_FILES".toList
    · rw [if_pos h9]; exact hlf (hhead _ h9)
    rw [if_neg h9]
    by_cases h10 : verb = "UPLOAD_FILE".toList
    · rw [if_pos h10]; exact huf (hhead _ h10)
    rw [if_neg h10]
    by_cases h11 : verb = "DOWNLOAD_FILE".toList
    · rw [if_pos h11]; exact hdf (hhead _ h11)
    rw [if_neg h11]
    by_cases h12 : verb = "LOGOUT".toList
    · rw [if_pos h12]; exact hlo (hhead _ h12)
    rw [if_neg h12]
    exact hunknown

/-! ## Replies and the catalog -/

theorem handle_create_user_kept (s : Tracker) (tokens : List Str) :
    (handle_create_user s tokens).2 = s ∨ (handle_create_user s tokens).1.head? = some 'S' := by
  unfold handle_create_user
  repeat (first | (left; rfl) | (right; rfl) | split)

theorem handle_create_group_kept (s : Tracker) (tokens : List Str) :
    (handle_create_group s tokens).2 = s ∨
      (handle_create_group s tokens).1.head? = some 'S' := by
  unfold handle_create_group
  repeat (first | (left; rfl) | (right; rfl) | split)

theorem handle_join_group_kept (s : Tracker) (tokens : List Str) :
    (handle_join_group s tokens).2 = s ∨ (handle_join_group s tokens).1.head? = some 'S' := by
  unfold handle_join_group
  repeat (first | (left; rfl) | (right; rfl) | split)

theorem handle_leave_group_kept (s : Tracker) (tokens : List Str) :
    (handle_leave_group s tokens).2 = s ∨ (handle_leave_group s tokens).1.head? = some 'S' := by
  unfold handle_leave_group
  repeat (first | (left; rfl) | (right; rfl) | split)

theorem handle_accept_request_kept (s : Tracker) (tokens : List Str) :
    (handle_accept_request s tokens).2 = s ∨
      (handle_accept_request s tokens).1.head? = some 'S' := by
  unfold handle_accept_request
  repeat (first | (left; rfl) | (right; rfl) | split)

theorem handle_upload_file_kept (s : Tracker) (tokens : List Str) :
    (handle_upload_file s tokens).2 = s ∨ (handle_upload_file s tokens).1.head? = some 'S' := by
  unfold handle_upload_file
  repeat (first | (left; rfl) | (right; rfl) | split)

theorem handle_logout_kept (s : Tracker) (tokens : List Str) :
    (handle_logout s tokens).2 = s ∨ (handle_logout s tokens).1.head? = some 'S' := by
  unfold handle_logout
  repeat (first | (left; rfl) | (right; rfl) | split)

theorem handle_login_kept (s s1 : Tracker) (tokens : List Str) (reply : Str)
    (h : handle_login s tokens = .ok (reply, s1)) : s1 = s ∨ reply.head? = some 'S' := by
  unfold handle_login at h
  split at h
  · split at h
    · cases h
    · split at h
      · cases h; left; rfl
      · split at h
        · cases h; left; rfl
        · cases h; right; rfl
  · cases h; left; rfl

theorem error_prefix_head (reply : Str) (h : "ERROR:".toList <+: reply) :
    reply.head? = some 'E' := by
  obtain ⟨t, rfl⟩ := h
  rfl

/-- Claim C7: a command whose reply begins with `ERROR:` leaves the users, the groups and the
files of the catalog as they were. -/
theorem C7_error_reply_keeps_state (s s1 : Tracker) (command reply : Str)
    (h : process_command s command = .ok (reply, s1))
    (herr : "ERROR:".toList <+: reply) :
    s1.users = s.users ∧ s1.groups = s.groups ∧ s1.files = s.files := by
  have hE := error_prefix_head reply herr
  have key : ∀ a : Str × Tracker, (a.2 = s ∨ a.1.head? = some 'S') →
      (Except.ok a : Except StdExn (Str × Tracker)) = .ok (reply, s1) → s1 = s := by
    intro a ha e
    obtain ⟨e1, e2⟩ := ok_parts e
    rcases ha with ha | ha
    · rw [e1, ha]
    · rw [e2, ha] at hE
      exact absurd hE (by decide)
  have hs : s1 = s := by
    revert h
    refine process_command_cases (fun r => r = .ok (reply, s1) → s1 = s) s command
      ?_ ?_ ?_ ?_ ?_ ?_ ?_ ?_ ?_ ?_ ?_ ?_ ?_ ?_
    · intro _ e; exact key _ (Or.inl rfl) e
    · intro e; exact key _ (Or.inl rfl) e
    · intro _ e; exact key _ (handle_create_user_kept s _) e
    · intro _ e
      rcases handle_login_kept s s1 _ reply e with h1 | h1
      · exact h1
      · rw [h1] at hE
        exact absurd hE (by decide)
    · intro _ e; exact key _ (handle_create_group_kept s _) e
    · intro _ e; exact key _ (handle_join_group_kept s _) e
    · intro _ e; exact key _ (handle_leave_group_kept s _) e
    · intro _ e; exact key _ (Or.inl (handle_list_groups_state s _)) e
    · intro _ e; exact key _ (Or.inl (handle_list_requests_state s _)) e
    · intro _ e; exact key _ (handle_accept_request_kept s _) e
    · intro _ e; exact key _ (Or.inl (handle_list_files_state s _)) e
    · intro _ e; exact key _ (handle_upload_file_kept s _) e
    · intro _ e; exact key _ (Or.inl (handle_download_file_state s _)) e
    · intro _ e; exact key _ (handle_logout_kept s _) e
  subst hs
  exact ⟨rfl, rfl, rfl⟩

theorem C7_error_reply_keeps_state_witness :
    process_command exampleCatalog "JOIN_GROUP alice g2".toList
        = .ok ("ERROR: Group not found\n".toList, exampleCatalog) ∧
      "ERROR:".toList <+: "ERROR: Group not found\n".toList ∧
      (exampleCatalog.users = exampleCatalog.users ∧
        exampleCatalog.groups = exampleCatalog.groups ∧
        exampleCatalog.files = exampleCatalog.files) :=
  ⟨rfl, by decide,
    C7_error_reply_keeps_state exampleCatalog exampleCatalog "JOIN_GROUP alice g2".toList
      "ERROR: Group not found\n".toList rfl (by decide)⟩

/-! ## Seeder lists -/

theorem addSeeder_shared_files (f u f2 : Str) (grp : Group) :
    mapFind f2 (addSeeder f u grp).shared_files
      = if f2 = f then
          some (if u ∈ (mapFind f grp.shared_files).getD []
            then (mapFind f grp.shared_files).getD []
            else (mapFind f grp.shared_files).getD [] ++ [u])
        else mapFind f2 grp.shared_files := by
  unfold addSeeder
  dsimp only
  rw [mapFind_mapInsert]

theorem seeders_of_find (s : Tracker) (g f : Str) (grp : Group)
    (hg : mapFind g s.groups = some grp) :
    s.seeders g f = (mapFind f grp.shared_files).getD [] := by
  unfold Tracker.seeders
  rw [hg]

/-- Any answered command leaves a seeder list as it was or appends to it the user of an
`UPLOAD_FILE` command for that group and file; that user is then logged in, a member of
the group, and was not in the list. -/
theorem process_command_seeders (s s1 : Tracker) (command reply : Str)
    (h : process_command s command = .ok (reply, s1)) (g f : Str) :
    s1.seeders g f = s.seeders g f ∨
      ∃ (u : Str) (rest : List Str) (grp : Group),
        split_string command ' ' = "UPLOAD_FILE".toList :: u :: g :: f :: rest ∧
        s.loggedIn u = true ∧ mapFind g s.groups = some grp ∧ u ∈ grp.members ∧
        u ∉ s.seeders g f ∧ s1.seeders g f = s.seeders g f ++ [u] := by
  have hstep := process_command_groupStep s s1 command reply h g
  generalize hO : mapFind g s.groups = o at hstep
  generalize hN : mapFind g s1.groups = n at hstep
  cases hstep with
  | same =>
    left
    unfold Tracker.seeders
    rw [hO, hN]
  | create verb u rest _ _ =>
    left
    unfold Tracker.seeders
    rw [hO, hN]
    rfl
  | join verb u rest grp0 _ _ _ =>
    left
    rw [seeders_of_find s1 g f _ hN, seeders_of_find s g f _ hO]
  | leave verb u rest grp0 _ _ _ =>
    left
    rw [seeders_of_find s1 g f _ hN, seeders_of_find s g f _ hO, leaveUpdate_shared_files]
  | accept verb owner v rest grp0 _ _ _ _ =>
    left
    rw [seeders_of_find s1 g f _ hN, seeders_of_find s g f _ hO]
    rfl
  | upload u f0 rest grp0 htok hlog hmem =>
    rw [seeders_of_find s1 g f _ hN, seeders_of_find s g f _ hO, addSeeder_shared_files]
    by_cases hf : f = f0
    · subst hf
      rw [if_pos rfl]
      by_cases hu : u ∈ (mapFind f grp0.shared_files).getD []
      · left
        rw [if_pos hu]
        rfl
      · right
        rw [if_neg hu]
        exact ⟨u, rest, grp0, htok, hlog, rfl, hmem, hu, rfl⟩
    · left
      rw [if_neg hf]

/-- Claim C6: in every reachable catalog no seeder list holds a user twice, and a command
changes a seeder list only by appending the user of an `UPLOAD_FILE` command who is, at
that moment, logged in and a member of the group. -/
theorem C6_seeders_nodup_and_guarded (s : Tracker) (h : Reachable s) :
    (∀ g f : Str, (s.seeders g f).Nodup) ∧
    (∀ (command reply : Str) (s1 : Tracker),
      process_command s command = .ok (reply, s1) →
      ∀ g f : Str,
        s1.seeders g f = s.seeders g f ∨
        ∃ (u : Str) (rest : List Str) (grp : Group),
          split_string command ' ' = "UPLOAD_FILE".toList :: u :: g :: f :: rest ∧
          s.loggedIn u = true ∧ mapFind g s.groups = some grp ∧ u ∈ grp.members ∧
          u ∉ s.seeders g f ∧ s1.seeders g f = s.seeders g f ++ [u]) := by
  constructor
  · induction h with
    | init =>
      intro g f
      simp [Tracker.seeders, Tracker.empty, mapFind]
    | step hr hp ih =>
      rename_i s0 s2 command reply
      intro g f
      rcases process_command_seeders s0 s2 command reply hp g f with e | ⟨u, _, _, _, _, _, _, hu, e⟩
      · rw [e]; exact ih g f
      · rw [e]
        exact List.Nodup.append (ih g f) (List.nodup_singleton u)
          (by
            intro a ha hb
            rw [List.mem_singleton] at hb
            subst hb
            exact hu ha)
  · intro command reply s1 hp g f
    exact process_command_seeders s s1 command reply hp g f

theorem exampleShared_reachable : Reachable exampleShared :=
  reachable_runCommands _ exampleCatalog_reachable _

theorem C6_seeders_nodup_and_guarded_witness :
    Reachable exampleShared ∧
      exampleShared.seeders "g1".toList "F".toList = ["alice".toList, "bob".toList] ∧
      (exampleShared.seeders "g1".toList "F".toList).Nodup :=
  ⟨exampleShared_reachable, by decide,
    (C6_seeders_nodup_and_guarded exampleShared exampleShared_reachable).1
      "g1".toList "F".toList⟩

/-! ## The reply to `DOWNLOAD_FILE` -/

theorem peerList_eq (s : Tracker) (seeders : List Str) :
    peerList s seeders
      = (((seeders.filter (fun p => s.loggedIn p)).map
          (fun p => peerTriple s p ++ [' '])).foldr (· ++ ·) []) := by
  induction seeders with
  | nil => rfl
  | cons p rest ih =>
    unfold peerList
    cases hu : mapFind p s.users with
    | none =>
      have hl : s.loggedIn p = false := by unfold Tracker.loggedIn; rw [hu]
      simp only [List.filter_cons, hl]
      exact ih
    | some usr =>
      dsimp only
      by_cases ho : usr.online = true
      · have hl : s.loggedIn p = true := by unfold Tracker.loggedIn; rw [hu]; exact ho
        have ht : peerTriple s p = usr.ip ++ [' '] ++ to_string usr.port ++ [' '] ++ p := by
          unfold peerTriple; rw [hu]
        rw [if_pos ho, ih]
        simp only [List.filter_cons, hl, if_true, List.map_cons, List.foldr_cons, ht]
      · have hl : s.loggedIn p = false := by
          unfold Tracker.loggedIn; rw [hu]; simpa using ho
        rw [if_neg ho, ih]
        simp only [List.filter_cons, hl]
        rfl

theorem foldr_spaced (ts : List Str) (h : ts ≠ []) :
    (ts.map (fun t => t ++ [' '])).foldr (· ++ ·) [] = joinSpaced ts ++ [' '] := by
  induction ts with
  | nil => exact absurd rfl h
  | cons t rest ih =>
    cases rest with
    | nil => simp [joinSpaced]
    | cons t2 rest2 =>
      have ih2 := ih (by simp)
      simp only [List.map_cons, List.foldr_cons] at ih2 ⊢
      rw [ih2]
      simp [joinSpaced, List.append_assoc]

/-- Claim C5: the reply to `DOWNLOAD_FILE u g filename` sent by a logged-in member `u` of `g`
for a file shared in `g` is `ERROR: No online peers available` when no seeder is online,
and otherwise `PEERS: ` followed by the triples `ip port user` of exactly the online
seeders, in the order of the seeder list, separated by one space and ended by a newline.
The catalog is not changed. -/
theorem C5_download_reply (s : Tracker) (command u g filename : Str) (rest : List Str)
    (grp : Group) (seeders : List Str)
    (htok : split_string command ' ' = "DOWNLOAD_FILE".toList :: u :: g :: filename :: rest)
    (hlog : s.loggedIn u = true) (hg : mapFind g s.groups = some grp)
    (hmem : u ∈ grp.members) (hf : mapFind filename grp.shared_files = some seeders) :
    process_command s command
      = .ok (if seeders.filter (fun p => s.loggedIn p) = [] then
              "ERROR: No online peers available\n".toList
            else
              "PEERS: ".toList ++
                joinSpaced ((seeders.filter (fun p => s.loggedIn p)).map (peerTriple s)) ++
                ['\n'], s) := by
  have hpc : process_command s command
      = .ok (handle_download_file s (split_string command ' ')) := by
    unfold process_command
    rw [htok]
    rfl
  rw [hpc, htok]
  unfold handle_download_file
  simp only [hlog, hg, hf, hmem, Bool.not_true, Bool.false_eq_true, if_false, not_true_eq_false]
  by_cases he : seeders.filter (fun p => s.loggedIn p) = []
  · have hc : peerCount s seeders = 0 := by unfold peerCount; rw [he]; rfl
    rw [if_pos hc, if_pos he]
  · have hc : ¬ peerCount s seeders = 0 := by
      unfold peerCount
      intro h0
      exact he (List.length_eq_zero.mp h0)
    rw [if_neg hc, if_neg he]
    have hne : (seeders.filter (fun p => s.loggedIn p)).map (peerTriple s) ≠ [] := by
      intro h0
      exact he (List.map_eq_nil_iff.mp h0)
    have hpl : peerList s seeders
        = joinSpaced ((seeders.filter (fun p => s.loggedIn p)).map (peerTriple s)) ++ [' '] := by
      rw [peerList_eq, ← foldr_spaced _ hne, List.map_map]
      rfl
    rw [hpl, ← List.append_assoc, List.getLast?_append, List.dropLast_concat]
    simp

theorem C5_download_reply_witness :
    split_string "DOWNLOAD_FILE bob g1 F".toList ' '
        = "DOWNLOAD_FILE".toList :: "bob".toList :: "g1".toList :: "F".toList :: [] ∧
      exampleShared.loggedIn "bob".toList = true ∧
      mapFind "g1".toList exampleShared.groups
        = some ⟨"g1".toList, "alice".toList, ["alice".toList, "bob".toList], [],
            [("F".toList, ["alice".toList, "bob".toList])]⟩ ∧
      process_command exampleShared "DOWNLOAD_FILE bob g1 F".toList
        = .ok ("PEERS: 10.0.0.1 7001 alice 10.0.0.2 7002 bob\n".toList, exampleShared) :=
  ⟨by decide, by decide, by decide,
    (C5_download_reply exampleShared "DOWNLOAD_FILE bob g1 F".toList "bob".toList
      "g1".toList "F".toList []
      ⟨"g1".toList, "alice".toList, ["alice".toList, "bob".toList], [],
        [("F".toList, ["alice".toList, "bob".toList])]⟩
      ["alice".toList, "bob".toList] (by decide) (by decide) (by decide) (by decide)
      (by decide)).trans rfl⟩

/-! ## Malformed requests to the tracker -/

/-- Claim C8: `process_command` does not answer every request line.  A `LOGIN` line with five
tokens whose port is not a number makes `std::stoi` throw `invalid_argument` out of
`process_command`, in any catalog; the connection worker then sends no reply and stops
reading, so a command that follows on the same connection is not executed. -/
theorem C8_login_bad_port_throws :
    (∀ s : Tracker,
      process_command s "LOGIN alice pw 10.0.0.1 abc".toList = .error .invalid_argument) ∧
    handle_client Tracker.empty
        ["LOGIN alice pw 10.0.0.1 abc\n".toList, "CREATE_USER bob pw\n".toList]
      = ([], Tracker.empty) ∧
    process_command Tracker.empty "UPLOAD_FILE alice g1 F h p abc".toList
      = .ok ("ERROR: Invalid file size\n".toList, Tracker.empty) :=
  ⟨fun _ => rfl, by decide, rfl⟩

/-! ## Content hasher -/

/-- Claim C10: the digest that the Content Hasher returns is not the SHA-1 digest of FIPS 180.
For the three bytes `abc`, `update` followed by `final`, and `from_file` alike, return the
hexadecimal form of the initial state, while the standard digest is
`a9993e364706816aba3e25717850c26c9cd0d89d`. -/
theorem C10_digest_abc_not_standard :
    SHA1.digestOf "abc".toList = "67452301efcdab8998badcfe10325476c3d2e1f0".toList ∧
    SHA1.from_file (some "abc".toList) = "67452301efcdab8998badcfe10325476c3d2e1f0".toList ∧
    fipsSha1 "abc".toList = "a9993e364706816aba3e25717850c26c9cd0d89d".toList ∧
    SHA1.digestOf "abc".toList ≠ fipsSha1 "abc".toList := by
  have h1 : SHA1.digestOf "abc".toList = "67452301efcdab8998badcfe10325476c3d2e1f0".toList := by
    decide!
  have h2 : SHA1.from_file (some "abc".toList)
      = "67452301efcdab8998badcfe10325476c3d2e1f0".toList := by
    decide!
  have h3 : fipsSha1 "abc".toList = "a9993e364706816aba3e25717850c26c9cd0d89d".toList := by
    decide!
  refine ⟨h1, h2, h3, ?_⟩
  rw [h1, h3]
  decide

/-! ## Peer serving endpoint -/

theorem flattenSends_sendChunks (fuel : Nat) (data : Str) (h : data.length ≤ fuel) :
    flattenSends (sendChunks fuel data) = data := by
  induction fuel generalizing data with
  | zero =>
    have : data = [] := List.length_eq_zero.mp (Nat.le_zero.mp h)
    subst this
    rfl
  | succ n ih =>
    unfold sendChunks
    by_cases hd : data = []
    · rw [if_pos hd, hd]; rfl
    · rw [if_neg hd]
      have hpos : 0 < data.length := List.length_pos.mpr hd
      have hlen : (data.drop 1024).length ≤ n := by
        rw [List.length_drop]; omega
      unfold flattenSends
      rw [List.foldr_cons]
      have := ih (data.drop 1024) hlen
      unfold flattenSends at this
      rw [this, List.take_append_drop]

theorem stoi_le_int_max (tok : Str) (i : Int) (h : stoi tok = .ok i) : i ≤ 2147483647 := by
  unfold stoi at h
  split at h
  · cases h
  · split at h
    · cases h
    · rename_i hr
      cases h
      omega

/-- The `send` calls of `handle_peer_connection` for a request `GET_PIECE <filename> <i>` with
`i ≥ 0` and a file that is found. -/
theorem handle_peer_connection_sends (fs : Files)
    (received filename index_tok file_path content : Str) (rest : List Str) (k : Nat)
    (htok : split_string (strip_newline (c_string received)) ' '
      = "GET_PIECE".toList :: filename :: index_tok :: rest)
    (hi : stoi index_tok = .ok (k : Int))
    (hpath : find_file fs (possible_paths filename) = some file_path)
    (hcontent : fs file_path = some content) :
    handle_peer_connection fs received
      = .ok (if k * 524288 < content.length then
              ("PIECE_DATA ".toList ++
                  to_string ((min 524288 (content.length - k * 524288) : Nat) : Int) ++ ['\n']) ::
                sendChunks (min 524288 (content.length - k * 524288))
                  (substr content (k * 524288) (min 524288 (content.length - k * 524288)))
            else ["PIECE_NOT_FOUND\n".toList]) := by
  have hne : received ≠ [] := by
    intro e
    rw [e] at htok
    simp [c_string, strip_newline, split_string] at htok
  unfold handle_peer_connection
  rw [if_neg hne]
  simp only [htok, if_true, hi, hpath, hcontent]
  by_cases hlt : k * 524288 < content.length
  · have hlt1 : (k : Int) * 524288 < content.length := by exact_mod_cast hlt
    have hsz : min (524288 : Int) ((content.length : Int) - (k : Int) * 524288)
        = ((min 524288 (content.length - k * 524288) : Nat) : Int) := by
      omega
    have hlen : (substr content (k * 524288) (min 524288 (content.length - k * 524288))).length
        = min 524288 (content.length - k * 524288) := by
      unfold substr
      rw [List.length_take, List.length_drop]
      omega
    rw [if_pos hlt, if_neg (by omega), if_neg (by omega)]
    rw [hsz]
    rw [if_neg (by omega)]
    have e1 : ((k : Int) * 524288).toNat = k * 524288 := by omega
    have e2 : ((min 524288 (content.length - k * 524288) : Nat) : Int).toNat
        = min 524288 (content.length - k * 524288) := by omega
    rw [e1, e2, hlen]
    rw [if_neg (by omega)]
  · have hlt1 : ¬ (k : Int) * 524288 < content.length := by
      intro h; exact hlt (by exact_mod_cast h)
    rw [if_neg hlt, if_pos (by omega)]

/-- Claim C2, amended: a request `GET_PIECE <filename> <i>` whose index token `std::stoi` converts
to `i ≥ 0` (so `i` fits an `int`), for a file that the endpoint finds, is answered with
`PIECE_DATA n`, a newline and the `n` bytes of the file from offset `i * 524288`, where
`n = min(524288, file_size - i * 524288)`, when `i * 524288 < file_size`, and with
`PIECE_NOT_FOUND` otherwise. -/
theorem C2_piece_reply (fs : Files) (received filename index_tok file_path content : Str)
    (rest : List Str) (i : Int)
    (htok : split_string (strip_newline (c_string received)) ' '
      = "GET_PIECE".toList :: filename :: index_tok :: rest)
    (hi : stoi index_tok = .ok i) (h0 : 0 ≤ i)
    (hpath : find_file fs (possible_paths filename) = some file_path)
    (hcontent : fs file_path = some content) :
    (handle_peer_connection fs received).map flattenSends
      = .ok (if i * 524288 < content.length then
              "PIECE_DATA ".toList ++
                to_string (min 524288 ((content.length : Int) - i * 524288)) ++ ['\n'] ++
                (content.drop (i.toNat * 524288)).take
                  (min 524288 (content.length - i.toNat * 524288))
            else "PIECE_NOT_FOUND\n".toList) ∧
      i ≤ 2147483647 := by
  refine ⟨?_, stoi_le_int_max index_tok i hi⟩
  obtain ⟨k, rfl⟩ := Int.eq_ofNat_of_zero_le h0
  rw [handle_peer_connection_sends fs received filename index_tok file_path content rest k
    htok hi hpath hcontent]
  have e3 : ((k : Int)).toNat = k := Int.toNat_ofNat k
  by_cases hlt : k * 524288 < content.length
  · have hlt1 : (k : Int) * 524288 < content.length := by exact_mod_cast hlt
    have hsz : min (524288 : Int) ((content.length : Int) - (k : Int) * 524288)
        = ((min 524288 (content.length - k * 524288) : Nat) : Int) := by
      omega
    have hlen : (substr content (k * 524288) (min 524288 (content.length - k * 524288))).length
        = min 524288 (content.length - k * 524288) := by
      unfold substr
      rw [List.length_take, List.length_drop]
      omega
    have hfl := flattenSends_sendChunks (min 524288 (content.length - k * 524288))
      (substr content (k * 524288) (min 524288 (content.length - k * 524288))) (by rw [hlen])
    rw [if_pos hlt, if_pos hlt1, hsz, e3]
    simp only [Except.map, flattenSends, List.foldr_cons]
    unfold flattenSends at hfl
    rw [hfl]
    rfl
  · have hlt1 : ¬ (k : Int) * 524288 < content.length := by
      intro h; exact hlt (by exact_mod_cast h)
    rw [if_neg hlt, if_neg hlt1]
    rfl

theorem C2_piece_reply_witness :
    split_string (strip_newline (c_string "GET_PIECE F 0\n".toList)) ' '
        = "GET_PIECE".toList :: "F".toList :: "0".toList :: [] ∧
      stoi "0".toList = .ok 0 ∧
      find_file exampleFiles (possible_paths "F".toList) = some "F".toList ∧
      exampleFiles "F".toList = some "hello world".toList ∧
      (handle_peer_connection exampleFiles "GET_PIECE F 0\n".toList).map flattenSends
        = .ok "PIECE_DATA 11\nhello world".toList :=
  ⟨by decide, by decide, by decide, by decide,
    (C2_piece_reply exampleFiles "GET_PIECE F 0\n".toList "F".toList "0".toList "F".toList
      "hello world".toList [] 0 (by decide) (by decide) (by decide) (by decide)
      (by decide)).1.trans (by decide)⟩

/-- Claim C2 as stated fails for a piece index that does not fit an `int`: the request
`GET_PIECE F 2147483648` is well formed and its index is past the end of the file `F` of 11
bytes, so the claim calls for `PIECE_NOT_FOUND`; `std::stoi` throws `out_of_range` and
nothing is sent. -/
theorem C2_index_beyond_int_throws :
    split_string (strip_newline (c_string "GET_PIECE F 2147483648\n".toList)) ' '
        = "GET_PIECE".toList :: "F".toList :: "2147483648".toList :: [] ∧
      strtol_base10 "2147483648".toList = some 2147483648 ∧
      find_file exampleFiles (possible_paths "F".toList) = some "F".toList ∧
      exampleFiles "F".toList = some "hello world".toList ∧
      handle_peer_connection exampleFiles "GET_PIECE F 2147483648\n".toList
        = .error .out_of_range ∧
      (handle_peer_connection exampleFiles "GET_PIECE F 2147483648\n".toList).map flattenSends
        ≠ .ok "PIECE_NOT_FOUND\n".toList :=
  ⟨by decide, by decide, by decide, by decide, by decide, by decide⟩

/-- Claim C9: the serving endpoint does not answer every malformed request with
`INVALID_REQUEST`.  A wrong verb or a missing token is answered so, but a request
`GET_PIECE <filename> <x>` whose `x` is not a number, or does not fit an `int`, makes
`std::stoi` throw out of `handle_peer_connection`, whatever the files are. -/
theorem C9_bad_piece_index_throws :
    (∀ fs : Files,
      handle_peer_connection fs "GET_PIECE F abc\n".toList = .error .invalid_argument) ∧
    (∀ fs : Files,
      handle_peer_connection fs "GET_PIECE F 99999999999\n".toList = .error .out_of_range) ∧
    (∀ fs : Files,
      handle_peer_connection fs "GET_PIECES F 0\n".toList = .ok ["INVALID_REQUEST\n".toList]) ∧
    (∀ fs : Files,
      handle_peer_connection fs "GET_PIECE F\n".toList = .ok ["INVALID_REQUEST\n".toList]) :=
  ⟨fun _ => rfl, fun _ => rfl, fun _ => rfl, fun _ => rfl⟩

/-! ## Numbers and tokens -/

theorem digitChar_isdigit (d : Nat) (h : d < 10) : isdigit (digitChar d) = true := by
  interval_cases d <;> decide

theorem digitVal_digitChar (d : Nat) (h : d < 10) : digitVal (digitChar d) = d := by
  interval_cases d <;> decide

theorem decDigitsRev_isdigit (fuel n : Nat) : ∀ c ∈ decDigitsRev fuel n, isdigit c = true := by
  induction fuel generalizing n with
  | zero => intro c hc; simp [decDigitsRev] at hc
  | succ f ih =>
    intro c hc
    unfold decDigitsRev at hc
    rw [List.mem_cons] at hc
    rcases hc with e | hc
    · rw [e]; exact digitChar_isdigit _ (Nat.mod_lt _ (by decide))
    · split at hc
      · simp at hc
      · exact ih _ c hc

theorem decDigitsRev_value (fuel n : Nat) (h : n < fuel) :
    (decDigitsRev fuel n).foldr (fun c acc => digitVal c + 10 * acc) 0 = n := by
  induction fuel generalizing n with
  | zero => omega
  | succ f ih =>
    unfold decDigitsRev
    rw [List.foldr_cons, digitVal_digitChar _ (Nat.mod_lt _ (by decide))]
    split
    · rename_i h0
      simp only [List.foldr_nil]
      omega
    · rename_i h0
      rw [ih (n / 10) (by omega)]
      omega

theorem decValue_reverse (l : Str) :
    decValue l.reverse = l.foldr (fun c acc => digitVal c + 10 * acc) 0 := by
  unfold decValue
  rw [List.foldl_reverse]
  congr 1
  funext c acc
  omega

theorem decValue_natToDec (n : Nat) : decValue (natToDec n) = n := by
  unfold natToDec
  rw [decValue_reverse, decDigitsRev_value _ _ (Nat.lt_succ_self n)]

theorem natToDec_isdigit (n : Nat) : ∀ c ∈ natToDec n, isdigit c = true := by
  intro c hc
  unfold natToDec at hc
  rw [List.mem_reverse] at hc
  exact decDigitsRev_isdigit _ _ c hc

theorem natToDec_ne_nil (n : Nat) : natToDec n ≠ [] := by
  unfold natToDec decDigitsRev
  simp

theorem to_string_natCast (n : Nat) : to_string (n : Int) = natToDec n := by
  unfold to_string
  rw [if_neg (by omega)]
  simp

theorem takeWhile_eq_self {p : Char → Bool} (l : Str) (h : ∀ c ∈ l, p c = true) :
    l.takeWhile p = l := by
  induction l with
  | nil => rfl
  | cons a t ih =>
    rw [List.takeWhile_cons, h a (List.mem_cons_self a t),
      ih (fun c hc => h c (List.mem_cons_of_mem a hc))]
    rfl

theorem isdigit_not_isspace (c : Char) (h : isdigit c = true) : isspace c = false := by
  unfold isdigit at h
  unfold isspace
  simp only [Bool.and_eq_true, decide_eq_true_eq] at h
  simp only [Bool.or_eq_false_iff, decide_eq_false_iff_not, Bool.and_eq_false_iff]
  omega

theorem strtol_natToDec (n : Nat) : strtol_base10 (natToDec n) = some (n : Int) := by
  have hne := natToDec_ne_nil n
  have hd := natToDec_isdigit n
  cases hl : natToDec n with
  | nil => exact absurd hl hne
  | cons a t =>
    have ha : isdigit a = true := hd a (by rw [hl]; exact List.mem_cons_self a t)
    have hsp : isspace a = false := isdigit_not_isspace a ha
    have hminus : a ≠ '-' := by intro e; rw [e] at ha; exact absurd ha (by decide)
    have hplus : a ≠ '+' := by intro e; rw [e] at ha; exact absurd ha (by decide)
    unfold strtol_base10
    have hdw : (a :: t).dropWhile isspace = a :: t := by
      rw [List.dropWhile_cons, hsp]
      rfl
    simp only [hdw]
    have hmatch : (match a :: t with
        | '-' :: r => (true, r)
        | '+' :: r => (false, r)
        | _ => (false, a :: t)) = (false, a :: t) := by
      split
      · rename_i r heq
        exact absurd (List.cons.inj heq).1 hminus
      · rename_i r heq
        exact absurd (List.cons.inj heq).1 hplus
      · rfl
    rw [hmatch]
    dsimp only
    rw [takeWhile_eq_self (a :: t) (by rw [← hl]; exact hd)]
    rw [if_neg (by simp)]
    rw [← hl, decValue_natToDec]
    rfl

theorem stoi_to_string (n : Nat) (h : n ≤ 2147483647) : stoi (to_string (n : Int)) = .ok n := by
  unfold stoi
  rw [to_string_natCast, strtol_natToDec]
  dsimp only
  rw [if_neg (by omega)]

theorem split_string_no_delim (a : Str) (d : Char) (ha : d ∉ a) (hne : a ≠ []) :
    split_string a d = [a] := by
  induction a with
  | nil => exact absurd rfl hne
  | cons c cs ih =>
    have hc : c ≠ d := fun e => ha (by rw [e]; exact List.mem_cons_self d cs)
    have hcs : d ∉ cs := fun hm => ha (List.mem_cons_of_mem c hm)
    unfold split_string
    rw [if_neg hc]
    cases cs with
    | nil => rfl
    | cons c2 cs2 =>
      rw [ih hcs (by simp)]

theorem split_string_append (a rest : Str) (d : Char) (ha : d ∉ a) :
    split_string (a ++ d :: rest) d = a :: split_string rest d := by
  induction a with
  | nil =>
    show split_string (d :: rest) d = _
    rw [split_string, if_pos rfl]
  | cons c cs ih =>
    have hc : c ≠ d := fun e => ha (by rw [e]; exact List.mem_cons_self d cs)
    have hcs : d ∉ cs := fun hm => ha (List.mem_cons_of_mem c hm)
    show split_string (c :: (cs ++ d :: rest)) d = _
    rw [split_string, if_neg hc, ih hcs]

theorem c_string_eq_self (s : Str) (h : ∀ c ∈ s, c.toNat ≠ 0) : c_string s = s := by
  unfold c_string
  apply takeWhile_eq_self
  intro c hc
  simp [h c hc]

theorem natToDec_no_space (n : Nat) : ' ' ∉ natToDec n := by
  intro h
  exact absurd (natToDec_isdigit n ' ' h) (by decide)

theorem natToDec_no_newline (n : Nat) : '\n' ∉ natToDec n := by
  intro h
  exact absurd (natToDec_isdigit n '\n' h) (by decide)

theorem natToDec_no_nul (n : Nat) : ∀ c ∈ natToDec n, c.toNat ≠ 0 := by
  intro c hc h0
  have := natToDec_isdigit n c hc
  unfold isdigit at this
  simp only [Bool.and_eq_true, decide_eq_true_eq] at this
  omega

theorem strFind_prefix (pat rest : Str) (h : pat ≠ []) :
    strFind pat (pat ++ rest) = some 0 := by
  cases pat with
  | nil => exact absurd rfl h
  | cons c cs =>
    show strFind (c :: cs) (c :: (cs ++ rest)) = _
    rw [strFind]
    have hp : (c :: cs).isPrefixOf (c :: (cs ++ rest)) = true := by
      rw [List.isPrefixOf_iff_prefix]
      exact List.prefix_append (c :: cs) rest
    rw [if_pos hp]

theorem piece_of_length (F : Str) (i : Nat) :
    (piece_of F i).length = min 524288 (F.length - i * 524288) := by
  unfold piece_of
  rw [List.length_take, List.length_drop]

theorem strFind_absent (pat s : Str) (c : Char) (hc : c ∈ pat) (hs : c ∉ s) :
    strFind pat s = none := by
  induction s with
  | nil =>
    unfold strFind
    rw [if_neg (fun e => by rw [e] at hc; exact absurd hc (List.not_mem_nil c))]
  | cons x xs ih =>
    unfold strFind
    have hp : ¬ (pat.isPrefixOf (x :: xs) = true) := by
      rw [List.isPrefixOf_iff_prefix]
      intro hpre
      exact hs (hpre.subset hc)
    rw [if_neg hp, ih (fun h => hs (List.mem_cons_of_mem x h))]
    rfl

theorem dispatch_create_user (s : Tracker) (command : Str) (tl : List Str)
    (htok : split_string command ' ' = "CREATE_USER".toList :: tl) :
    process_command s command = .ok (handle_create_user s ("CREATE_USER".toList :: tl)) := by
  unfold process_command
  rw [htok]
  rfl

theorem dispatch_login (s : Tracker) (command : Str) (tl : List Str)
    (htok : split_string command ' ' = "LOGIN".toList :: tl) :
    process_command s command = handle_login s ("LOGIN".toList :: tl) := by
  unfold process_command
  rw [htok]
  rfl

theorem dispatch_create_group (s : Tracker) (command : Str) (tl : List Str)
    (htok : split_string command ' ' = "CREATE_GROUP".toList :: tl) :
    process_command s command = .ok (handle_create_group s ("CREATE_GROUP".toList :: tl)) := by
  unfold process_command
  rw [htok]
  rfl

theorem dispatch_join_group (s : Tracker) (command : Str) (tl : List Str)
    (htok : split_string command ' ' = "JOIN_GROUP".toList :: tl) :
    process_command s command = .ok (handle_join_group s ("JOIN_GROUP".toList :: tl)) := by
  unfold process_command
  rw [htok]
  rfl

theorem dispatch_leave_group (s : Tracker) (command : Str) (tl : List Str)
    (htok : split_string command ' ' = "LEAVE_GROUP".toList :: tl) :
    process_command s command = .ok (handle_leave_group s ("LEAVE_GROUP".toList :: tl)) := by
  unfold process_command
  rw [htok]
  rfl

theorem dispatch_list_requests (s : Tracker) (command : Str) (tl : List Str)
    (htok : split_string command ' ' = "LIST_REQUESTS".toList :: tl) :
    process_command s command
      = .ok (handle_list_requests s ("LIST_REQUESTS".toList :: tl)) := by
  unfold process_command
  rw [htok]
  rfl

theorem dispatch_accept_request (s : Tracker) (command : Str) (tl : List Str)
    (htok : split_string command ' ' = "ACCEPT_REQUEST".toList :: tl) :
    process_command s command
      = .ok (handle_accept_request s ("ACCEPT_REQUEST".toList :: tl)) := by
  unfold process_command
  rw [htok]
  rfl

theorem dispatch_list_files (s : Tracker) (command : Str) (tl : List Str)
    (htok : split_string command ' ' = "LIST_FILES".toList :: tl) :
    process_command s command = .ok (handle_list_files s ("LIST_FILES".toList :: tl)) := by
  unfold process_command
  rw [htok]
  rfl

theorem dispatch_upload_file (s : Tracker) (command : Str) (tl : List Str)
    (htok : split_string command ' ' = "UPLOAD_FILE".toList :: tl) :
    process_command s command = .ok (handle_upload_file s ("UPLOAD_FILE".toList :: tl)) := by
  unfold process_command
  rw [htok]
  rfl

theorem dispatch_download_file (s : Tracker) (command : Str) (tl : List Str)
    (htok : split_string command ' ' = "DOWNLOAD_FILE".toList :: tl) :
    process_command s command
      = .ok (handle_download_file s ("DOWNLOAD_FILE".toList :: tl)) := by
  unfold process_command
  rw [htok]
  rfl

theorem dispatch_logout (s : Tracker) (command : Str) (tl : List Str)
    (htok : split_string command ' ' = "LOGOUT".toList :: tl) :
    process_command s command = .ok (handle_logout s ("LOGOUT".toList :: tl)) := by
  unfold process_command
  rw [htok]
  rfl

/-! ## Login -/

/-- Claim C18, as stated, fails: the port `2147483648` is numeric but does not fit an `int`,
so `std::stoi` throws `out_of_range` before the user is looked up, and `process_command`
returns no reply: not `SUCCESS` for `alice` with her password, not `ERROR: Invalid password`
for a wrong one, not `ERROR: User not found` for the unknown `ghost`. -/
theorem C18_port_beyond_int_throws :
    (mapFind "alice".toList exampleCatalog.users).map (fun usr => usr.password)
        = some "pw".toList ∧
      mapFind "ghost".toList exampleCatalog.users = none ∧
      process_command exampleCatalog "LOGIN alice pw 10.0.0.1 2147483648".toList
        = .error .out_of_range ∧
      process_command exampleCatalog "LOGIN alice bad 10.0.0.1 2147483648".toList
        = .error .out_of_range ∧
      process_command exampleCatalog "LOGIN ghost pw 10.0.0.1 2147483648".toList
        = .error .out_of_range := by
  refine ⟨by decide, by decide, by decide, by decide, by decide⟩

/-- Claim C18, amended: a `LOGIN u p ip port` whose numeric port fits an `int`, so that
`std::stoi` converts it, is answered `ERROR: User not found` when `u` is unknown and
`ERROR: Invalid password` when the stored password differs from `p`, the catalog staying as
it was; otherwise it is answered `SUCCESS: Login successful`, `u` is online with the `ip` and
the port of the command, and every other user, every group and every file entry is
unchanged. -/
theorem C18_login (s : Tracker) (command u p ip port_tok : Str) (rest : List Str) (port : Int)
    (htok : split_string command ' ' = "LOGIN".toList :: u :: p :: ip :: port_tok :: rest)
    (hport : stoi port_tok = .ok port) :
    (mapFind u s.users = none →
      process_command s command = .ok ("ERROR: User not found\n".toList, s)) ∧
    (∀ usr : User, mapFind u s.users = some usr → usr.password ≠ p →
      process_command s command = .ok ("ERROR: Invalid password\n".toList, s)) ∧
    (∀ usr : User, mapFind u s.users = some usr → usr.password = p →
      process_command s command
          = .ok ("SUCCESS: Login successful\n".toList,
              { s with users := (mapModify User.dflt u
                  (fun x => { x with online := true, ip := ip, port := port }) s.users) }) ∧
        mapFind u (mapModify User.dflt u
            (fun x => { x with online := true, ip := ip, port := port }) s.users)
          = some { usr with online := true, ip := ip, port := port } ∧
        ∀ u2 : Str, u2 ≠ u →
          mapFind u2 (mapModify User.dflt u
              (fun x => { x with online := true, ip := ip, port := port }) s.users)
            = mapFind u2 s.users) := by
  rw [dispatch_login s command _ htok]
  unfold handle_login
  simp only [hport]
  refine ⟨?_, ?_, ?_⟩
  · intro hnone
    rw [hnone]
  · intro usr hfind hpw
    rw [hfind]
    dsimp only
    rw [if_pos hpw]
  · intro usr hfind hpw
    rw [hfind]
    dsimp only
    rw [if_neg (by simpa using hpw)]
    refine ⟨rfl, ?_, ?_⟩
    · rw [mapFind_mapModify, if_pos rfl, hfind]
      rfl
    · intro u2 h2
      rw [mapFind_mapModify, if_neg h2]

theorem C18_login_witness :
    split_string "LOGIN alice pw 10.9.8.7 7100".toList ' '
        = "LOGIN".toList :: "alice".toList :: "pw".toList :: "10.9.8.7".toList ::
            "7100".toList :: [] ∧
      stoi "7100".toList = .ok 7100 ∧
      mapFind "alice".toList exampleCatalog.users
        = some ⟨"alice".toList, "pw".toList, "10.0.0.1".toList, 7001, true, ["g1".toList]⟩ ∧
      process_command exampleCatalog "LOGIN alice pw 10.9.8.7 7100".toList
        = .ok ("SUCCESS: Login successful\n".toList,
            { exampleCatalog with users := (mapModify User.dflt "alice".toList
                (fun x => { x with online := true, ip := "10.9.8.7".toList, port := 7100 })
                exampleCatalog.users) }) :=
  ⟨by decide, by decide, by decide,
    ((C18_login exampleCatalog "LOGIN alice pw 10.9.8.7 7100".toList "alice".toList
      "pw".toList "10.9.8.7".toList "7100".toList [] 7100 (by decide) (by decide)).2.2
      ⟨"alice".toList, "pw".toList, "10.0.0.1".toList, 7001, true, ["g1".toList]⟩
      (by decide) (by decide)).1⟩

/-! ## Leaving a group -/

theorem setErase_head_least (u : Str) (l : List Str) (h : isStdSet l) (first : Str)
    (rest : List Str) (he : setErase u l = first :: rest) :
    ∀ m ∈ setErase u l, m = first ∨ strLt first m = true := by
  have hp : (setErase u l).Pairwise (fun a b => strLt a b = true) := by
    unfold setErase
    exact List.Pairwise.filter _ h
  rw [he] at hp ⊢
  intro m hm
  rcases List.mem_cons.mp hm with e | hm2
  · exact Or.inl e
  · exact Or.inr ((List.pairwise_cons.mp hp).1 m hm2)

/-- Claim C16: for a logged-in user `u` and an existing group `g`, `LEAVE_GROUP u g` is answered
`ERROR: Not a member` when `u` is not a member; when `u` is a member it is answered
`SUCCESS: Left group`, `u` is erased from the members and nobody else is, the owner is
unchanged when `u` was not the owner, and when `u` was the owner and members remain the new
owner is a remaining member, the least of them in the order of `std::string`. -/
theorem C16_leave_group (s : Tracker) (command u g : Str) (rest : List Str) (grp : Group)
    (htok : split_string command ' ' = "LEAVE_GROUP".toList :: u :: g :: rest)
    (hlog : s.loggedIn u = true) (hg : mapFind g s.groups = some grp)
    (hset : isStdSet grp.members) :
    (u ∉ grp.members →
      process_command s command = .ok ("ERROR: Not a member\n".toList, s)) ∧
    (u ∈ grp.members →
      (process_command s command).map (fun r => (r.1, mapFind g r.2.groups))
          = .ok ("SUCCESS: Left group\n".toList, some (leaveUpdate u grp)) ∧
        (∀ m : Str, m ∈ (leaveUpdate u grp).members ↔ m ∈ grp.members ∧ m ≠ u) ∧
        (grp.owner ≠ u → (leaveUpdate u grp).owner = grp.owner) ∧
        (grp.owner = u → (leaveUpdate u grp).members ≠ [] →
          (leaveUpdate u grp).owner ∈ (leaveUpdate u grp).members ∧
          ∀ m ∈ (leaveUpdate u grp).members,
            m = (leaveUpdate u grp).owner ∨ strLt (leaveUpdate u grp).owner m = true)) := by
  rw [dispatch_leave_group s command _ htok]
  unfold handle_leave_group
  simp only [hlog, hg, Bool.not_true, Bool.false_eq_true, if_false]
  constructor
  · intro hnot
    rw [if_pos hnot]
  · intro hmem
    rw [if_neg (by simpa using hmem)]
    refine ⟨?_, ?_, ?_, ?_⟩
    · simp only [Except.map]
      rw [mapFind_mapModify, if_pos rfl, hg]
      rfl
    · intro m
      rw [leaveUpdate_members, mem_setErase]
      tauto
    · intro hown
      unfold leaveUpdate
      dsimp only
      split
      · rw [if_neg hown]
      · rfl
    · intro hown hne
      rw [leaveUpdate_members] at hne
      cases he : setErase u grp.members with
      | nil => exact absurd he hne
      | cons first tl =>
        have howner : (leaveUpdate u grp).owner = first := by
          unfold leaveUpdate
          dsimp only
          rw [he]
          dsimp only
          rw [if_pos hown]
        rw [howner, leaveUpdate_members]
        constructor
        · rw [he]; exact List.mem_cons_self _ _
        · exact setErase_head_least u grp.members hset first tl he

theorem C16_leave_group_witness :
    split_string "LEAVE_GROUP alice g1".toList ' '
        = "LEAVE_GROUP".toList :: "alice".toList :: "g1".toList :: [] ∧
      exampleAccepted.loggedIn "alice".toList = true ∧
      mapFind "g1".toList exampleAccepted.groups
        = some ⟨"g1".toList, "alice".toList, ["alice".toList, "bob".toList], [], []⟩ ∧
      isStdSet ["alice".toList, "bob".toList] ∧
      (process_command exampleAccepted "LEAVE_GROUP alice g1".toList).map
          (fun r => (r.1, mapFind "g1".toList r.2.groups))
        = .ok ("SUCCESS: Left group\n".toList,
            some ⟨"g1".toList, "bob".toList, ["bob".toList], [], []⟩) :=
  ⟨by decide, by decide, by decide, by decide,
    ((C16_leave_group exampleAccepted "LEAVE_GROUP alice g1".toList "alice".toList
      "g1".toList [] ⟨"g1".toList, "alice".toList, ["alice".toList, "bob".toList], [], []⟩
      (by decide) (by decide) (by decide) (by decide)).2 (by decide)).1.trans (by decide)⟩

/-! ## Accepting a join request -/

theorem loggedIn_after_accept (s : Tracker) (u v g : Str) (hlog : s.loggedIn u = true) :
    Tracker.loggedIn
      { s with
        groups := (mapModify Group.dflt g (acceptUpdate v) s.groups)
        users := (mapModify User.dflt v
          (fun x => { x with groups := setInsert g x.groups }) s.users) } u = true := by
  unfold Tracker.loggedIn at hlog ⊢
  dsimp only
  rw [mapFind_mapModify]
  by_cases huv : u = v
  · rw [if_pos huv]
    subst huv
    cases hf : mapFind u s.users with
    | none => rw [hf] at hlog; exact absurd hlog (by decide)
    | some usr => rw [hf] at hlog; exact hlog
  · rw [if_neg huv]
    exact hlog

/-- Claim C17: `ACCEPT_REQUEST u g v` is answered with an `ERROR:` and no change of state
unless `u` is logged in, `g` exists, `u` is its owner and `v` is among its pending requests;
in that case it is answered `SUCCESS: Request accepted`, the group `g` becomes the same group
with `v` erased from the pending requests and inserted among the members (owner, id and shared
files as before), every other group is unchanged, and a following `LIST_REQUESTS u g` prints
the pending requests without `v`, or `No pending requests` when none is left. -/
theorem C17_accept_request (s : Tracker) (command u g v : Str) (rest : List Str)
    (htok : split_string command ' '
      = "ACCEPT_REQUEST".toList :: u :: g :: v :: rest) :
    ((¬ (s.loggedIn u = true ∧ ∃ grp : Group, mapFind g s.groups = some grp ∧
          grp.owner = u ∧ v ∈ grp.pending_requests)) →
      ∃ msg : Str, process_command s command = .ok ("ERROR: ".toList ++ msg, s)) ∧
    (∀ grp : Group, s.loggedIn u = true → mapFind g s.groups = some grp → grp.owner = u →
        v ∈ grp.pending_requests →
      ∃ s1 : Tracker,
        process_command s command = .ok ("SUCCESS: Request accepted\n".toList, s1) ∧
        mapFind g s1.groups
          = some { grp with
              pending_requests := setErase v grp.pending_requests
              members := setInsert v grp.members } ∧
        (∀ m : Str, m ∈ setInsert v grp.members ↔ m = v ∨ m ∈ grp.members) ∧
        (∀ m : Str, m ∈ setErase v grp.pending_requests ↔ m ≠ v ∧ m ∈ grp.pending_requests) ∧
        (∀ g2 : Str, g2 ≠ g → mapFind g2 s1.groups = mapFind g2 s.groups) ∧
        ∀ (command2 : Str) (rest2 : List Str),
          split_string command2 ' ' = "LIST_REQUESTS".toList :: u :: g :: rest2 →
          process_command s1 command2
            = .ok (if setErase v grp.pending_requests = [] then "No pending requests\n".toList
                else (setErase v grp.pending_requests).foldl
                  (fun result request => result ++ (request ++ ['\n'])) [], s1)) := by
  rw [dispatch_accept_request s command _ htok]
  unfold handle_accept_request
  dsimp only
  constructor
  · intro hnot
    by_cases hlog : s.loggedIn u = true
    · rw [hlog]
      simp only [Bool.not_true, Bool.false_eq_true, if_false]
      cases hg : mapFind g s.groups with
      | none => exact ⟨_, rfl⟩
      | some grp =>
        dsimp only
        by_cases hown : grp.owner = u
        · rw [if_neg (by simpa using hown)]
          by_cases hpend : v ∈ grp.pending_requests
          · exact absurd ⟨hlog, grp, hg, hown, hpend⟩ hnot
          · rw [if_pos hpend]
            exact ⟨_, rfl⟩
        · rw [if_pos hown]
          exact ⟨_, rfl⟩
    · have hf : s.loggedIn u = false := by simpa using hlog
      rw [hf]
      exact ⟨_, rfl⟩
  · intro grp hlog hg hown hpend
    rw [hlog, hg]
    simp only [Bool.not_true, Bool.false_eq_true, if_false]
    rw [if_neg (by simpa using hown), if_neg (by simpa using hpend)]
    refine ⟨_, rfl, ?_, ?_, ?_, ?_, ?_⟩
    · dsimp only
      rw [mapFind_mapModify, if_pos rfl, hg]
      rfl
    · intro m
      exact mem_setInsert m v grp.members
    · intro m
      exact mem_setErase m v grp.pending_requests
    · intro g2 h2
      dsimp only
      rw [mapFind_mapModify, if_neg h2]
    · intro command2 rest2 htok2
      rw [dispatch_list_requests _ command2 _ htok2]
      unfold handle_list_requests
      dsimp only
      rw [loggedIn_after_accept s u v g hlog]
      simp only [Bool.not_true, Bool.false_eq_true, if_false]
      rw [mapFind_mapModify, if_pos rfl, hg]
      dsimp only [Option.getD, acceptUpdate]
      rw [if_neg (by simpa using hown)]
      split <;> rfl

theorem C17_accept_request_witness :
    split_string "ACCEPT_REQUEST alice g1 bob".toList ' '
        = "ACCEPT_REQUEST".toList :: "alice".toList :: "g1".toList :: "bob".toList :: [] ∧
      exampleCatalog.loggedIn "alice".toList = true ∧
      mapFind "g1".toList exampleCatalog.groups
        = some ⟨"g1".toList, "alice".toList, ["alice".toList], ["bob".toList], []⟩ ∧
      ∃ s1 : Tracker,
        process_command exampleCatalog "ACCEPT_REQUEST alice g1 bob".toList
          = .ok ("SUCCESS: Request accepted\n".toList, s1) ∧
        mapFind "g1".toList s1.groups
          = some ⟨"g1".toList, "alice".toList, ["alice".toList, "bob".toList], [], []⟩ ∧
        process_command s1 "LIST_REQUESTS alice g1".toList
          = .ok ("No pending requests\n".toList, s1) :=
  ⟨by decide, by decide, by decide,
    match (C17_accept_request exampleCatalog "ACCEPT_REQUEST alice g1 bob".toList
      "alice".toList "g1".toList "bob".toList [] (by decide)).2
      ⟨"g1".toList, "alice".toList, ["alice".toList], ["bob".toList], []⟩
      (by decide) (by decide) (by decide) (by decide) with
    | ⟨s1, h1, h2, _, _, _, h6⟩ =>
      ⟨s1, h1, h2.trans (by decide),
        (h6 "LIST_REQUESTS alice g1".toList [] (by decide)).trans rfl⟩⟩

/-! ## Commands of a user without a session, commands on a missing group -/

theorem loggedIn_false_of (s : Tracker) (u : Str)
    (h : mapFind u s.users = none ∨ ∃ usr : User, mapFind u s.users = some usr ∧ usr.online = false) :
    s.loggedIn u = false := by
  unfold Tracker.loggedIn
  rcases h with h | ⟨usr, h, hoff⟩
  · rw [h]
  · rw [h]; exact hoff

theorem handle_create_group_offline (s : Tracker) (v u : Str) (rest : List Str)
    (hoff : s.loggedIn u = false) :
    ∃ msg : Str, handle_create_group s (v :: u :: rest) = ("ERROR:".toList ++ msg, s) := by
  rcases rest with _ | ⟨g, r⟩
  · exact ⟨_, rfl⟩
  · simp only [handle_create_group, hoff]
    exact ⟨_, rfl⟩

theorem handle_join_group_offline (s : Tracker) (v u : Str) (rest : List Str)
    (hoff : s.loggedIn u = false ∨ ∃ g r, rest = g :: r ∧ mapFind g s.groups = none) :
    ∃ msg : Str, handle_join_group s (v :: u :: rest) = ("ERROR:".toList ++ msg, s) := by
  rcases rest with _ | ⟨g, r⟩
  · exact ⟨_, rfl⟩
  · cases hlog : s.loggedIn u with
    | false =>
      simp only [handle_join_group, hlog]
      exact ⟨_, rfl⟩
    | true =>
      rcases hoff with hoff | ⟨g2, r2, he, hg⟩
      · rw [hlog] at hoff; exact absurd hoff (by decide)
      · cases he
        simp only [handle_join_group, hlog, hg]
        exact ⟨_, rfl⟩

theorem handle_leave_group_offline (s : Tracker) (v u : Str) (rest : List Str)
    (hoff : s.loggedIn u = false ∨ ∃ g r, rest = g :: r ∧ mapFind g s.groups = none) :
    ∃ msg : Str, handle_leave_group s (v :: u :: rest) = ("ERROR:".toList ++ msg, s) := by
  rcases rest with _ | ⟨g, r⟩
  · exact ⟨_, rfl⟩
  · cases hlog : s.loggedIn u with
    | false =>
      simp only [handle_leave_group, hlog]
      exact ⟨_, rfl⟩
    | true =>
      rcases hoff with hoff | ⟨g2, r2, he, hg⟩
      · rw [hlog] at hoff; exact absurd hoff (by decide)
      · cases he
        simp only [handle_leave_group, hlog, hg]
        exact ⟨_, rfl⟩

theorem handle_list_requests_offline (s : Tracker) (v u : Str) (rest : List Str)
    (hoff : s.loggedIn u = false ∨ ∃ g r, rest = g :: r ∧ mapFind g s.groups = none) :
    ∃ msg : Str, handle_list_requests s (v :: u :: rest) = ("ERROR:".toList ++ msg, s) := by
  rcases rest with _ | ⟨g, r⟩
  · exact ⟨_, rfl⟩
  · cases hlog : s.loggedIn u with
    | false =>
      simp only [handle_list_requests, hlog]
      exact ⟨_, rfl⟩
    | true =>
      rcases hoff with hoff | ⟨g2, r2, he, hg⟩
      · rw [hlog] at hoff; exact absurd hoff (by decide)
      · cases he
        simp only [handle_list_requests, hlog, hg]
        exact ⟨_, rfl⟩

theorem handle_list_files_offline (s : Tracker) (v u : Str) (rest : List Str)
    (hoff : s.loggedIn u = false ∨ ∃ g r, rest = g :: r ∧ mapFind g s.groups = none) :
    ∃ msg : Str, handle_list_files s (v :: u :: rest) = ("ERROR:".toList ++ msg, s) := by
  rcases rest with _ | ⟨g, r⟩
  · exact ⟨_, rfl⟩
  · cases hlog : s.loggedIn u with
    | false =>
      simp only [handle_list_files, hlog]
      exact ⟨_, rfl⟩
    | true =>
      rcases hoff with hoff | ⟨g2, r2, he, hg⟩
      · rw [hlog] at hoff; exact absurd hoff (by decide)
      · cases he
        simp only [handle_list_files, hlog, hg]
        exact ⟨_, rfl⟩

theorem handle_accept_request_offline (s : Tracker) (v u : Str) (rest : List Str)
    (hoff : s.loggedIn u = false ∨ ∃ g r, rest = g :: r ∧ mapFind g s.groups = none) :
    ∃ msg : Str, handle_accept_request s (v :: u :: rest) = ("ERROR:".toList ++ msg, s) := by
  rcases rest with _ | ⟨g, _ | ⟨w, r⟩⟩
  · exact ⟨_, rfl⟩
  · exact ⟨_, rfl⟩
  · cases hlog : s.loggedIn u with
    | false =>
      simp only [handle_accept_request, hlog]
      exact ⟨_, rfl⟩
    | true =>
      rcases hoff with hoff | ⟨g2, r2, he, hg⟩
      · rw [hlog] at hoff; exact absurd hoff (by decide)
      · cases he
        simp only [handle_accept_request, hlog, hg]
        exact ⟨_, rfl⟩

theorem handle_download_file_offline (s : Tracker) (v u : Str) (rest : List Str)
    (hoff : s.loggedIn u = false ∨ ∃ g r, rest = g :: r ∧ mapFind g s.groups = none) :
    ∃ msg : Str, handle_download_file s (v :: u :: rest) = ("ERROR:".toList ++ msg, s) := by
  rcases rest with _ | ⟨g, _ | ⟨w, r⟩⟩
  · exact ⟨_, rfl⟩
  · exact ⟨_, rfl⟩
  · cases hlog : s.loggedIn u with
    | false =>
      simp only [handle_download_file, hlog]
      exact ⟨_, rfl⟩
    | true =>
      rcases hoff with hoff | ⟨g2, r2, he, hg⟩
      · rw [hlog] at hoff; exact absurd hoff (by decide)
      · cases he
        simp only [handle_download_file, hlog, hg]
        exact ⟨_, rfl⟩

theorem handle_upload_file_offline (s : Tracker) (v u : Str) (rest : List Str)
    (hoff : s.loggedIn u = false ∨ ∃ g r, rest = g :: r ∧ mapFind g s.groups = none) :
    ∃ msg : Str, handle_upload_file s (v :: u :: rest) = ("ERROR:".toList ++ msg, s) := by
  rcases rest with _ | ⟨g, _ | ⟨f, _ | ⟨h, _ | ⟨b, _ | ⟨sz, r⟩⟩⟩⟩⟩
  · exact ⟨_, rfl⟩
  · exact ⟨_, rfl⟩
  · exact ⟨_, rfl⟩
  · exact ⟨_, rfl⟩
  · exact ⟨_, rfl⟩
  · simp only [handle_upload_file]
    cases stol sz with
    | error e => exact ⟨_, rfl⟩
    | ok file_size =>
      dsimp only
      cases hlog : s.loggedIn u with
      | false => exact ⟨_, rfl⟩
      | true =>
        rcases hoff with hoff | ⟨g2, r2, he, hg⟩
        · rw [hlog] at hoff; exact absurd hoff (by decide)
        · cases he
          simp only [hg]
          exact ⟨_, rfl⟩

/-- Claim C19, as stated, fails: `ghost` does not exist in the empty catalog, and
`LOGOUT ghost` is answered `SUCCESS: Logged out`. -/
theorem C19_logout_unknown_user_succeeds :
    mapFind "ghost".toList Tracker.empty.users = none ∧
      split_string "LOGOUT ghost".toList ' ' = ["LOGOUT".toList, "ghost".toList] ∧
      process_command Tracker.empty "LOGOUT ghost".toList
        = .ok ("SUCCESS: Logged out\n".toList, Tracker.empty) := by
  decide

/-- Claim C19, amended: for every catalog and every command of the verbs `CREATE_GROUP`,
`JOIN_GROUP`, `LEAVE_GROUP`, `LIST_REQUESTS`, `ACCEPT_REQUEST`, `LIST_FILES`, `UPLOAD_FILE`
and `DOWNLOAD_FILE` (every verb with a requesting user except `CREATE_USER`, `LOGIN` and
`LOGOUT`), the reply begins with `ERROR:` and the catalog is unchanged when the requesting
user does not exist or is not online; and for each of these verbs other than `CREATE_GROUP`
the same holds when the group named does not exist. -/
theorem C19_session_and_group_required (s : Tracker) (command verb u : Str) (rest : List Str)
    (htok : split_string command ' ' = verb :: u :: rest)
    (hverb : verb ∈ ["CREATE_GROUP".toList, "JOIN_GROUP".toList, "LEAVE_GROUP".toList,
      "LIST_REQUESTS".toList, "ACCEPT_REQUEST".toList, "LIST_FILES".toList,
      "UPLOAD_FILE".toList, "DOWNLOAD_FILE".toList]) :
    ((mapFind u s.users = none ∨
        ∃ usr : User, mapFind u s.users = some usr ∧ usr.online = false) →
      ∃ msg : Str, process_command s command = .ok ("ERROR:".toList ++ msg, s)) ∧
    (∀ (g : Str) (rest2 : List Str), rest = g :: rest2 → verb ≠ "CREATE_GROUP".toList →
      mapFind g s.groups = none →
      ∃ msg : Str, process_command s command = .ok ("ERROR:".toList ++ msg, s)) := by
  have key : ∀ h : Tracker → List Str → Str × Tracker,
      process_command s command = .ok (h s (verb :: u :: rest)) →
      (∃ msg : Str, h s (verb :: u :: rest) = ("ERROR:".toList ++ msg, s)) →
      ∃ msg : Str, process_command s command = .ok ("ERROR:".toList ++ msg, s) := by
    intro h hd hm
    obtain ⟨msg, hmsg⟩ := hm
    exact ⟨msg, by rw [hd, hmsg]⟩
  simp only [List.mem_cons, List.mem_singleton, List.not_mem_nil, or_false] at hverb
  constructor
  · intro hoff
    have hl := loggedIn_false_of s u hoff
    rcases hverb with h | h | h | h | h | h | h | h <;> subst h
    · exact key _ (dispatch_create_group s command _ htok)
        (handle_create_group_offline s _ u rest hl)
    · exact key _ (dispatch_join_group s command _ htok)
        (handle_join_group_offline s _ u rest (Or.inl hl))
    · exact key _ (dispatch_leave_group s command _ htok)
        (handle_leave_group_offline s _ u rest (Or.inl hl))
    · exact key _ (dispatch_list_requests s command _ htok)
        (handle_list_requests_offline s _ u rest (Or.inl hl))
    · exact key _ (dispatch_accept_request s command _ htok)
        (handle_accept_request_offline s _ u rest (Or.inl hl))
    · exact key _ (dispatch_list_files s command _ htok)
        (handle_list_files_offline s _ u rest (Or.inl hl))
    · exact key _ (dispatch_upload_file s command _ htok)
        (handle_upload_file_offline s _ u rest (Or.inl hl))
    · exact key _ (dispatch_download_file s command _ htok)
        (handle_download_file_offline s _ u rest (Or.inl hl))
  · intro g rest2 hrest hne hg
    have hr : ∃ g r, rest = g :: r ∧ mapFind g s.groups = none := ⟨g, rest2, hrest, hg⟩
    rcases hverb with h | h | h | h | h | h | h | h <;> subst h
    · exact absurd rfl hne
    · exact key _ (dispatch_join_group s command _ htok)
        (handle_join_group_offline s _ u rest (Or.inr hr))
    · exact key _ (dispatch_leave_group s command _ htok)
        (handle_leave_group_offline s _ u rest (Or.inr hr))
    · exact key _ (dispatch_list_requests s command _ htok)
        (handle_list_requests_offline s _ u rest (Or.inr hr))
    · exact key _ (dispatch_accept_request s command _ htok)
        (handle_accept_request_offline s _ u rest (Or.inr hr))
    · exact key _ (dispatch_list_files s command _ htok)
        (handle_list_files_offline s _ u rest (Or.inr hr))
    · exact key _ (dispatch_upload_file s command _ htok)
        (handle_upload_file_offline s _ u rest (Or.inr hr))
    · exact key _ (dispatch_download_file s command _ htok)
        (handle_download_file_offline s _ u rest (Or.inr hr))

theorem C19_session_and_group_required_witness :
    split_string "DOWNLOAD_FILE carol g9 F".toList ' '
        = "DOWNLOAD_FILE".toList :: "carol".toList :: ["g9".toList, "F".toList] ∧
      mapFind "carol".toList exampleCatalog.users = none ∧
      mapFind "g9".toList exampleCatalog.groups = none ∧
      (∃ msg : Str, process_command exampleCatalog "DOWNLOAD_FILE carol g9 F".toList
        = .ok ("ERROR:".toList ++ msg, exampleCatalog)) ∧
      process_command exampleCatalog "DOWNLOAD_FILE carol g9 F".toList
        = .ok ("ERROR: User not logged in\n".toList, exampleCatalog) :=
  ⟨by decide, by decide, by decide,
    (C19_session_and_group_required exampleCatalog "DOWNLOAD_FILE carol g9 F".toList
      "DOWNLOAD_FILE".toList "carol".toList ["g9".toList, "F".toList] (by decide)
      (by decide)).1 (Or.inl (by decide)),
    by decide⟩

/-! ## Repeated commands -/

theorem strLt_irrefl (a : Str) : strLt a a = false := by
  induction a with
  | nil => rfl
  | cons c cs ih => simp [strLt, ih]

theorem mapInsert_mapInsert {V : Type} (k : Str) (v w : V) (m : List (Str × V)) :
    mapInsert k v (mapInsert k w m) = mapInsert k v m := by
  induction m with
  | nil => simp [mapInsert, strLt_irrefl]
  | cons p rest ih =>
    obtain ⟨k1, v1⟩ := p
    by_cases h1 : strLt k k1 = true
    · simp [mapInsert, h1, strLt_irrefl]
    · by_cases h2 : k1 = k
      · simp [mapInsert, h1, h2, strLt_irrefl]
      · simp [mapInsert, h1, h2, ih]

theorem mapModify_mapModify {V : Type} (dflt : V) (k : Str) (f : V → V) (m : List (Str × V))
    (hf : ∀ x : V, f (f x) = f x) :
    mapModify dflt k f (mapModify dflt k f m) = mapModify dflt k f m := by
  have h := mapFind_mapModify dflt k k f m
  rw [if_pos rfl] at h
  rw [mapModify, h]
  simp only [Option.getD, hf]
  unfold mapModify
  exact mapInsert_mapInsert k _ _ m

theorem addSeeder_addSeeder (filename user_id : Str) (g : Group) :
    addSeeder filename user_id (addSeeder filename user_id g) = addSeeder filename user_id g := by
  unfold addSeeder
  dsimp only
  rw [mapFind_mapInsert, if_pos rfl, Option.getD_some]
  generalize (mapFind filename g.shared_files).getD [] = fu
  by_cases h : user_id ∈ fu
  · simp only [h, if_true, mapInsert_mapInsert]
  · simp only [h, if_false, List.mem_append, List.mem_singleton, or_true, if_true,
      mapInsert_mapInsert]

theorem handle_logout_twice (s : Tracker) (tokens : List Str) :
    handle_logout (handle_logout s tokens).2 tokens = handle_logout s tokens := by
  rcases tokens with _ | ⟨v, _ | ⟨u, r⟩⟩
  · rfl
  · rfl
  · unfold handle_logout
    dsimp only
    cases hf : mapFind u s.users with
    | none =>
      simp only [Option.isSome_none, Bool.false_eq_true, if_false, hf]
    | some usr =>
      simp only [Option.isSome_some, if_true, mapFind_mapModify]
      rw [mapModify_mapModify User.dflt u
        (fun x : User => { x with online := false }) s.users (fun x => rfl)]

theorem handle_create_user_twice (s : Tracker) (tokens : List Str) :
    (handle_create_user (handle_create_user s tokens).2 tokens).2
      = (handle_create_user s tokens).2 := by
  rcases tokens with _ | ⟨v, _ | ⟨u, _ | ⟨p, r⟩⟩⟩
  · rfl
  · rfl
  · rfl
  · unfold handle_create_user
    dsimp only
    cases hf : mapFind u s.users with
    | none =>
      simp only [Option.isSome_none, Bool.false_eq_true, if_false, mapFind_mapInsert, if_true,
        Option.isSome_some]
    | some usr =>
      simp only [Option.isSome_some, if_true, hf]

theorem handle_upload_file_twice (s : Tracker) (tokens : List Str) :
    handle_upload_file (handle_upload_file s tokens).2 tokens = handle_upload_file s tokens := by
  rcases tokens with _ | ⟨v, _ | ⟨u, _ | ⟨g, _ | ⟨f, _ | ⟨h, _ | ⟨b, _ | ⟨sz, r⟩⟩⟩⟩⟩⟩⟩
  · rfl
  · rfl
  · rfl
  · rfl
  · rfl
  · rfl
  · rfl
  · unfold handle_upload_file
    dsimp only
    cases stol sz with
    | error e => rfl
    | ok file_size =>
      dsimp only
      cases hlog : s.loggedIn u with
      | false =>
        simp only [Bool.not_false, if_true, hlog]
      | true =>
        simp only [Bool.not_true, Bool.false_eq_true, if_false]
        cases hg : mapFind g s.groups with
        | none =>
          simp only [hlog, hg, Bool.not_true, Bool.false_eq_true, if_false]
        | some grp =>
          dsimp only
          by_cases hm : u ∈ grp.members
          · have hlog2 : Tracker.loggedIn
                { s with
                  groups := mapModify Group.dflt g (addSeeder f u) s.groups
                  files := mapInsert h ⟨f, h, parse_piece_hashes b, file_size, u, g⟩ s.files } u
                = true := hlog
            have hm2 : u ∈ (addSeeder f u grp).members := hm
            simp only [hm, not_true_eq_false, if_false, hlog2, Bool.not_true,
              Bool.false_eq_true, mapFind_mapModify, if_true, hg, Option.getD_some, hm2,
              mapInsert_mapInsert]
            rw [mapModify_mapModify Group.dflt g _ s.groups (addSeeder_addSeeder f u)]
          · simp only [hm, not_false_eq_true, if_true, hlog, hg, Bool.not_true,
              Bool.false_eq_true, if_false]

/-- Claim C15: for every catalog, a `LOGOUT`, `CREATE_USER` or `UPLOAD_FILE` command returns,
and the same command applied again to the catalog it produced returns and leaves that
catalog (its users, groups and files) as it is: applying the command twice gives the same
catalog as applying it once. -/
theorem C15_repeated_command (s : Tracker) (command verb : Str) (rest : List Str)
    (htok : split_string command ' ' = verb :: rest)
    (hverb : verb ∈ ["LOGOUT".toList, "CREATE_USER".toList, "UPLOAD_FILE".toList]) :
    ∃ (r1 r2 : Str) (s1 : Tracker),
      process_command s command = .ok (r1, s1) ∧
      process_command s1 command = .ok (r2, s1) := by
  have key : ∀ (h : Tracker → List Str → Str × Tracker) (toks : List Str),
      (∀ t : Tracker, process_command t command = .ok (h t toks)) →
      (h (h s toks).2 toks).2 = (h s toks).2 →
      ∃ (r1 r2 : Str) (s1 : Tracker),
        process_command s command = .ok (r1, s1) ∧
        process_command s1 command = .ok (r2, s1) := by
    intro h toks hd heq
    refine ⟨(h s toks).1, (h (h s toks).2 toks).1, (h s toks).2, hd s, ?_⟩
    rw [hd (h s toks).2]
    exact congrArg Except.ok (Prod.ext rfl heq)
  simp only [List.mem_cons, List.mem_singleton, List.not_mem_nil, or_false] at hverb
  rcases hverb with h | h | h <;> subst h
  · exact key handle_logout _ (fun t => dispatch_logout t command rest htok)
      (congrArg Prod.snd (handle_logout_twice s _))
  · exact key handle_create_user _ (fun t => dispatch_create_user t command rest htok)
      (handle_create_user_twice s _)
  · exact key handle_upload_file _ (fun t => dispatch_upload_file t command rest htok)
      (congrArg Prod.snd (handle_upload_file_twice s _))

theorem C15_repeated_command_witness :
    split_string "UPLOAD_FILE alice g1 F 1f2e3d4c aaaaaaaaaaaaaaaaaaaa 9".toList ' '
        = "UPLOAD_FILE".toList :: ["alice".toList, "g1".toList, "F".toList, "1f2e3d4c".toList,
            "aaaaaaaaaaaaaaaaaaaa".toList, "9".toList] ∧
      ∃ (r1 r2 : Str) (s1 : Tracker),
        process_command exampleAccepted
            "UPLOAD_FILE alice g1 F 1f2e3d4c aaaaaaaaaaaaaaaaaaaa 9".toList = .ok (r1, s1) ∧
        process_command s1
            "UPLOAD_FILE alice g1 F 1f2e3d4c aaaaaaaaaaaaaaaaaaaa 9".toList = .ok (r2, s1) :=
  ⟨by decide,
    C15_repeated_command exampleAccepted
      "UPLOAD_FILE alice g1 F 1f2e3d4c aaaaaaaaaaaaaaaaaaaa 9".toList "UPLOAD_FILE".toList
      ["alice".toList, "g1".toList, "F".toList, "1f2e3d4c".toList,
        "aaaaaaaaaaaaaaaaaaaa".toList, "9".toList] (by decide) (by decide)⟩

/-! ## Upload of a file -/

theorem handle_upload_file_success (s : Tracker) (v u g filename file_hash blob size_tok : Str)
    (rest : List Str) (file_size : Int) (grp : Group)
    (hsize : stol size_tok = .ok file_size) (hlog : s.loggedIn u = true)
    (hg : mapFind g s.groups = some grp) (hmem : u ∈ grp.members) :
    handle_upload_file s (v :: u :: g :: filename :: file_hash :: blob :: size_tok :: rest)
      = ("SUCCESS: Large file uploaded successfully\n".toList,
          { s with
            groups := mapModify Group.dflt g (addSeeder filename u) s.groups
            files := (mapInsert file_hash
              ⟨filename, file_hash, parse_piece_hashes blob, file_size, u, g⟩ s.files) }) := by
  unfold handle_upload_file
  simp only [hsize, hlog, hg, Bool.not_true, Bool.false_eq_true, if_false]
  rw [if_neg (by simpa using hmem)]

/-- Claim C13, as stated, fails: `alice` has uploaded `F` to `g1` and the entry names her as
owner; after `bob`, a second member, uploads the same file to the same group, the entry names
`bob` as owner. -/
theorem C13_second_upload_replaces_owner :
    (mapFind "1f2e3d4c".toList exampleUploaded.files).map (fun e => (e.filename, e.owner))
        = some ("F".toList, "alice".toList) ∧
      (process_command exampleUploaded
          "UPLOAD_FILE bob g1 F 1f2e3d4c aaaaaaaaaaaaaaaaaaaabbbbbbbbbbbbbbbbbbbbcccccccccccccccccccc 1200000".toList).map
        (fun r => (r.1, (mapFind "1f2e3d4c".toList r.2.files).map
          (fun e => (e.filename, e.owner))))
        = .ok ("SUCCESS: Large file uploaded successfully\n".toList,
            some ("F".toList, "bob".toList)) := by
  decide

/-- Claim C13, amended: for every catalog, a successful `UPLOAD_FILE u g filename hash blob
size` (also of a file name already registered in the group, by a second member) stores under
`hash` the entry of this upload: file name, hash, the pieces cut from the blob, size and group
of the command, with `u` as owner; the entries under other hashes are unchanged, and so are
the users; `u` is appended to `shared_files[g][filename]` unless already there, and the other
seeder lists are unchanged. -/
theorem C13_upload_stores_entry (s : Tracker) (command u g filename file_hash blob size_tok : Str)
    (rest : List Str) (file_size : Int) (grp : Group)
    (htok : split_string command ' '
      = "UPLOAD_FILE".toList :: u :: g :: filename :: file_hash :: blob :: size_tok :: rest)
    (hsize : stol size_tok = .ok file_size) (hlog : s.loggedIn u = true)
    (hg : mapFind g s.groups = some grp) (hmem : u ∈ grp.members) :
    ∃ s1 : Tracker,
      process_command s command
        = .ok ("SUCCESS: Large file uploaded successfully\n".toList, s1) ∧
      mapFind file_hash s1.files
        = some ⟨filename, file_hash, parse_piece_hashes blob, file_size, u, g⟩ ∧
      (∀ h2 : Str, h2 ≠ file_hash → mapFind h2 s1.files = mapFind h2 s.files) ∧
      s1.users = s.users ∧
      s1.seeders g filename
        = (if u ∈ s.seeders g filename then s.seeders g filename
            else s.seeders g filename ++ [u]) ∧
      ∀ g2 f2 : Str, (g2, f2) ≠ (g, filename) → s1.seeders g2 f2 = s.seeders g2 f2 := by
  refine ⟨{ s with
      groups := mapModify Group.dflt g (addSeeder filename u) s.groups
      files := (mapInsert file_hash
        ⟨filename, file_hash, parse_piece_hashes blob, file_size, u, g⟩ s.files) },
    ?_, ?_, ?_, ?_, ?_, ?_⟩
  · rw [dispatch_upload_file s command _ htok,
      handle_upload_file_success s _ u g filename file_hash blob size_tok rest file_size grp
        hsize hlog hg hmem]
  · dsimp only
    rw [mapFind_mapInsert, if_pos rfl]
  · intro h2 hne
    dsimp only
    rw [mapFind_mapInsert, if_neg hne]
  · rfl
  · unfold Tracker.seeders
    dsimp only
    rw [mapFind_mapModify, if_pos rfl, hg]
    dsimp only [Option.getD_some]
    rw [addSeeder_shared_files, if_pos rfl]
    rfl
  · intro g2 f2 hne
    unfold Tracker.seeders
    dsimp only
    rw [mapFind_mapModify]
    by_cases h2 : g2 = g
    · subst h2
      rw [if_pos rfl, hg]
      dsimp only [Option.getD_some]
      rw [addSeeder_shared_files, if_neg (fun h => hne (by rw [h]))]
    · rw [if_neg h2]

theorem C13_upload_stores_entry_witness :
    split_string
        "UPLOAD_FILE bob g1 F 1f2e3d4c aaaaaaaaaaaaaaaaaaaabbbbbbbbbbbbbbbbbbbb 1200000".toList ' '
        = "UPLOAD_FILE".toList :: "bob".toList :: "g1".toList :: "F".toList
            :: "1f2e3d4c".toList :: "aaaaaaaaaaaaaaaaaaaabbbbbbbbbbbbbbbbbbbb".toList
            :: "1200000".toList :: [] ∧
      stol "1200000".toList = .ok 1200000 ∧
      exampleUploaded.loggedIn "bob".toList = true ∧
      (mapFind "g1".toList exampleUploaded.groups).map (fun grp => grp.members)
        = some ["alice".toList, "bob".toList] ∧
      exampleUploaded.seeders "g1".toList "F".toList = ["alice".toList] ∧
      ∃ s1 : Tracker,
        process_command exampleUploaded
            "UPLOAD_FILE bob g1 F 1f2e3d4c aaaaaaaaaaaaaaaaaaaabbbbbbbbbbbbbbbbbbbb 1200000".toList
          = .ok ("SUCCESS: Large file uploaded successfully\n".toList, s1) ∧
        (mapFind "1f2e3d4c".toList s1.files).map (fun e => e.owner) = some "bob".toList ∧
        s1.seeders "g1".toList "F".toList = ["alice".toList, "bob".toList] :=
  ⟨by decide, by decide, by decide, by decide, by decide,
    match C13_upload_stores_entry exampleUploaded
      "UPLOAD_FILE bob g1 F 1f2e3d4c aaaaaaaaaaaaaaaaaaaabbbbbbbbbbbbbbbbbbbb 1200000".toList
      "bob".toList "g1".toList "F".toList "1f2e3d4c".toList
      "aaaaaaaaaaaaaaaaaaaabbbbbbbbbbbbbbbbbbbb".toList "1200000".toList [] 1200000
      ⟨"g1".toList, "alice".toList, ["alice".toList, "bob".toList], [],
        [("F".toList, ["alice".toList])]⟩
      (by decide) (by decide) (by decide) (by decide) (by decide) with
    | ⟨s1, h1, h2, _, _, h5, _⟩ =>
      ⟨s1, h1, by rw [h2]; rfl, h5.trans (by decide)⟩⟩

/-- Claim C14 at a blob of two fragments of 20 characters: its length, 40, is a multiple
of 8, so `handle_upload_file` cuts it into five pieces of 8 characters; the upload succeeds
and the entry stores these five, not the two fragments. -/
theorem C14_two_fragments_cut_by_eight :
    parse_piece_hashes "aaaaaaaaaaaaaaaaaaaabbbbbbbbbbbbbbbbbbbb".toList
        = ["aaaaaaaa".toList, "aaaaaaaa".toList, "aaaabbbb".toList, "bbbbbbbb".toList,
            "bbbbbbbb".toList] ∧
      (process_command exampleAccepted
          "UPLOAD_FILE alice g1 F 1f2e3d4c aaaaaaaaaaaaaaaaaaaabbbbbbbbbbbbbbbbbbbb 600000".toList).map
        (fun r => (r.1, (mapFind "1f2e3d4c".toList r.2.files).map (fun e => e.piece_hashes)))
        = .ok ("SUCCESS: Large file uploaded successfully\n".toList,
            some ["aaaaaaaa".toList, "aaaaaaaa".toList, "aaaabbbb".toList, "bbbbbbbb".toList,
              "bbbbbbbb".toList]) := by
  decide

/-- Claim C12 at a piece whose 15 bytes read `PIECE_NOT_FOUND`: the reply of the serving
endpoint is the valid response `PIECE_DATA 15`, newline, payload; when the first `recv`
delivers it whole, `download_piece_from_peer` fails, because it looks for `PIECE_NOT_FOUND`
in everything received, payload included; when the first `recv` delivers the 14 bytes of the
header line only, the same reply is accepted. -/
theorem C12_payload_reading_not_found :
    piece_reply "PIECE_NOT_FOUND".toList 0 = "PIECE_DATA 15\nPIECE_NOT_FOUND".toList ∧
      download_piece_from_peer (exampleNetwork "PIECE_NOT_FOUND".toList) examplePeer
        "F".toList 0 = none ∧
      receive_piece "PIECE_DATA 15\nPIECE_NOT_FOUND".toList [] = none ∧
      receive_piece "PIECE_DATA 15\nPIECE_NOT_FOUND".toList [14]
        = some "PIECE_NOT_FOUND".toList := by
  refine ⟨by decide, by decide, by decide, by decide⟩

/-! ## Piece hashes of an upload -/

theorem SHA1.process_block_length (digest block : List Nat) :
    (SHA1.process_block digest block).length = 5 := by
  unfold SHA1.process_block
  simp only []
  rfl

theorem SHA1.fullBlocks_digest_length (fuel : Nat) (h : SHA1) (data : List Nat)
    (hd : h.digest.length = 5) : (SHA1.fullBlocks fuel h data).1.digest.length = 5 := by
  induction fuel generalizing h data with
  | zero => exact hd
  | succ n ih =>
    unfold SHA1.fullBlocks
    split
    · exact ih _ _ (SHA1.process_block_length _ _)
    · exact hd

theorem SHA1.updateBytes_digest_length (h : SHA1) (data : List Nat)
    (hd : h.digest.length = 5) : (SHA1.updateBytes h data).digest.length = 5 := by
  unfold SHA1.updateBytes
  dsimp only
  split
  · exact SHA1.fullBlocks_digest_length _ _ _ (SHA1.process_block_length _ _)
  · exact SHA1.fullBlocks_digest_length _ _ _ hd

theorem SHA1.hex8_length (x : Nat) : (SHA1.hex8 x).length = 8 := by
  unfold SHA1.hex8
  rw [List.length_map, List.length_range]

theorem SHA1.final_length (h : SHA1) (hd : h.digest.length = 5) :
    (SHA1.final h).length = 40 := by
  have h1 : (SHA1.pad h).digest.length = 5 := by
    unfold SHA1.pad
    exact SHA1.updateBytes_digest_length _ _ (SHA1.updateBytes_digest_length _ _ hd)
  have key : ∀ d : List Nat, d.length = 5 →
      ((d.map SHA1.hex8).foldr (· ++ ·) []).length = 40 := by
    intro d hlen
    match d, hlen with
    | [a, b, c, e, f], _ => simp [SHA1.hex8_length]
  unfold SHA1.final
  dsimp only
  split
  · exact key _ (SHA1.process_block_length _ _)
  · exact key _ h1

theorem SHA1.digestOf_length (s : Str) : (SHA1.digestOf s).length = 40 := by
  unfold SHA1.digestOf SHA1.update
  exact SHA1.final_length _ (SHA1.updateBytes_digest_length _ _ rfl)

theorem pieceHashesLoop_succ (fuel : Nat) (content : Str) :
    pieceHashesLoop (fuel + 1) content
      = if content = [] then []
        else SHA1.digestOf (content.take 524288) :: pieceHashesLoop fuel (content.drop 524288) := by
  have hne : SHA1.final (SHA1.update SHA1.reset (content.take 524288)) ≠ [] := by
    intro h
    have h40 := SHA1.digestOf_length (content.take 524288)
    unfold SHA1.digestOf at h40
    rw [h] at h40
    exact absurd h40 (by decide)
  rw [pieceHashesLoop]
  dsimp only
  rw [if_pos hne]
  cases content with
  | nil => rfl
  | cons c cs =>
    rw [if_pos (Or.inr (by rw [List.length_take]; simp)), if_neg (List.cons_ne_nil c cs)]
    rfl

theorem piece_count_drop (content : Str) (hne : content ≠ []) :
    piece_count content = piece_count (content.drop 524288) + 1 := by
  have hpos : 0 < content.length := List.length_pos.mpr hne
  unfold piece_count
  rw [List.length_drop]
  omega

theorem piece_of_succ (content : Str) (i : Nat) :
    piece_of content (i + 1) = piece_of (content.drop 524288) i := by
  unfold piece_of
  rw [List.drop_drop]
  congr 2
  omega

theorem pieceHashesLoop_eq (fuel : Nat) (content : Str) (hfuel : piece_count content ≤ fuel) :
    pieceHashesLoop fuel content
      = (List.range (piece_count content)).map (fun i => SHA1.digestOf (piece_of content i)) := by
  induction fuel generalizing content with
  | zero =>
    have h0 : piece_count content = 0 := Nat.le_zero.mp hfuel
    rw [h0]
    rfl
  | succ n ih =>
    rw [pieceHashesLoop_succ]
    by_cases hne : content = []
    · have h0 : piece_count ([] : Str) = 0 := by
        unfold piece_count
        rw [List.length_nil]
      rw [if_pos hne, hne, h0]
      rfl
    · have hz : piece_of content 0 = content.take 524288 := by
        unfold piece_of
        rw [Nat.zero_mul, List.drop_zero]
      have hmap : ∀ l : List Nat,
          l.map ((fun i => SHA1.digestOf (piece_of content i)) ∘ Nat.succ)
            = l.map (fun i => SHA1.digestOf (piece_of (content.drop 524288) i)) := by
        intro l
        apply List.map_congr_left
        intro i _
        simp only [Function.comp, piece_of_succ]
      have hle : piece_count (content.drop 524288) ≤ n := by
        rw [piece_count_drop content hne] at hfuel
        omega
      rw [if_neg hne, piece_count_drop content hne, List.range_succ_eq_map, List.map_cons,
        List.map_map, ih (content.drop 524288) hle, hz, hmap]

theorem calculate_piece_hashes_eq (F : Str) :
    calculate_piece_hashes (some F)
      = (List.range (piece_count F)).map (fun i => SHA1.digestOf (piece_of F i)) := by
  unfold calculate_piece_hashes
  dsimp only
  apply pieceHashesLoop_eq
  unfold piece_count
  omega

theorem hash_string_foldl (acc : Str) (l : List Str) (h40 : ∀ x ∈ l, x.length = 40) :
    l.foldl (fun acc hash => acc ++ (if 20 ≤ hash.length then substr hash 0 20 else hash)) acc
      = acc ++ (l.map (fun x => x.take 20)).foldr (· ++ ·) [] := by
  induction l generalizing acc with
  | nil => simp
  | cons x t ih =>
    rw [List.foldl_cons, ih _ (fun y hy => h40 y (List.mem_cons_of_mem _ hy)),
      if_pos (by rw [h40 x (List.mem_cons_self _ _)]; decide)]
    simp [substr, List.append_assoc]

theorem hash_string_eq (l : List Str) (h40 : ∀ x ∈ l, x.length = 40) :
    hash_string l = (l.map (fun x => x.take 20)).foldr (· ++ ·) [] := by
  unfold hash_string
  rw [hash_string_foldl [] l h40, List.nil_append]

theorem concat_length (l : List Str) (n : Nat) (h : ∀ x ∈ l, x.length = n) :
    (l.foldr (· ++ ·) []).length = n * l.length := by
  induction l with
  | nil => simp
  | cons x t ih =>
    rw [List.foldr_cons, List.length_append, h x (List.mem_cons_self _ _),
      ih (fun y hy => h y (List.mem_cons_of_mem _ hy)), List.length_cons, Nat.mul_succ]
    omega

theorem SHA1.updateChunks_digest_length (fuel : Nat) (h : SHA1) (content : Str)
    (hd : h.digest.length = 5) : (SHA1.updateChunks fuel h content).digest.length = 5 := by
  induction fuel generalizing h content with
  | zero => exact hd
  | succ n ih =>
    unfold SHA1.updateChunks
    split
    · exact hd
    · exact ih _ _ (SHA1.updateBytes_digest_length _ _ hd)

theorem SHA1.from_file_length (content : Str) : (SHA1.from_file (some content)).length = 40 := by
  unfold SHA1.from_file
  exact SHA1.final_length _ (SHA1.updateChunks_digest_length _ _ _ rfl)

theorem piece_of_window (F : Str) (i : Nat) :
    piece_of F i
      = (F.drop (i * 524288)).take (min ((i + 1) * 524288) F.length - i * 524288) := by
  unfold piece_of
  by_cases h : (i + 1) * 524288 ≤ F.length
  · rw [Nat.min_eq_left h]
    congr 1
    omega
  · have hlen : (F.drop (i * 524288)).length ≤ min ((i + 1) * 524288) F.length - i * 524288 := by
      rw [List.length_drop]
      omega
    have hlen2 : (F.drop (i * 524288)).length ≤ 524288 := by
      rw [List.length_drop]
      omega
    rw [List.take_of_length_le hlen, List.take_of_length_le hlen2]

/-- Claim C11: for every non-empty file `F`, `calculate_piece_hashes` returns
`ceil(size / 524288)` digests, the one at index `i` being the digest that a fresh `SHA1`
object gives for the bytes of `F` from `i * 524288` up to `min((i + 1) * 524288, size)`; the
blob in the `UPLOAD_FILE` command that `upload_file` sends is the concatenation, in order, of
the first 20 characters of these digests, of length `20 * ceil(size / 524288)`; and a file of
1,200,000 bytes has 3 pieces of 524288, 524288 and 151424 bytes. -/
theorem C11_piece_hashes (F user_id group_id filepath : Str) (hF : F ≠ [])
    (hname : base_name filepath ≠ []) :
    calculate_piece_hashes (some F)
        = (List.range ((F.length + 524287) / 524288)).map
            (fun i => SHA1.digestOf
              ((F.drop (i * 524288)).take (min ((i + 1) * 524288) F.length - i * 524288))) ∧
      (calculate_piece_hashes (some F)).length = (F.length + 524287) / 524288 ∧
      hash_string (calculate_piece_hashes (some F))
        = ((calculate_piece_hashes (some F)).map (fun d => d.take 20)).foldr (· ++ ·) [] ∧
      (hash_string (calculate_piece_hashes (some F))).length
        = 20 * ((F.length + 524287) / 524288) ∧
      upload_file_command user_id group_id filepath F
        = some ("UPLOAD_FILE ".toList ++ user_id ++ [' '] ++ group_id ++ [' ']
            ++ base_name filepath ++ [' '] ++ SHA1.from_file (some F) ++ [' ']
            ++ hash_string (calculate_piece_hashes (some F)) ++ [' ']
            ++ to_string (F.length : Int) ++ ['\n']) ∧
      (F.length = 1200000 →
        (calculate_piece_hashes (some F)).length = 3 ∧
        (piece_of F 0).length = 524288 ∧ (piece_of F 1).length = 524288 ∧
        (piece_of F 2).length = 151424) := by
  have hcalc := calculate_piece_hashes_eq F
  have hlen : (calculate_piece_hashes (some F)).length = (F.length + 524287) / 524288 := by
    rw [hcalc, List.length_map, List.length_range]
    rfl
  have h40 : ∀ x ∈ calculate_piece_hashes (some F), x.length = 40 := by
    intro x hx
    rw [hcalc] at hx
    obtain ⟨i, _, hi⟩ := List.mem_map.mp hx
    rw [← hi]
    exact SHA1.digestOf_length _
  have hpos : 0 < F.length := List.length_pos.mpr hF
  refine ⟨?_, hlen, hash_string_eq _ h40, ?_, ?_, ?_⟩
  · rw [hcalc]
    unfold piece_count
    apply List.map_congr_left
    intro i _
    rw [piece_of_window]
  · rw [hash_string_eq _ h40, concat_length _ 20, List.length_map, hlen]
    intro x hx
    obtain ⟨d, hd, hx⟩ := List.mem_map.mp hx
    rw [← hx, List.length_take, h40 d hd]
    rfl
  · unfold upload_file_command
    dsimp only
    have h1 : ¬ ((F.length : Int) = 0) := by omega
    have h2 : SHA1.from_file (some F) ≠ [] := by
      intro h
      have := SHA1.from_file_length F
      rw [h] at this
      exact absurd this (by decide)
    have h3 : calculate_piece_hashes (some F) ≠ [] := by
      intro h
      rw [h, List.length_nil] at hlen
      omega
    rw [if_neg h1, if_neg hname, if_neg h2, if_neg h3]
  · intro h12
    rw [hlen, piece_of_length, piece_of_length, piece_of_length, h12]
    omega

theorem C11_piece_hashes_witness :
    "hello world".toList ≠ [] ∧ base_name "/home/alice/F".toList ≠ [] ∧
      calculate_piece_hashes (some "hello world".toList)
        = [SHA1.digestOf "hello world".toList] ∧
      (hash_string (calculate_piece_hashes (some "hello world".toList))).length = 20 :=
  ⟨by decide, by decide,
    (C11_piece_hashes "hello world".toList "alice".toList "g1".toList "/home/alice/F".toList
      (by decide) (by decide)).1.trans (by decide),
    (C11_piece_hashes "hello world".toList "alice".toList "g1".toList "/home/alice/F".toList
      (by decide) (by decide)).2.2.2.1.trans (by decide)⟩

/-! ## Round trip of the peer list -/

theorem stoi_to_string_int (n : Int) (hlo : -2147483648 ≤ n) (hhi : n ≤ 2147483647) :
    stoi (to_string n) = .ok n := by
  by_cases hneg : n < 0
  · have hne := natToDec_ne_nil n.natAbs
    have hd := natToDec_isdigit n.natAbs
    unfold stoi strtol_base10 to_string
    rw [if_pos hneg]
    have hdw : ('-' :: natToDec n.natAbs).dropWhile isspace = '-' :: natToDec n.natAbs := by
      rw [List.dropWhile_cons]
      rfl
    simp only [hdw]
    rw [takeWhile_eq_self (natToDec n.natAbs) hd, if_neg hne]
    dsimp only
    rw [if_pos trivial, decValue_natToDec]
    have hv : -((n.natAbs : Nat) : Int) = n := by omega
    rw [hv, if_neg (by omega)]
  · have hn : n = ((n.natAbs : Nat) : Int) := by omega
    rw [hn]
    exact stoi_to_string n.natAbs (by omega)

theorem to_string_ne_nil (n : Int) : to_string n ≠ [] := by
  unfold to_string
  split
  · exact List.cons_ne_nil _ _
  · exact natToDec_ne_nil _

theorem to_string_no_space (n : Int) : ' ' ∉ to_string n := by
  unfold to_string
  split
  · intro h
    rcases List.mem_cons.mp h with h | h
    · exact absurd h (by decide)
    · exact natToDec_no_space _ h
  · exact natToDec_no_space _

theorem split_joinSpaced (ts : List Str) (h : ∀ t ∈ ts, t ≠ [] ∧ ' ' ∉ t) :
    split_string (joinSpaced ts) ' ' = ts := by
  induction ts with
  | nil => rfl
  | cons t rest ih =>
    have ht := h t (List.mem_cons_self t rest)
    cases rest with
    | nil => exact split_string_no_delim t ' ' ht.2 ht.1
    | cons t2 rest2 =>
      have ih2 := ih (fun x hx => h x (List.mem_cons_of_mem t hx))
      show split_string (t ++ [' '] ++ joinSpaced (t2 :: rest2)) ' ' = _
      rw [List.append_assoc, List.singleton_append, split_string_append t _ ' ' ht.2, ih2]

theorem joinSpaced_getLast (ts : List Str) (hne : ts ≠ [])
    (h : ∀ t ∈ ts, t ≠ [] ∧ ' ' ∉ t) :
    ∃ (init : Str) (c : Char), joinSpaced ts = init ++ [c] ∧ c ≠ ' ' := by
  induction ts with
  | nil => exact absurd rfl hne
  | cons t rest ih =>
    have ht := h t (List.mem_cons_self t rest)
    cases rest with
    | nil =>
      refine ⟨t.dropLast, t.getLast ht.1, (List.dropLast_append_getLast ht.1).symm, ?_⟩
      intro hc
      exact ht.2 (hc ▸ List.getLast_mem ht.1)
    | cons t2 rest2 =>
      obtain ⟨init, c, hj, hc⟩ := ih (List.cons_ne_nil _ _)
        (fun x hx => h x (List.mem_cons_of_mem t hx))
      refine ⟨t ++ [' '] ++ init, c, ?_, hc⟩
      show t ++ [' '] ++ joinSpaced (t2 :: rest2) = _
      rw [hj, List.append_assoc (t ++ [' '])]

theorem strip_trailing_spaces_eq (init : Str) (c : Char) (hc : c ≠ ' ') :
    strip_trailing_spaces (init ++ [c]) = init ++ [c] := by
  unfold strip_trailing_spaces
  rw [List.reverse_append, List.reverse_singleton, List.singleton_append, List.dropWhile_cons,
    if_neg (by simpa using hc), List.reverse_cons, List.reverse_reverse]

theorem parse_peer_tokens_peerTokens (peers : List PeerInfo)
    (h : ∀ p ∈ peers, p.ip ≠ [] ∧ p.user_id ≠ [] ∧
      -2147483648 ≤ p.port ∧ p.port ≤ 2147483647) :
    parse_peer_tokens (peers.flatMap peerTokens) = peers := by
  induction peers with
  | nil => rfl
  | cons p rest ih =>
    obtain ⟨hip, hid, hlo, hhi⟩ := h p (List.mem_cons_self p rest)
    have ih2 := ih (fun x hx => h x (List.mem_cons_of_mem p hx))
    show parse_peer_tokens (p.ip :: to_string p.port :: p.user_id :: rest.flatMap peerTokens) = _
    rw [parse_peer_tokens, if_neg (by simp [hip, hid, to_string_ne_nil]),
      stoi_to_string_int p.port hlo hhi]
    dsimp only
    rw [ih2]

theorem to_string_no_newline (n : Int) : '\n' ∉ to_string n := by
  unfold to_string
  split
  · intro h
    rcases List.mem_cons.mp h with h | h
    · exact absurd h (by decide)
    · exact natToDec_no_newline _ h
  · exact natToDec_no_newline _

theorem to_string_no_nul (n : Int) : ∀ c ∈ to_string n, c.toNat ≠ 0 := by
  unfold to_string
  split
  · intro c h
    rcases List.mem_cons.mp h with h | h
    · rw [h]; decide
    · exact natToDec_no_nul _ c h
  · exact natToDec_no_nul _

theorem mem_joinSpaced (ts : List Str) (c : Char) (hc : c ∈ joinSpaced ts) :
    c = ' ' ∨ ∃ t ∈ ts, c ∈ t := by
  induction ts with
  | nil => exact absurd hc (List.not_mem_nil c)
  | cons t rest ih =>
    cases rest with
    | nil => exact Or.inr ⟨t, List.mem_cons_self _ _, hc⟩
    | cons t2 rest2 =>
      have hc2 : c ∈ t ++ [' '] ++ joinSpaced (t2 :: rest2) := hc
      rw [List.mem_append, List.mem_append, List.mem_singleton] at hc2
      rcases hc2 with (h | h) | h
      · exact Or.inr ⟨t, List.mem_cons_self _ _, h⟩
      · exact Or.inl h
      · rcases ih h with h2 | ⟨x, hx, hcx⟩
        · exact Or.inl h2
        · exact Or.inr ⟨x, List.mem_cons_of_mem _ hx, hcx⟩

theorem peerList_onlinePeers (s : Tracker) (seeders : List Str) :
    peerList s seeders
      = (((onlinePeers s seeders).flatMap peerTokens).map (fun t => t ++ [' '])).foldr
          (· ++ ·) [] := by
  induction seeders with
  | nil => rfl
  | cons p rest ih =>
    unfold peerList onlinePeers
    cases mapFind p s.users with
    | none => exact ih
    | some usr =>
      dsimp only
      cases usr.online with
      | false => exact ih
      | true =>
        simp only [if_true, List.flatMap_cons, peerTokens, List.cons_append, List.nil_append,
          List.map_cons, List.foldr_cons, List.append_assoc]
        rw [ih]

theorem onlinePeers_length (s : Tracker) (seeders : List Str) :
    (onlinePeers s seeders).length = peerCount s seeders := by
  unfold peerCount
  induction seeders with
  | nil => rfl
  | cons p rest ih =>
    unfold onlinePeers
    rw [List.filter_cons]
    unfold Tracker.loggedIn
    cases mapFind p s.users with
    | none => exact ih
    | some usr =>
      dsimp only
      cases usr.online with
      | false => exact ih
      | true =>
        simp only [if_true, List.length_cons]
        rw [ih]
        rfl

theorem handle_download_file_peers (s : Tracker) (v u g filename : Str) (rest : List Str)
    (grp : Group) (seeders : List Str)
    (hlog : s.loggedIn u = true) (hg : mapFind g s.groups = some grp)
    (hmem : u ∈ grp.members) (hf : mapFind filename grp.shared_files = some seeders)
    (hon : onlinePeers s seeders ≠ []) :
    handle_download_file s (v :: u :: g :: filename :: rest)
      = ("PEERS: ".toList ++ joinSpaced ((onlinePeers s seeders).flatMap peerTokens) ++ ['\n'],
          s) := by
  have hts : (onlinePeers s seeders).flatMap peerTokens ≠ [] := by
    cases hop : onlinePeers s seeders with
    | nil => exact absurd hop hon
    | cons p t => simp [peerTokens]
  have hc : ¬ peerCount s seeders = 0 := by
    rw [← onlinePeers_length]
    intro h0
    exact hon (List.length_eq_zero.mp h0)
  unfold handle_download_file
  simp only [hlog, hg, hf, hmem, Bool.not_true, Bool.false_eq_true, if_false, not_true_eq_false]
  rw [if_neg hc, peerList_onlinePeers, foldr_spaced _ hts, ← List.append_assoc,
    List.getLast?_append, List.dropLast_concat]
  simp

theorem peerTokens_wire (peers : List PeerInfo)
    (h : ∀ p ∈ peers, wireToken p.ip ∧ wireToken p.user_id ∧
      -2147483648 ≤ p.port ∧ p.port ≤ 2147483647) :
    ∀ t ∈ peers.flatMap peerTokens, wireToken t := by
  intro t ht
  obtain ⟨p, hp, htp⟩ := List.mem_flatMap.mp ht
  obtain ⟨hip, hid, _, _⟩ := h p hp
  unfold peerTokens at htp
  simp only [List.mem_cons, List.mem_singleton, List.not_mem_nil, or_false] at htp
  rcases htp with e | e | e
  · rw [e]; exact hip
  · rw [e]
    exact ⟨to_string_ne_nil _, to_string_no_space _, to_string_no_newline _,
      to_string_no_nul _⟩
  · rw [e]; exact hid

theorem download_file_peers_reply (peers : List PeerInfo) (sched : List Nat)
    (hne : peers ≠ [])
    (h : ∀ p ∈ peers, wireToken p.ip ∧ wireToken p.user_id ∧
      -2147483648 ≤ p.port ∧ p.port ≤ 2147483647)
    (hwhole : (recv ("PEERS: ".toList ++ joinSpaced (peers.flatMap peerTokens) ++ ['\n'])
      sched 1023).1 = "PEERS: ".toList ++ joinSpaced (peers.flatMap peerTokens) ++ ['\n'])
    (hnoerr : strFind "ERROR".toList
      ("PEERS: ".toList ++ joinSpaced (peers.flatMap peerTokens) ++ ['\n']) = none) :
    download_file_peers
        (receive_from_tracker
          ("PEERS: ".toList ++ joinSpaced (peers.flatMap peerTokens) ++ ['\n']) sched)
      = .ok (some peers) := by
  have hw := peerTokens_wire peers h
  have hts : peers.flatMap peerTokens ≠ [] := by
    cases peers with
    | nil => exact absurd rfl hne
    | cons p t => simp [peerTokens]
  generalize hj : joinSpaced (peers.flatMap peerTokens) = joined at hwhole hnoerr
  have hjmem : ∀ c ∈ joined, c = ' ' ∨ ∃ t ∈ peers.flatMap peerTokens, c ∈ t := by
    intro c hc
    rw [← hj] at hc
    exact mem_joinSpaced _ c hc
  have hjnl : '\n' ∉ joined := by
    intro hc
    rcases hjmem _ hc with e | ⟨t, ht, hct⟩
    · exact absurd e (by decide)
    · exact (hw t ht).2.2.1 hct
  have hjnul : ∀ c ∈ joined, c.toNat ≠ 0 := by
    intro c hc
    rcases hjmem c hc with e | ⟨t, ht, hct⟩
    · rw [e]; decide
    · exact (hw t ht).2.2.2 c hct
  obtain ⟨init, c, hlast, hc⟩ := joinSpaced_getLast _ hts (fun t ht => ⟨(hw t ht).1, (hw t ht).2.1⟩)
  rw [hj] at hlast
  have hjne : joined ≠ [] := by
    rw [hlast]
    exact List.append_ne_nil_of_right_ne_nil _ (List.cons_ne_nil _ _)
  have hrecv : receive_from_tracker ("PEERS: ".toList ++ joined ++ ['\n']) sched
      = "PEERS: ".toList ++ joined ++ ['\n'] := by
    unfold receive_from_tracker
    dsimp only
    rw [hwhole, if_pos (by simp)]
    apply c_string_eq_self
    intro x hx
    rw [List.mem_append, List.mem_append, List.mem_singleton] at hx
    rcases hx with (hx | hx) | hx
    · intro h0
      have : ∀ y ∈ "PEERS: ".toList, y.toNat ≠ 0 := by decide
      exact this x hx h0
    · exact hjnul x hx
    · rw [hx]; decide
  have hlines : split_string ("PEERS: ".toList ++ joined ++ ['\n']) '\n'
      = ["PEERS: ".toList ++ joined] := by
    rw [split_string_append _ [] '\n']
    · rfl
    · intro hx
      rcases List.mem_append.mp hx with hx | hx
      · exact absurd hx (by decide)
      · exact hjnl hx
  have hline : parse_peers_line ("PEERS: ".toList ++ joined) = .ok peers := by
    unfold parse_peers_line
    have hfind : strFind "PEERS:".toList ("PEERS: ".toList ++ joined) = some 0 :=
      strFind_prefix "PEERS:".toList (' ' :: joined) (by decide)
    rw [hfind]
    have hlen : ¬ ("PEERS: ".toList ++ joined).length < 7 := by
      rw [List.length_append]
      have : "PEERS: ".toList.length = 7 := rfl
      omega
    have hdrop : ("PEERS: ".toList ++ joined).drop 7 = joined := rfl
    simp only [Option.isSome_some, if_true]
    rw [if_neg hlen, hdrop, hlast, strip_trailing_spaces_eq init c hc, ← hlast, if_neg hjne,
      ← hj, split_joinSpaced _ (fun t ht => ⟨(hw t ht).1, (hw t ht).2.1⟩),
      parse_peer_tokens_peerTokens peers
        (fun p hp => ⟨(h p hp).1.1, (h p hp).2.1.1, (h p hp).2.2⟩)]
  unfold download_file_peers
  rw [hrecv, hnoerr]
  simp only [Option.isSome_none, Bool.false_eq_true, if_false, hlines]
  rw [if_neg (List.cons_ne_nil _ _)]
  unfold parse_peers_lines
  rw [hline]
  unfold parse_peers_lines
  dsimp only
  rw [List.append_nil, if_neg hne]

theorem exampleSeederAt_commands :
    exampleSeederAt "10.0.0.1".toList
      = runCommands Tracker.empty
          ["CREATE_USER alice pw", "LOGIN alice pw 10.0.0.1 7001", "CREATE_GROUP alice g1",
            "UPLOAD_FILE alice g1 F 1f2e3d4c aaaaaaaaaaaaaaaaaaaa 9"] := by
  decide

theorem exampleSeederAt_reply (ip : Str) :
    onlinePeers (exampleSeederAt ip) ["alice".toList] = [⟨ip, 7001, "alice".toList⟩] ∧
      process_command (exampleSeederAt ip) "DOWNLOAD_FILE alice g1 F".toList
        = .ok ("PEERS: ".toList ++ (ip ++ " 7001 alice\n".toList), exampleSeederAt ip) := by
  have hop : onlinePeers (exampleSeederAt ip) ["alice".toList]
      = [⟨ip, 7001, "alice".toList⟩] := rfl
  refine ⟨hop, ?_⟩
  rw [dispatch_download_file (exampleSeederAt ip) "DOWNLOAD_FILE alice g1 F".toList
      ["alice".toList, "g1".toList, "F".toList] (by decide),
    handle_download_file_peers (exampleSeederAt ip) _ "alice".toList "g1".toList "F".toList []
      ⟨"g1".toList, "alice".toList, ["alice".toList], [], [("F".toList, ["alice".toList])]⟩
      ["alice".toList] rfl rfl (by decide) rfl (by rw [hop]; exact List.cons_ne_nil _ _),
    hop]
  have hj : joinSpaced (([⟨ip, 7001, "alice".toList⟩] : List PeerInfo).flatMap peerTokens)
      = ip ++ " 7001 alice".toList := by
    show ip ++ [' '] ++ (to_string 7001 ++ [' '] ++ "alice".toList) = _
    have h7 : to_string 7001 = "7001".toList := by decide
    rw [h7, List.append_assoc]
    rfl
  rw [hj, List.append_assoc, List.append_assoc]
  rfl

/-- A response that holds `PEERS: ` and one token only gives the parser no peer. -/
theorem download_file_peers_one_token (X : Str) (hne : X ≠ [])
    (hX : ∀ c ∈ X, c.toNat ≠ 0 ∧ c ≠ ' ' ∧ c ≠ '\n' ∧ c ≠ 'O') :
    c_string ("PEERS: ".toList ++ X) = "PEERS: ".toList ++ X ∧
      download_file_peers ("PEERS: ".toList ++ X) = .ok none := by
  constructor
  · apply c_string_eq_self
    intro c hc
    rcases List.mem_append.mp hc with h | h
    · have : ∀ y ∈ "PEERS: ".toList, y.toNat ≠ 0 := by decide
      exact this c h
    · exact (hX c h).1
  · have hnoerr : strFind "ERROR".toList ("PEERS: ".toList ++ X) = none := by
      apply strFind_absent _ _ 'O' (by decide)
      intro hc
      rcases List.mem_append.mp hc with h | h
      · exact absurd h (by decide)
      · exact (hX _ h).2.2.2 rfl
    have hlines : split_string ("PEERS: ".toList ++ X) '\n' = ["PEERS: ".toList ++ X] := by
      apply split_string_no_delim
      · intro hc
        rcases List.mem_append.mp hc with h | h
        · exact absurd h (by decide)
        · exact (hX _ h).2.2.1 rfl
      · exact List.append_ne_nil_of_left_ne_nil (by decide) _
    have hlast : ∃ (init : Str) (c : Char), X = init ++ [c] ∧ c ≠ ' ' := by
      refine ⟨X.dropLast, X.getLast hne, (List.dropLast_append_getLast hne).symm, ?_⟩
      exact (hX _ (List.getLast_mem hne)).2.1
    obtain ⟨init, c, hXi, hc⟩ := hlast
    have htok : split_string X ' ' = [X] := by
      apply split_string_no_delim _ _ _ hne
      intro hm
      exact (hX _ hm).2.1 rfl
    have hline : parse_peers_line ("PEERS: ".toList ++ X) = .ok [] := by
      unfold parse_peers_line
      have hfind : strFind "PEERS:".toList ("PEERS: ".toList ++ X) = some 0 :=
        strFind_prefix "PEERS:".toList (' ' :: X) (by decide)
      rw [hfind]
      have hlen : ¬ ("PEERS: ".toList ++ X).length < 7 := by
        rw [List.length_append]
        have : "PEERS: ".toList.length = 7 := rfl
        omega
      have hdrop : ("PEERS: ".toList ++ X).drop 7 = X := rfl
      simp only [Option.isSome_some, if_true]
      rw [if_neg hlen, hdrop]
      have hstrip : strip_trailing_spaces X = X := by
        rw [hXi]
        exact strip_trailing_spaces_eq init c hc
      rw [hstrip, if_neg hne, htok]
      rfl
    unfold download_file_peers
    rw [hnoerr]
    simp only [Option.isSome_none, Bool.false_eq_true, if_false, hlines]
    rw [if_neg (List.cons_ne_nil _ _)]
    unfold parse_peers_lines
    rw [hline]
    unfold parse_peers_lines
    rfl

/-- Of a reply that carries an address of 1016 characters or more, the one `recv` of
`receive_from_tracker` delivers `PEERS: ` and the first 1016 characters of the address. -/
theorem long_reply_received (N : Nat) (hN : 1016 ≤ N) (tail : Str) :
    receive_from_tracker ("PEERS: ".toList ++ (List.replicate N 'a' ++ tail)) []
      = "PEERS: ".toList ++ List.replicate 1016 'a' ∧
    download_file_peers
        (receive_from_tracker ("PEERS: ".toList ++ (List.replicate N 'a' ++ tail)) [])
      = .ok none := by
  have hclean : ∀ c ∈ List.replicate 1016 'a', c.toNat ≠ 0 ∧ c ≠ ' ' ∧ c ≠ '\n' ∧ c ≠ 'O' := by
    intro c hc
    rw [(List.mem_replicate.mp hc).2]
    decide
  have hne : List.replicate 1016 'a' ≠ [] := by
    intro h
    have := congrArg List.length h
    rw [List.length_replicate] at this
    exact absurd this (by decide)
  obtain ⟨hcs, hparse⟩ := download_file_peers_one_token (List.replicate 1016 'a') hne hclean
  have htake : ("PEERS: ".toList ++ (List.replicate N 'a' ++ tail)).take 1023
      = "PEERS: ".toList ++ List.replicate 1016 'a' := by
    rw [List.take_append_eq_append_take, List.take_append_eq_append_take,
      List.take_replicate, List.length_replicate]
    have h7 : "PEERS: ".toList.length = 7 := rfl
    have ht7 : "PEERS: ".toList.take 1023 = "PEERS: ".toList := rfl
    rw [h7, ht7]
    have h1 : 1023 - 7 = 1016 := rfl
    rw [h1, Nat.min_eq_left hN, Nat.sub_eq_zero_of_le hN, List.take_zero, List.append_nil]
  have hrecv : receive_from_tracker ("PEERS: ".toList ++ (List.replicate N 'a' ++ tail)) []
      = "PEERS: ".toList ++ List.replicate 1016 'a' := by
    unfold receive_from_tracker recv
    dsimp only
    rw [htake, if_pos (List.length_pos.mpr (List.append_ne_nil_of_left_ne_nil (by decide) _))]
    exact hcs
  exact ⟨hrecv, by rw [hrecv]; exact hparse⟩

/-- Claim C20, as stated, fails, in four ways.  A seeder named `ERROR`: the tracker replies
`PEERS: 10.0.0.3 7003 ERROR`, and `download_file`, which takes any response containing
`ERROR` for a failure, returns `false`.  A seeder whose address has 1100 characters: the
reply has more than 1023 bytes, `receive_from_tracker` reads the first 1023 in its one
`recv`, and the parser finds no peer.  A reply for two seeders of which the one `recv`
delivers the first 20 bytes only: the parser finds no peer.  A seeder whose address holds a
NUL: the buffer is read as a C string, which ends there, and the parser finds no peer.  In
each case the ip and the user id are non-empty and hold no space and no newline. -/
theorem C20_round_trip_failures :
    (onlinePeers exampleErrorName (exampleErrorName.seeders "g1".toList "F".toList)
        = [⟨"10.0.0.3".toList, 7003, "ERROR".toList⟩] ∧
      process_command exampleErrorName "DOWNLOAD_FILE ERROR g1 F".toList
        = .ok ("PEERS: 10.0.0.3 7003 ERROR\n".toList, exampleErrorName) ∧
      download_file_peers (receive_from_tracker "PEERS: 10.0.0.3 7003 ERROR\n".toList [])
        = .ok none) ∧
    (onlinePeers (exampleSeederAt (List.replicate 1100 'a')) ["alice".toList]
        = [⟨List.replicate 1100 'a', 7001, "alice".toList⟩] ∧
      process_command (exampleSeederAt (List.replicate 1100 'a'))
          "DOWNLOAD_FILE alice g1 F".toList
        = .ok ("PEERS: ".toList ++ (List.replicate 1100 'a' ++ " 7001 alice\n".toList),
            exampleSeederAt (List.replicate 1100 'a')) ∧
      download_file_peers
          (receive_from_tracker
            ("PEERS: ".toList ++ (List.replicate 1100 'a' ++ " 7001 alice\n".toList)) [])
        = .ok none) ∧
    (onlinePeers exampleShared ["alice".toList, "bob".toList]
        = [⟨"10.0.0.1".toList, 7001, "alice".toList⟩, ⟨"10.0.0.2".toList, 7002, "bob".toList⟩] ∧
      process_command exampleShared "DOWNLOAD_FILE bob g1 F".toList
        = .ok ("PEERS: 10.0.0.1 7001 alice 10.0.0.2 7002 bob\n".toList, exampleShared) ∧
      download_file_peers
          (receive_from_tracker "PEERS: 10.0.0.1 7001 alice 10.0.0.2 7002 bob\n".toList [20])
        = .ok none) ∧
    (onlinePeers (exampleSeederAt ['1', '0', Char.ofNat 0, '1']) ["alice".toList]
        = [⟨['1', '0', Char.ofNat 0, '1'], 7001, "alice".toList⟩] ∧
      process_command (exampleSeederAt ['1', '0', Char.ofNat 0, '1'])
          "DOWNLOAD_FILE alice g1 F".toList
        = .ok ("PEERS: ".toList ++ (['1', '0', Char.ofNat 0, '1'] ++ " 7001 alice\n".toList),
            exampleSeederAt ['1', '0', Char.ofNat 0, '1']) ∧
      download_file_peers
          (receive_from_tracker
            ("PEERS: ".toList ++ (['1', '0', Char.ofNat 0, '1'] ++ " 7001 alice\n".toList)) [])
        = .ok none) :=
  ⟨⟨by decide, by decide, by decide⟩,
    ⟨(exampleSeederAt_reply (List.replicate 1100 'a')).1,
      (exampleSeederAt_reply (List.replicate 1100 'a')).2,
      (long_reply_received 1100 (by decide) " 7001 alice\n".toList).2⟩,
    ⟨by decide, by decide, by decide⟩,
    ⟨(exampleSeederAt_reply ['1', '0', Char.ofNat 0, '1']).1,
      (exampleSeederAt_reply ['1', '0', Char.ofNat 0, '1']).2, by decide⟩⟩

/-- Claim C20, amended: for a seeder list with at least one online seeder, where the ip and
the user id of every online seeder are non-empty and hold no space, newline or NUL (and the
port is an `int`), when the reply of the tracker to `DOWNLOAD_FILE` does not contain the
text `ERROR` and reaches the client whole in its one `recv` of at most 1023 bytes, the
parser of `download_file` gets from it exactly the triples (ip, port, user) of the online
seeders, in the order of the seeder list. -/
theorem C20_peer_list_round_trip (s s1 : Tracker) (command u g filename reply : Str)
    (rest : List Str) (grp : Group) (seeders : List Str) (sched : List Nat)
    (htok : split_string command ' ' = "DOWNLOAD_FILE".toList :: u :: g :: filename :: rest)
    (hlog : s.loggedIn u = true) (hg : mapFind g s.groups = some grp)
    (hmem : u ∈ grp.members) (hf : mapFind filename grp.shared_files = some seeders)
    (hon : onlinePeers s seeders ≠ [])
    (hclean : ∀ p ∈ onlinePeers s seeders, wireToken p.ip ∧ wireToken p.user_id ∧
      -2147483648 ≤ p.port ∧ p.port ≤ 2147483647)
    (hreply : process_command s command = .ok (reply, s1))
    (hwhole : (recv reply sched 1023).1 = reply)
    (hnoerr : strFind "ERROR".toList reply = none) :
    reply = "PEERS: ".toList ++ joinSpaced ((onlinePeers s seeders).flatMap peerTokens)
        ++ ['\n'] ∧
      download_file_peers (receive_from_tracker reply sched)
        = .ok (some (onlinePeers s seeders)) := by
  rw [dispatch_download_file s command _ htok,
    handle_download_file_peers s _ u g filename rest grp seeders hlog hg hmem hf hon] at hreply
  obtain ⟨_, hr⟩ := ok_parts hreply
  dsimp only at hr
  subst hr
  exact ⟨rfl, download_file_peers_reply _ sched hon hclean hwhole hnoerr⟩

theorem C20_peer_list_round_trip_witness :
    onlinePeers exampleShared ["alice".toList, "bob".toList]
        = [⟨"10.0.0.1".toList, 7001, "alice".toList⟩, ⟨"10.0.0.2".toList, 7002, "bob".toList⟩] ∧
      process_command exampleShared "DOWNLOAD_FILE bob g1 F".toList
        = .ok ("PEERS: 10.0.0.1 7001 alice 10.0.0.2 7002 bob\n".toList, exampleShared) ∧
      download_file_peers
          (receive_from_tracker "PEERS: 10.0.0.1 7001 alice 10.0.0.2 7002 bob\n".toList [])
        = .ok (some (onlinePeers exampleShared ["alice".toList, "bob".toList])) :=
  ⟨by decide, by decide,
    (C20_peer_list_round_trip exampleShared exampleShared "DOWNLOAD_FILE bob g1 F".toList
      "bob".toList "g1".toList "F".toList
      "PEERS: 10.0.0.1 7001 alice 10.0.0.2 7002 bob\n".toList []
      ⟨"g1".toList, "alice".toList, ["alice".toList, "bob".toList], [],
        [("F".toList, ["alice".toList, "bob".toList])]⟩
      ["alice".toList, "bob".toList] []
      (by decide) (by decide) (by decide) (by decide) (by decide) (by decide) (by decide)
      (by decide) (by decide) (by decide)).2⟩

/-! ## The order of the member sets -/

theorem char_eq_of_toNat (a b : Char) (h1 : ¬ a.toNat < b.toNat) (h2 : ¬ b.toNat < a.toNat) :
    a = b := by
  apply Char.ext
  apply UInt32.ext
  have : a.toNat = b.toNat := by omega
  exact this

theorem strLt_trans (a b c : Str) (hab : strLt a b = true) (hbc : strLt b c = true) :
    strLt a c = true := by
  induction a generalizing b c with
  | nil =>
    cases c with
    | nil =>
      cases b with
      | nil => exact absurd hab (by simp [strLt])
      | cons y ys => exact absurd hbc (by simp [strLt])
    | cons z zs => rfl
  | cons x xs ih =>
    cases b with
    | nil => exact absurd hab (by simp [strLt])
    | cons y ys =>
      cases c with
      | nil => exact absurd hbc (by simp [strLt])
      | cons z zs =>
        unfold strLt at hab hbc ⊢
        by_cases h1 : x.toNat < y.toNat
        · by_cases h2 : y.toNat < z.toNat
          · rw [if_pos (by omega)]
          · rw [if_neg h2] at hbc
            by_cases h3 : z.toNat < y.toNat
            · rw [if_pos h3] at hbc; exact absurd hbc (by decide)
            · rw [if_pos (by omega)]
        · rw [if_neg h1] at hab
          by_cases h1b : y.toNat < x.toNat
          · rw [if_pos h1b] at hab; exact absurd hab (by decide)
          · rw [if_neg h1b] at hab
            by_cases h2 : y.toNat < z.toNat
            · rw [if_pos (by omega)]
            · rw [if_neg h2] at hbc
              by_cases h3 : z.toNat < y.toNat
              · rw [if_pos h3] at hbc; exact absurd hbc (by decide)
              · rw [if_neg h3] at hbc
                rw [if_neg (by omega), if_neg (by omega)]
                exact ih ys zs hab hbc

theorem strLt_total (a b : Str) (hab : strLt a b = false) (hne : b ≠ a) :
    strLt b a = true := by
  induction a generalizing b with
  | nil =>
    cases b with
    | nil => exact absurd rfl hne
    | cons y ys => exact absurd hab (by simp [strLt])
  | cons x xs ih =>
    cases b with
    | nil => rfl
    | cons y ys =>
      unfold strLt at hab ⊢
      by_cases h1 : x.toNat < y.toNat
      · rw [if_pos h1] at hab; exact absurd hab (by decide)
      · rw [if_neg h1] at hab
        by_cases h2 : y.toNat < x.toNat
        · rw [if_pos h2]
        · rw [if_neg h2] at hab
          rw [if_neg h2, if_neg h1]
          have hxy : x = y := char_eq_of_toNat x y h1 h2
          exact ih ys hab (fun e => hne (by rw [e, hxy]))

theorem setInsert_sorted (x : Str) (l : List Str) (h : isStdSet l) : isStdSet (setInsert x l) := by
  induction l with
  | nil => exact List.pairwise_singleton _ _
  | cons y ys ih =>
    have hy := List.pairwise_cons.mp h
    unfold setInsert
    by_cases h1 : strLt x y = true
    · rw [if_pos h1]
      refine List.pairwise_cons.mpr ⟨?_, h⟩
      intro z hz
      rcases List.mem_cons.mp hz with e | hz2
      · rw [e]; exact h1
      · exact strLt_trans x y z h1 (hy.1 z hz2)
    · rw [if_neg h1]
      by_cases h2 : y = x
      · rw [if_pos h2]; exact h
      · rw [if_neg h2]
        refine List.pairwise_cons.mpr ⟨?_, ih hy.2⟩
        intro z hz
        rcases (mem_setInsert z x ys).mp hz with e | hz2
        · rw [e]
          exact strLt_total x y (by simpa using h1) h2
        · exact hy.1 z hz2

/-- In every catalog reachable from the empty one, the members of every group are in
strictly increasing order: the list that models the `std::set` is a set. -/
theorem reachable_members_sorted (s : Tracker) (h : Reachable s) (g : Str) (grp : Group)
    (hg : mapFind g s.groups = some grp) : isStdSet grp.members := by
  refine reachable_group_inv (fun grp => isStdSet grp.members) ?_ ?_ ?_ ?_ ?_ s h g grp hg
  · intro g u
    exact List.pairwise_singleton _ _
  · intro grp u ih _
    exact ih
  · intro grp u ih _
    show isStdSet (leaveUpdate u grp).members
    rw [leaveUpdate_members]
    unfold setErase
    exact List.Pairwise.filter _ ih
  · intro grp v ih _
    exact setInsert_sorted v grp.members ih
  · intro grp f u ih _
    exact ih

/-! ## Seeder lists never shrink -/

theorem c_string_append_clean (a b : Str) (ha : ∀ c ∈ a, c.toNat ≠ 0) :
    c_string (a ++ b) = a ++ c_string b := by
  unfold c_string
  induction a with
  | nil => rfl
  | cons x xs ih =>
    have hx : x.toNat ≠ 0 := ha x (List.mem_cons_self x xs)
    rw [List.cons_append, List.takeWhile_cons, if_pos (by simpa using hx),
      ih (fun c hc => ha c (List.mem_cons_of_mem x hc))]
    rfl

theorem strip_newline_append_space (a z : Str) :
    ∃ z2 : Str, strip_newline (a ++ ' ' :: z) = a ++ ' ' :: z2 := by
  unfold strip_newline
  split
  · rename_i h
    cases hz : z.reverse with
    | nil =>
      have hz2 : z = [] := List.reverse_eq_nil_iff.mp hz
      subst hz2
      rw [List.getLast?_concat] at h
      exact absurd h (by decide)
    | cons c t =>
      have hz2 : z = t.reverse ++ [c] := by
        rw [← List.reverse_reverse z, hz, List.reverse_cons]
      refine ⟨t.reverse, ?_⟩
      rw [hz2, ← List.cons_append, ← List.append_assoc, List.dropLast_concat]
  · exact ⟨z, rfl⟩

theorem stop_share_tokens (user_id group_id filename : Str) :
    ∃ rest : List Str,
      split_string (strip_newline (c_string (stop_share_command user_id group_id filename))) ' '
        = "STOP_SHARE".toList :: rest := by
  have h1 : stop_share_command user_id group_id filename
      = "STOP_SHARE".toList
          ++ (' ' :: (user_id ++ [' '] ++ group_id ++ [' '] ++ filename ++ ['\n'])) := by
    unfold stop_share_command
    simp
  rw [h1, c_string_append_clean _ _ (by decide)]
  have h2 : ∀ y : Str, ∃ z : Str, c_string (' ' :: y) = ' ' :: z := by
    intro y
    exact ⟨c_string y, c_string_append_clean [' '] y (by decide)⟩
  obtain ⟨z, hz⟩ := h2 (user_id ++ [' '] ++ group_id ++ [' '] ++ filename ++ ['\n'])
  rw [hz]
  obtain ⟨z2, hz2⟩ := strip_newline_append_space "STOP_SHARE".toList z
  rw [hz2, split_string_append _ _ ' ' (by decide)]
  exact ⟨_, rfl⟩

/-- Claim C29: for every catalog, a request whose first token is `STOP_SHARE` is answered
`ERROR: Unknown command` and the catalog is unchanged; the command that the client's
`stop_share` sends is such a request, whatever its arguments; and no answered command removes
a user from a seeder list: who is in `shared_files[g][f]` before a command is in it after. -/
theorem C29_stop_share_unknown (s : Tracker) (command : Str) (rest : List Str)
    (htok : split_string command ' ' = "STOP_SHARE".toList :: rest) :
    process_command s command = .ok ("ERROR: Unknown command\n".toList, s) ∧
      (∀ user_id group_id filename : Str,
        handle_client s [stop_share_command user_id group_id filename]
          = (["ERROR: Unknown command\n".toList], s)) ∧
      (∀ (s0 s1 : Tracker) (c reply g f u : Str),
        process_command s0 c = .ok (reply, s1) → u ∈ s0.seeders g f → u ∈ s1.seeders g f) := by
  have hunk : ∀ (c : Str) (r : List Str), split_string c ' ' = "STOP_SHARE".toList :: r →
      process_command s c = .ok ("ERROR: Unknown command\n".toList, s) := by
    intro c r hc
    unfold process_command
    rw [hc]
    rfl
  refine ⟨hunk command rest htok, ?_, ?_⟩
  · intro user_id group_id filename
    obtain ⟨r, hr⟩ := stop_share_tokens user_id group_id filename
    unfold handle_client
    dsimp only
    rw [hunk _ r hr]
    rfl
  · intro s0 s1 c reply g f u hp hu
    rcases process_command_seeders s0 s1 c reply hp g f with h | ⟨w, r, grp, _, _, _, _, _, h⟩
    · rw [h]; exact hu
    · rw [h]; exact List.mem_append_left _ hu

theorem C29_stop_share_unknown_witness :
    split_string "STOP_SHARE alice g1 F".toList ' '
        = "STOP_SHARE".toList :: ["alice".toList, "g1".toList, "F".toList] ∧
      exampleShared.seeders "g1".toList "F".toList = ["alice".toList, "bob".toList] ∧
      process_command exampleShared "STOP_SHARE alice g1 F".toList
        = .ok ("ERROR: Unknown command\n".toList, exampleShared) :=
  ⟨by decide, by decide,
    (C29_stop_share_unknown exampleShared "STOP_SHARE alice g1 F".toList
      ["alice".toList, "g1".toList, "F".toList] (by decide)).1⟩

/-! ## A seeder who left the group -/

theorem mem_onlinePeers (s : Tracker) (seeders : List Str) (u : Str) (usr : User)
    (hu : u ∈ seeders) (hfind : mapFind u s.users = some usr) (hon : usr.online = true) :
    (⟨usr.ip, usr.port, u⟩ : PeerInfo) ∈ onlinePeers s seeders := by
  induction seeders with
  | nil => exact absurd hu (List.not_mem_nil u)
  | cons p rest ih =>
    unfold onlinePeers
    by_cases hp : u = p
    · subst hp
      rw [hfind]
      dsimp only
      rw [if_pos hon]
      exact List.mem_cons_self _ _
    · have hrest : u ∈ rest := by
        rcases List.mem_cons.mp hu with e | h
        · exact absurd e hp
        · exact h
      cases mapFind p s.users with
      | none => exact ih hrest
      | some usr2 =>
        dsimp only
        split
        · exact List.mem_cons_of_mem _ (ih hrest)
        · exact ih hrest

/-- Claim C30: when `u`, logged in and a member of `g`, is a seeder of `f` in `g`, the command
`LEAVE_GROUP u g` succeeds and leaves `u` logged in, outside the members of `g` and still in
`shared_files[g][f]`, whose list is unchanged; and a `DOWNLOAD_FILE` for `f` that another
logged-in member of `g` sends next is answered with the `PEERS:` line of the online seeders,
among them the triple (ip, port, user) of `u`. -/
theorem C30_left_member_still_seeder (s : Tracker) (command u g f : Str) (rest : List Str)
    (grp : Group) (seeders : List Str)
    (htok : split_string command ' ' = "LEAVE_GROUP".toList :: u :: g :: rest)
    (hlog : s.loggedIn u = true) (hg : mapFind g s.groups = some grp)
    (hmem : u ∈ grp.members) (hf : mapFind f grp.shared_files = some seeders)
    (hu : u ∈ seeders) :
    ∃ (s1 : Tracker) (grp1 : Group) (usr : User),
      process_command s command = .ok ("SUCCESS: Left group\n".toList, s1) ∧
      mapFind g s1.groups = some grp1 ∧ u ∉ grp1.members ∧
      mapFind f grp1.shared_files = some seeders ∧
      mapFind u s1.users = some usr ∧ usr.online = true ∧
      (∃ usr0 : User, mapFind u s.users = some usr0 ∧ usr.ip = usr0.ip ∧
        usr.port = usr0.port) ∧
      (⟨usr.ip, usr.port, u⟩ : PeerInfo) ∈ onlinePeers s1 seeders ∧
      ∀ (command2 w : Str) (rest2 : List Str),
        split_string command2 ' ' = "DOWNLOAD_FILE".toList :: w :: g :: f :: rest2 →
        s1.loggedIn w = true → w ∈ grp1.members →
        process_command s1 command2
          = .ok ("PEERS: ".toList ++ joinSpaced ((onlinePeers s1 seeders).flatMap peerTokens)
              ++ ['\n'], s1) := by
  have hfu : ∃ usr0 : User, mapFind u s.users = some usr0 ∧ usr0.online = true := by
    unfold Tracker.loggedIn at hlog
    cases hx : mapFind u s.users with
    | none => rw [hx] at hlog; exact absurd hlog (by decide)
    | some usr0 => rw [hx] at hlog; exact ⟨usr0, rfl, hlog⟩
  obtain ⟨usr0, hfind0, hon0⟩ := hfu
  have hproc : process_command s command
      = .ok ("SUCCESS: Left group\n".toList,
          { s with
            groups := (mapModify Group.dflt g (leaveUpdate u) s.groups)
            users := (mapModify User.dflt u
              (fun x => { x with groups := setErase g x.groups }) s.users) }) := by
    rw [dispatch_leave_group s command _ htok]
    unfold handle_leave_group
    simp only [hlog, hg, Bool.not_true, Bool.false_eq_true, if_false]
    rw [if_neg (by simpa using hmem)]
  have hg1 : mapFind g (mapModify Group.dflt g (leaveUpdate u) s.groups)
      = some (leaveUpdate u grp) := by
    rw [mapFind_mapModify, if_pos rfl, hg]
    rfl
  have hu1 : mapFind u (mapModify User.dflt u
      (fun x => { x with groups := setErase g x.groups }) s.users)
      = some { usr0 with groups := setErase g usr0.groups } := by
    rw [mapFind_mapModify, if_pos rfl, hfind0]
    rfl
  have hpeer := mem_onlinePeers
    { s with
      groups := (mapModify Group.dflt g (leaveUpdate u) s.groups)
      users := (mapModify User.dflt u
        (fun x => { x with groups := setErase g x.groups }) s.users) }
    seeders u { usr0 with groups := setErase g usr0.groups } hu hu1 hon0
  refine ⟨_, leaveUpdate u grp, { usr0 with groups := setErase g usr0.groups }, hproc, hg1, ?_,
    ?_, hu1, hon0, ⟨usr0, hfind0, rfl, rfl⟩, hpeer, ?_⟩
  · rw [leaveUpdate_members, mem_setErase]
    exact fun h => h.1 rfl
  · rw [leaveUpdate_shared_files]
    exact hf
  · intro command2 w rest2 htok2 hlogw hmemw
    rw [dispatch_download_file _ command2 _ htok2]
    have hfl : mapFind f (leaveUpdate u grp).shared_files = some seeders := by
      rw [leaveUpdate_shared_files]
      exact hf
    rw [handle_download_file_peers _ _ w g f rest2 (leaveUpdate u grp) seeders hlogw hg1 hmemw
      hfl (List.ne_nil_of_mem hpeer)]

theorem C30_left_member_still_seeder_witness :
    split_string "LEAVE_GROUP bob g1".toList ' '
        = "LEAVE_GROUP".toList :: "bob".toList :: "g1".toList :: [] ∧
      exampleShared.loggedIn "bob".toList = true ∧
      mapFind "g1".toList exampleShared.groups
        = some ⟨"g1".toList, "alice".toList, ["alice".toList, "bob".toList], [],
            [("F".toList, ["alice".toList, "bob".toList])]⟩ ∧
      ∃ (s1 : Tracker) (grp1 : Group),
        process_command exampleShared "LEAVE_GROUP bob g1".toList
          = .ok ("SUCCESS: Left group\n".toList, s1) ∧
        mapFind "g1".toList s1.groups = some grp1 ∧ "bob".toList ∉ grp1.members ∧
        mapFind "F".toList grp1.shared_files = some ["alice".toList, "bob".toList] :=
  ⟨by decide, by decide, by decide,
    match C30_left_member_still_seeder exampleShared "LEAVE_GROUP bob g1".toList "bob".toList
      "g1".toList "F".toList []
      ⟨"g1".toList, "alice".toList, ["alice".toList, "bob".toList], [],
        [("F".toList, ["alice".toList, "bob".toList])]⟩
      ["alice".toList, "bob".toList]
      (by decide) (by decide) (by decide) (by decide) (by decide) (by decide) with
    | ⟨s1, grp1, _, h1, h2, h3, h4, _⟩ => ⟨s1, grp1, h1, h2, h3, h4⟩⟩

/-! ## The digest of short inputs -/

theorem SHA1.fullBlocks_short (fuel : Nat) (h : SHA1) (data : List Nat)
    (hlen : data.length < 64) : SHA1.fullBlocks fuel h data = (h, data) := by
  cases fuel with
  | zero => rfl
  | succ n =>
    unfold SHA1.fullBlocks
    rw [if_neg (by omega)]

theorem SHA1.updateBytes_short (h : SHA1) (data : List Nat) (ht : h.transforms % 64 = 0)
    (hlen : data.length < 64) :
    (SHA1.updateBytes h data).digest = h.digest ∧
      (SHA1.updateBytes h data).transforms = h.transforms ∧
      (SHA1.updateBytes h data).total_bytes
        = (h.total_bytes + data.length) % 18446744073709551616 := by
  unfold SHA1.updateBytes
  dsimp only
  rw [ht, if_neg (by omega)]
  dsimp only
  rw [SHA1.fullBlocks_short _ _ _ hlen]
  exact ⟨rfl, rfl, rfl⟩

theorem SHA1.final_short (h : SHA1) (hd : h.digest = SHA1.reset.digest)
    (ht : h.transforms % 64 = 0) (hn : h.total_bytes < 56) :
    SHA1.final h = "67452301efcdab8998badcfe10325476c3d2e1f0".toList := by
  have hpadlen : (if h.total_bytes % 64 < 56 then 56 - h.total_bytes % 64
      else 120 - h.total_bytes % 64) = 56 - h.total_bytes := by
    rw [if_pos (by omega)]
    omega
  have h1 := SHA1.updateBytes_short h
    (0x80 :: List.replicate (56 - h.total_bytes - 1) 0) ht
    (by rw [List.length_cons, List.length_replicate]; omega)
  have hlen1 : (0x80 :: List.replicate (56 - h.total_bytes - 1) 0).length
      = 56 - h.total_bytes := by
    rw [List.length_cons, List.length_replicate]
    omega
  rw [hlen1] at h1
  obtain ⟨hd1, ht1, hb1⟩ := h1
  have hb1v : (SHA1.updateBytes h (0x80 :: List.replicate (56 - h.total_bytes - 1) 0)).total_bytes
      = 56 := by
    rw [hb1]
    omega
  have hl8 : ∀ x : Nat, (SHA1.lengthBytes x).length = 8 := by
    intro x
    unfold SHA1.lengthBytes
    rw [List.length_map, List.length_range]
  have h2 := SHA1.updateBytes_short
    (SHA1.updateBytes h (0x80 :: List.replicate (56 - h.total_bytes - 1) 0))
    (SHA1.lengthBytes (((SHA1.updateBytes h
      (0x80 :: List.replicate (56 - h.total_bytes - 1) 0)).total_bytes * 8)
        % 18446744073709551616))
    (by rw [ht1]; exact ht) (by rw [hl8]; omega)
  rw [hl8, hb1v, hd1, ht1] at h2
  obtain ⟨hd2, _, hb2⟩ := h2
  unfold SHA1.final SHA1.pad
  dsimp only
  rw [hpadlen, hb1v]
  rw [hb2, hd2, hd, if_neg (by decide)]
  decide

/-- Claim C27: for every byte string shorter than 56 bytes, `update` followed by `final`
returns `67452301efcdab8998badcfe10325476c3d2e1f0`, the hexadecimal form of the initial
state, and so does `from_file` on a file of that content: the digest does not depend on
the content, and any two such inputs have the same digest. -/
theorem C27_short_inputs_collide (s t : Str) (hs : s.length < 56) (ht : t.length < 56) :
    SHA1.digestOf s = "67452301efcdab8998badcfe10325476c3d2e1f0".toList ∧
      SHA1.from_file (some s) = "67452301efcdab8998badcfe10325476c3d2e1f0".toList ∧
      SHA1.digestOf s = SHA1.digestOf t ∧
      SHA1.from_file (some s) = SHA1.from_file (some t) := by
  have hupd : ∀ x : Str, x.length < 56 →
      SHA1.final (SHA1.update SHA1.reset x)
        = "67452301efcdab8998badcfe10325476c3d2e1f0".toList := by
    intro x hx
    have hb : (SHA1.bytesOf x).length = x.length := by
      unfold SHA1.bytesOf
      rw [List.length_map]
    obtain ⟨hd, htr, htb⟩ := SHA1.updateBytes_short SHA1.reset (SHA1.bytesOf x) rfl
      (by rw [hb]; omega)
    apply SHA1.final_short
    · exact hd
    · unfold SHA1.update
      rw [htr]
      rfl
    · unfold SHA1.update
      rw [htb, hb]
      have : SHA1.reset.total_bytes = 0 := rfl
      rw [this]
      omega
  have hfile : ∀ x : Str, x.length < 56 →
      SHA1.from_file (some x) = "67452301efcdab8998badcfe10325476c3d2e1f0".toList := by
    intro x hx
    unfold SHA1.from_file
    dsimp only
    cases x with
    | nil => exact SHA1.final_short _ rfl rfl (by decide)
    | cons c cs =>
      have htake : (c :: cs).take 1048576 = c :: cs :=
        List.take_of_length_le (by omega)
      have hdrop : (c :: cs).drop 1048576 = [] :=
        List.drop_of_length_le (by omega)
      rw [List.length_cons, SHA1.updateChunks, if_neg (List.cons_ne_nil c cs), htake, hdrop]
      have hrest : ∀ (n : Nat) (h : SHA1), SHA1.updateChunks n h [] = h := by
        intro n h
        cases n with
        | zero => rfl
        | succ m => rw [SHA1.updateChunks, if_pos rfl]
      rw [hrest]
      exact hupd (c :: cs) hx
  refine ⟨hupd s hs, hfile s hs, ?_, ?_⟩
  · unfold SHA1.digestOf
    rw [hupd s hs, hupd t ht]
  · rw [hfile s hs, hfile t ht]

theorem C27_short_inputs_collide_witness :
    "abc".toList.length < 56 ∧ "hello world".toList.length < 56 ∧
      SHA1.digestOf "abc".toList = "67452301efcdab8998badcfe10325476c3d2e1f0".toList ∧
      SHA1.digestOf "abc".toList = SHA1.digestOf "hello world".toList :=
  ⟨by decide, by decide,
    (C27_short_inputs_collide "abc".toList "hello world".toList (by decide) (by decide)).1,
    (C27_short_inputs_collide "abc".toList "hello world".toList (by decide) (by decide)).2.2.1⟩

/-! ## The turns of the download loop -/

theorem download_loop_turn (fetch : PeerInfo → Int → Option Str) (working : List PeerInfo)
    (filename dest_path : Str) (fuel : Nat) (st : LoopState) :
    download_loop fetch working filename dest_path (fuel + 1) st
      = match download_turn fetch working filename dest_path st with
        | none => st
        | some (_, _, st1, go) =>
          if go then download_loop fetch working filename dest_path fuel st1 else st1 := by
  rw [download_loop]
  unfold download_turn
  split
  · dsimp only
    split
    · rfl
    · split
      · rfl
      · split <;> rfl
  · rfl

theorem download_turn_none (fetch : PeerInfo → Int → Option Str) (working : List PeerInfo)
    (filename dest_path : Str) (st : LoopState)
    (h : ¬ (st.piece_index < 1000 ∧ st.consecutive_failures < 3)) :
    download_turn fetch working filename dest_path st = none := by
  unfold download_turn
  rw [if_neg h]

theorem download_turn_success (fetch : PeerInfo → Int → Option Str) (working : List PeerInfo)
    (filename dest_path : Str) (st : LoopState) (data : Str)
    (h : st.piece_index < 1000 ∧ st.consecutive_failures < 3)
    (hf : fetch (selected_peer working st.piece_index) st.piece_index = some data) :
    download_turn fetch working filename dest_path st
      = some (selected_peer working st.piece_index, st.piece_index,
          { st with
            successful_pieces := st.successful_pieces ++ [st.piece_index]
            consecutive_failures := 0
            downloaded_bytes := st.downloaded_bytes + 524288
            total_bytes := (max st.total_bytes
              (((st.successful_pieces ++ [st.piece_index]).length + 5 : Int) * 524288))
            active_downloads :=
              (updateProgress filename (st.downloaded_bytes + 524288)
                (max st.total_bytes
                  (((st.successful_pieces ++ [st.piece_index]).length + 5 : Int) * 524288))
                st.active_downloads)
            files := (Function.update st.files (piece_file dest_path filename st.piece_index)
              (some data))
            piece_index := st.piece_index + 1 }, true) := by
  unfold selected_peer at hf
  unfold download_turn
  rw [if_pos h]
  dsimp only
  rw [hf]
  rfl

theorem download_turn_failure_first (fetch : PeerInfo → Int → Option Str)
    (working : List PeerInfo) (filename dest_path : Str) (st : LoopState)
    (h : st.piece_index < 1000 ∧ st.consecutive_failures < 3)
    (hf : fetch (selected_peer working st.piece_index) st.piece_index = none)
    (hs : st.successful_pieces = []) :
    download_turn fetch working filename dest_path st
      = some (selected_peer working st.piece_index, st.piece_index,
          { st with
            consecutive_failures := st.consecutive_failures + 1
            failed_pieces := st.failed_pieces + 1
            piece_index := st.piece_index + 1 }, true) := by
  unfold selected_peer at hf
  unfold download_turn
  rw [if_pos h]
  dsimp only
  rw [hf]
  dsimp only
  by_cases h3 : st.consecutive_failures + 1 < 3
  · rw [if_pos ⟨hs, h3⟩]
    rfl
  · rw [if_neg (fun hc => h3 hc.2), if_neg (by simp [hs])]
    rfl

theorem download_turn_failure_later (fetch : PeerInfo → Int → Option Str)
    (working : List PeerInfo) (filename dest_path : Str) (st : LoopState)
    (h : st.piece_index < 1000 ∧ st.consecutive_failures < 3)
    (hf : fetch (selected_peer working st.piece_index) st.piece_index = none)
    (hs : st.successful_pieces ≠ []) :
    download_turn fetch working filename dest_path st
      = some (selected_peer working st.piece_index, st.piece_index,
          { st with
            consecutive_failures := st.consecutive_failures + 1
            failed_pieces := st.failed_pieces + 1 }, false) := by
  unfold selected_peer at hf
  unfold download_turn
  rw [if_pos h]
  dsimp only
  rw [hf]
  dsimp only
  rw [if_neg (fun hc => hs hc.1), if_pos hs]
  rfl

theorem download_turn_some (fetch : PeerInfo → Int → Option Str) (working : List PeerInfo)
    (filename dest_path : Str) (st : LoopState)
    (h : st.piece_index < 1000 ∧ st.consecutive_failures < 3) :
    ∃ (st1 : LoopState) (go : Bool),
      download_turn fetch working filename dest_path st
        = some (selected_peer working st.piece_index, st.piece_index, st1, go) ∧
      (go = true → st1.piece_index = st.piece_index + 1) := by
  cases hf : fetch (selected_peer working st.piece_index) st.piece_index with
  | some data =>
    exact ⟨_, true, download_turn_success fetch working filename dest_path st data h hf,
      fun _ => rfl⟩
  | none =>
    by_cases hs : st.successful_pieces = []
    · exact ⟨_, true, download_turn_failure_first fetch working filename dest_path st h hf hs,
        fun _ => rfl⟩
    · exact ⟨_, false, download_turn_failure_later fetch working filename dest_path st h hf hs,
        fun hc => absurd hc (by decide)⟩

/-- The calls of the loop go through the piece indices one by one from the index at which it
is entered, each to the peer that the round-robin selects, and stay below the cap. -/
theorem download_calls_form (fetch : PeerInfo → Int → Option Str) (working : List PeerInfo)
    (filename dest_path : Str) (fuel : Nat) (st : LoopState) :
    ∃ n : Nat,
      download_calls fetch working filename dest_path fuel st
        = (List.range n).map (fun t : Nat =>
            (selected_peer working (st.piece_index + (t : Int)), st.piece_index + (t : Int))) ∧
      (n = 0 ∨ st.piece_index + (n : Int) ≤ 1000) := by
  induction fuel generalizing st with
  | zero => exact ⟨0, rfl, Or.inl rfl⟩
  | succ fuel ih =>
    unfold download_calls
    by_cases h : st.piece_index < 1000 ∧ st.consecutive_failures < 3
    · obtain ⟨st1, go, hturn, hgo⟩ := download_turn_some fetch working filename dest_path st h
      rw [hturn]
      dsimp only
      cases go with
      | false =>
        refine ⟨1, ?_, Or.inr (by omega)⟩
        have hr : List.range 1 = [0] := rfl
        rw [hr]
        simp
      | true =>
        obtain ⟨n, hn, hb⟩ := ih st1
        have hidx := hgo rfl
        refine ⟨n + 1, ?_, Or.inr ?_⟩
        · rw [if_pos rfl, hn, List.range_succ_eq_map, List.map_cons, List.map_map, hidx]
          simp only [Nat.cast_zero, add_zero, List.cons.injEq, true_and]
          apply List.map_congr_left
          intro t _
          simp only [Function.comp, Nat.succ_eq_add_one, Nat.cast_add, Nat.cast_one]
          rw [add_assoc, add_comm 1 (t : Int)]
        · rcases hb with h0 | hle
          · omega
          · omega
    · rw [download_turn_none fetch working filename dest_path st h]
      exact ⟨0, rfl, Or.inl rfl⟩

theorem download_loop_stop (fetch : PeerInfo → Int → Option Str) (working : List PeerInfo)
    (filename dest_path : Str) (fuel : Nat) (st : LoopState)
    (h : ¬ (st.piece_index < 1000 ∧ st.consecutive_failures < 3)) :
    download_loop fetch working filename dest_path fuel st = st ∧
      download_calls fetch working filename dest_path fuel st = [] := by
  cases fuel with
  | zero => exact ⟨rfl, rfl⟩
  | succ m =>
    constructor
    · rw [download_loop_turn, download_turn_none fetch working filename dest_path st h]
    · unfold download_calls
      rw [download_turn_none fetch working filename dest_path st h]

/-- Fuel beyond the distance to the cap changes nothing: the loop has ended by then. -/
theorem download_loop_fuel (fetch : PeerInfo → Int → Option Str) (working : List PeerInfo)
    (filename dest_path : Str) (fuel1 fuel2 : Nat) (st : LoopState)
    (h1 : 1000 - st.piece_index ≤ (fuel1 : Int))
    (h2 : 1000 - st.piece_index ≤ (fuel2 : Int)) :
    download_loop fetch working filename dest_path fuel1 st
        = download_loop fetch working filename dest_path fuel2 st ∧
      download_calls fetch working filename dest_path fuel1 st
        = download_calls fetch working filename dest_path fuel2 st := by
  induction fuel1 generalizing fuel2 st with
  | zero =>
    have hno : ¬ (st.piece_index < 1000 ∧ st.consecutive_failures < 3) := by
      intro hc
      have := hc.1
      omega
    obtain ⟨a1, a2⟩ := download_loop_stop fetch working filename dest_path 0 st hno
    obtain ⟨b1, b2⟩ := download_loop_stop fetch working filename dest_path fuel2 st hno
    rw [a1, a2, b1, b2]
    exact ⟨rfl, rfl⟩
  | succ n ih =>
    by_cases h : st.piece_index < 1000 ∧ st.consecutive_failures < 3
    · cases fuel2 with
      | zero =>
        have := h.1
        omega
      | succ m =>
        obtain ⟨st1, go, hturn, hgo⟩ := download_turn_some fetch working filename dest_path st h
        rw [download_loop_turn, download_loop_turn, download_calls, download_calls, hturn]
        dsimp only
        cases go with
        | false => exact ⟨rfl, rfl⟩
        | true =>
          have hidx := hgo rfl
          obtain ⟨e1, e2⟩ := ih m st1 (by rw [hidx]; omega) (by rw [hidx]; omega)
          rw [if_pos rfl, if_pos rfl, if_pos rfl, if_pos rfl, e1, e2]
          exact ⟨rfl, rfl⟩
    · obtain ⟨a1, a2⟩ := download_loop_stop fetch working filename dest_path (n + 1) st h
      obtain ⟨b1, b2⟩ := download_loop_stop fetch working filename dest_path fuel2 st h
      rw [a1, a2, b1, b2]
      exact ⟨rfl, rfl⟩

/-- The three ways a turn of the loop can go. -/
theorem download_turn_cases (fetch : PeerInfo → Int → Option Str) (working : List PeerInfo)
    (filename dest_path : Str) (st st1 : LoopState) (peer : PeerInfo) (i : Int) (go : Bool)
    (h : download_turn fetch working filename dest_path st = some (peer, i, st1, go)) :
    (st.piece_index < 1000 ∧ st.consecutive_failures < 3) ∧
      peer = selected_peer working st.piece_index ∧ i = st.piece_index ∧
      ((∃ data : Str, fetch peer i = some data ∧ go = true ∧
          st1 = { st with
            successful_pieces := st.successful_pieces ++ [st.piece_index]
            consecutive_failures := 0
            downloaded_bytes := st.downloaded_bytes + 524288
            total_bytes := (max st.total_bytes
              (((st.successful_pieces ++ [st.piece_index]).length + 5 : Int) * 524288))
            active_downloads :=
              (updateProgress filename (st.downloaded_bytes + 524288)
                (max st.total_bytes
                  (((st.successful_pieces ++ [st.piece_index]).length + 5 : Int) * 524288))
                st.active_downloads)
            files := (Function.update st.files (piece_file dest_path filename st.piece_index)
              (some data))
            piece_index := st.piece_index + 1 }) ∨
        (fetch peer i = none ∧ st.successful_pieces = [] ∧ go = true ∧
          st1 = { st with
            consecutive_failures := st.consecutive_failures + 1
            failed_pieces := st.failed_pieces + 1
            piece_index := st.piece_index + 1 }) ∨
        (fetch peer i = none ∧ st.successful_pieces ≠ [] ∧ go = false ∧
          st1 = { st with
            consecutive_failures := st.consecutive_failures + 1
            failed_pieces := st.failed_pieces + 1 })) := by
  by_cases hc : st.piece_index < 1000 ∧ st.consecutive_failures < 3
  · refine ⟨hc, ?_⟩
    cases hf : fetch (selected_peer working st.piece_index) st.piece_index with
    | some data =>
      rw [download_turn_success fetch working filename dest_path st data hc hf] at h
      simp only [Option.some.injEq, Prod.mk.injEq] at h
      obtain ⟨e1, e2, e3, e4⟩ := h
      subst e1 e2 e3 e4
      exact ⟨rfl, rfl, Or.inl ⟨data, hf, rfl, rfl⟩⟩
    | none =>
      by_cases hs : st.successful_pieces = []
      · rw [download_turn_failure_first fetch working filename dest_path st hc hf hs] at h
        simp only [Option.some.injEq, Prod.mk.injEq] at h
        obtain ⟨e1, e2, e3, e4⟩ := h
        subst e1 e2 e3 e4
        exact ⟨rfl, rfl, Or.inr (Or.inl ⟨hf, hs, rfl, rfl⟩)⟩
      · rw [download_turn_failure_later fetch working filename dest_path st hc hf hs] at h
        simp only [Option.some.injEq, Prod.mk.injEq] at h
        obtain ⟨e1, e2, e3, e4⟩ := h
        subst e1 e2 e3 e4
        exact ⟨rfl, rfl, Or.inr (Or.inr ⟨hf, hs, rfl, rfl⟩)⟩
  · rw [download_turn_none fetch working filename dest_path st hc] at h
    exact absurd h (by simp)

/-- A property of the loop state that every turn preserves holds when the loop ends, and
after any number of turns. -/
theorem download_loop_invariant (fetch : PeerInfo → Int → Option Str)
    (working : List PeerInfo) (filename dest_path : Str) (P : LoopState → Prop)
    (hturn : ∀ (st st1 : LoopState) (peer : PeerInfo) (i : Int) (go : Bool), P st →
      download_turn fetch working filename dest_path st = some (peer, i, st1, go) → P st1)
    (fuel : Nat) (st : LoopState) (h : P st) :
    P (download_loop fetch working filename dest_path fuel st) := by
  induction fuel generalizing st with
  | zero => exact h
  | succ n ih =>
    rw [download_loop_turn]
    cases ht : download_turn fetch working filename dest_path st with
    | none => exact h
    | some r =>
      obtain ⟨peer, i, st1, go⟩ := r
      have h1 := hturn st st1 peer i go h ht
      dsimp only
      cases go with
      | false => exact h1
      | true => exact ih st1 h1

/-! ## Order and number of the piece requests -/

/-- Claim C22: for every non-empty list of working peers and whatever the fetches return, the
calls of `download_piece_from_peer` that the loop makes are for the piece indices
`0, 1, 2, ...` in this order, each index once, and the call for piece `i` goes to the peer
at position `i mod |peers|` of the list. -/
theorem C22_round_robin (fetch : PeerInfo → Int → Option Str) (working : List PeerInfo)
    (filename dest_path : Str) (active : List (Str × DownloadInfo)) (files : Files)
    (hw : working ≠ []) :
    ∃ n : Nat,
      download_calls fetch working filename dest_path 1000 (loop_start active files)
        = (List.range n).map (fun i : Nat =>
            (working.get ⟨i % working.length, Nat.mod_lt i (List.length_pos.mpr hw)⟩,
              (i : Int))) := by
  obtain ⟨n, hn, _⟩ := download_calls_form fetch working filename dest_path 1000
    (loop_start active files)
  refine ⟨n, ?_⟩
  rw [hn]
  apply List.map_congr_left
  intro i _
  have hidx : (loop_start active files).piece_index + (i : Int) = (i : Int) := by
    show (0 : Int) + (i : Int) = (i : Int)
    omega
  rw [hidx]
  unfold selected_peer
  rw [Int.toNat_ofNat,
    List.getD_eq_getElem working default (Nat.mod_lt i (List.length_pos.mpr hw))]
  rfl

theorem C22_round_robin_witness :
    [examplePeer, ⟨"10.0.0.2".toList, 7002, "bob".toList⟩] ≠ [] ∧
      download_calls (fun _ i => if i < 3 then some "x".toList else none)
          [examplePeer, ⟨"10.0.0.2".toList, 7002, "bob".toList⟩] "F".toList "d".toList 1000
          (loop_start [] exampleFiles)
        = [(examplePeer, 0), (⟨"10.0.0.2".toList, 7002, "bob".toList⟩, 1), (examplePeer, 2),
            (⟨"10.0.0.2".toList, 7002, "bob".toList⟩, 3)] ∧
      ∃ n : Nat,
        download_calls (fun _ i => if i < 3 then some "x".toList else none)
            [examplePeer, ⟨"10.0.0.2".toList, 7002, "bob".toList⟩] "F".toList "d".toList 1000
            (loop_start [] exampleFiles)
          = (List.range n).map (fun i : Nat =>
              ([examplePeer, ⟨"10.0.0.2".toList, 7002, "bob".toList⟩].get
                ⟨i % 2, Nat.mod_lt i (by decide)⟩, (i : Int))) :=
  ⟨by decide, by decide,
    C22_round_robin (fun _ i => if i < 3 then some "x".toList else none)
      [examplePeer, ⟨"10.0.0.2".toList, 7002, "bob".toList⟩] "F".toList "d".toList []
      exampleFiles (by decide)⟩

/-- Claim C23: whatever the fetches return, the download loop ends within 1000 turns (more
fuel gives the same final state and the same calls), it calls `download_piece_from_peer` at
most 1000 times, and every call is for a piece index between 0 and 999. -/
theorem C23_loop_bounded (fetch : PeerInfo → Int → Option Str) (working : List PeerInfo)
    (filename dest_path : Str) (active : List (Str × DownloadInfo)) (files : Files)
    (fuel : Nat) (hfuel : 1000 ≤ fuel) :
    download_loop fetch working filename dest_path fuel (loop_start active files)
        = download_loop fetch working filename dest_path 1000 (loop_start active files) ∧
      download_calls fetch working filename dest_path fuel (loop_start active files)
        = download_calls fetch working filename dest_path 1000 (loop_start active files) ∧
      (download_calls fetch working filename dest_path 1000 (loop_start active files)).length
        ≤ 1000 ∧
      ∀ c ∈ download_calls fetch working filename dest_path 1000 (loop_start active files),
        0 ≤ c.2 ∧ c.2 ≤ 999 := by
  have hstart : (loop_start active files).piece_index = 0 := rfl
  obtain ⟨e1, e2⟩ := download_loop_fuel fetch working filename dest_path fuel 1000
    (loop_start active files) (by rw [hstart]; omega) (by rw [hstart]; omega)
  obtain ⟨n, hn, hb⟩ := download_calls_form fetch working filename dest_path 1000
    (loop_start active files)
  rw [hstart] at hb
  refine ⟨e1, e2, ?_, ?_⟩
  · rw [hn, List.length_map, List.length_range]
    omega
  · intro c hc
    rw [hn] at hc
    obtain ⟨t, ht, hct⟩ := List.mem_map.mp hc
    have htn : t < n := List.mem_range.mp ht
    rw [← hct, hstart]
    dsimp only
    omega

theorem C23_loop_bounded_witness :
    1000 ≤ 2000 ∧
      download_calls (fun _ _ => none) [examplePeer] "F".toList "d".toList 2000
          (loop_start [] exampleFiles)
        = download_calls (fun _ _ => none) [examplePeer] "F".toList "d".toList 1000
          (loop_start [] exampleFiles) ∧
      (download_calls (fun _ _ => none) [examplePeer] "F".toList "d".toList 1000
          (loop_start [] exampleFiles)).length ≤ 1000 :=
  ⟨by decide,
    (C23_loop_bounded (fun _ _ => none) [examplePeer] "F".toList "d".toList []
      exampleFiles 2000 (by decide)).2.1,
    (C23_loop_bounded (fun _ _ => none) [examplePeer] "F".toList "d".toList []
      exampleFiles 2000 (by decide)).2.2.1⟩

/-! ## Failed fetches -/

/-- Claim C21, as stated, fails: when piece 0 is fetched, the fetch of piece 1 fails and
piece 2 could be fetched, the loop stops after the one failure: it has called for the pieces
0 and 1 only, and ends with one consecutive failure. -/
theorem C21_one_failure_after_success_stops :
    download_calls (fun _ i => if i = 1 then none else some "x".toList) [examplePeer]
        "F".toList "d".toList 1000 (loop_start [] exampleFiles)
        = [(examplePeer, 0), (examplePeer, 1)] ∧
      (download_loop (fun _ i => if i = 1 then none else some "x".toList) [examplePeer]
        "F".toList "d".toList 1000 (loop_start [] exampleFiles)).successful_pieces = [0] ∧
      (download_loop (fun _ i => if i = 1 then none else some "x".toList) [examplePeer]
        "F".toList "d".toList 1000 (loop_start [] exampleFiles)).consecutive_failures = 1 := by
  refine ⟨by decide, by decide, by decide⟩

/-- Claim C21, amended: in a turn of the loop whose fetch fails, once a piece has succeeded
the loop stops at once, at this first failure (taken for the end of the file), with no
further call; while no piece has succeeded, the loop goes on to the next piece after a
first and a second consecutive failure, and stops after the third. -/
theorem C21_failure_rule (fetch : PeerInfo → Int → Option Str) (working : List PeerInfo)
    (filename dest_path : Str) (fuel : Nat) (st : LoopState)
    (hidx : st.piece_index < 1000) (hcf : st.consecutive_failures < 3)
    (hfail : fetch (selected_peer working st.piece_index) st.piece_index = none) :
    (st.successful_pieces ≠ [] →
      download_loop fetch working filename dest_path (fuel + 1) st
          = { st with
              consecutive_failures := st.consecutive_failures + 1
              failed_pieces := st.failed_pieces + 1 } ∧
        download_calls fetch working filename dest_path (fuel + 1) st
          = [(selected_peer working st.piece_index, st.piece_index)]) ∧
    (st.successful_pieces = [] → st.consecutive_failures + 1 < 3 →
      download_loop fetch working filename dest_path (fuel + 1) st
          = download_loop fetch working filename dest_path fuel
              { st with
                consecutive_failures := st.consecutive_failures + 1
                failed_pieces := st.failed_pieces + 1
                piece_index := st.piece_index + 1 } ∧
        download_calls fetch working filename dest_path (fuel + 1) st
          = (selected_peer working st.piece_index, st.piece_index) ::
              download_calls fetch working filename dest_path fuel
                { st with
                  consecutive_failures := st.consecutive_failures + 1
                  failed_pieces := st.failed_pieces + 1
                  piece_index := st.piece_index + 1 }) ∧
    (st.successful_pieces = [] → st.consecutive_failures + 1 = 3 →
      download_loop fetch working filename dest_path (fuel + 1) st
          = { st with
              consecutive_failures := st.consecutive_failures + 1
              failed_pieces := st.failed_pieces + 1
              piece_index := st.piece_index + 1 } ∧
        download_calls fetch working filename dest_path (fuel + 1) st
          = [(selected_peer working st.piece_index, st.piece_index)]) := by
  refine ⟨?_, ?_, ?_⟩
  · intro hs
    rw [download_loop_turn, download_calls,
      download_turn_failure_later fetch working filename dest_path st ⟨hidx, hcf⟩ hfail hs]
    exact ⟨rfl, rfl⟩
  · intro hs _
    rw [download_loop_turn, download_calls,
      download_turn_failure_first fetch working filename dest_path st ⟨hidx, hcf⟩ hfail hs]
    exact ⟨rfl, rfl⟩
  · intro hs h3
    rw [download_loop_turn, download_calls,
      download_turn_failure_first fetch working filename dest_path st ⟨hidx, hcf⟩ hfail hs]
    dsimp only
    have hstop := download_loop_stop fetch working filename dest_path fuel
      { st with
        consecutive_failures := st.consecutive_failures + 1
        failed_pieces := st.failed_pieces + 1
        piece_index := st.piece_index + 1 }
      (by
        intro hc
        have := hc.2
        dsimp only at this
        omega)
    rw [if_pos rfl, if_pos rfl, hstop.1, hstop.2]
    exact ⟨rfl, rfl⟩

theorem C21_failure_rule_witness :
    (2 : Int) < 1000 ∧ (0 : Int) < 3 ∧
      download_loop (fun _ _ => none) [examplePeer] "F".toList "d".toList (7 + 1)
          ⟨[0, 1], 2, 0, 0, 1048576, 3670016, [], exampleFiles⟩
        = ⟨[0, 1], 2, 0 + 1, 0 + 1, 1048576, 3670016, [], exampleFiles⟩ ∧
      download_calls (fun _ _ => none) [examplePeer] "F".toList "d".toList (7 + 1)
          ⟨[0, 1], 2, 0, 0, 1048576, 3670016, [], exampleFiles⟩
        = [(selected_peer [examplePeer] 2, 2)] :=
  ⟨by decide, by decide,
    (C21_failure_rule (fun _ _ => none) [examplePeer] "F".toList "d".toList 7
      ⟨[0, 1], 2, 0, 0, 1048576, 3670016, [], exampleFiles⟩ (by decide) (by decide) rfl).1
      (by decide)⟩

theorem three_failures (fetch : PeerInfo → Int → Option Str) (working : List PeerInfo)
    (filename dest_path : Str) (active : List (Str × DownloadInfo)) (files : Files)
    (fuel : Nat)
    (h0 : fetch (selected_peer working 0) 0 = none)
    (h1 : fetch (selected_peer working 1) 1 = none)
    (h2 : fetch (selected_peer working 2) 2 = none) :
    download_loop fetch working filename dest_path (fuel + 3) (loop_start active files)
        = ⟨[], 3, 3, 3, 0, 0, active, files⟩ ∧
      download_calls fetch working filename dest_path (fuel + 3) (loop_start active files)
        = [(selected_peer working 0, 0), (selected_peer working 1, 1),
            (selected_peer working 2, 2)] := by
  have a0 : (0 : Int) < 1000 ∧ (0 : Int) < 3 := by decide
  have a1 : (1 : Int) < 1000 ∧ (1 : Int) < 3 := by decide
  have a2 : (2 : Int) < 1000 ∧ (2 : Int) < 3 := by decide
  have a3 : ¬ ((3 : Int) < 1000 ∧ (3 : Int) < 3) := by decide
  have t0 : download_turn fetch working filename dest_path (loop_start active files)
      = some (selected_peer working 0, 0, ⟨[], 1, 1, 1, 0, 0, active, files⟩, true) :=
    download_turn_failure_first fetch working filename dest_path (loop_start active files)
      a0 h0 rfl
  have t1 : download_turn fetch working filename dest_path ⟨[], 1, 1, 1, 0, 0, active, files⟩
      = some (selected_peer working 1, 1, ⟨[], 2, 2, 2, 0, 0, active, files⟩, true) :=
    download_turn_failure_first fetch working filename dest_path
      ⟨[], 1, 1, 1, 0, 0, active, files⟩ a1 h1 rfl
  have t2 : download_turn fetch working filename dest_path ⟨[], 2, 2, 2, 0, 0, active, files⟩
      = some (selected_peer working 2, 2, ⟨[], 3, 3, 3, 0, 0, active, files⟩, true) :=
    download_turn_failure_first fetch working filename dest_path
      ⟨[], 2, 2, 2, 0, 0, active, files⟩ a2 h2 rfl
  have hstop := download_loop_stop fetch working filename dest_path fuel
    ⟨[], 3, 3, 3, 0, 0, active, files⟩ a3
  constructor
  · rw [download_loop_turn, t0]
    dsimp only
    rw [if_pos rfl, download_loop_turn, t1]
    dsimp only
    rw [if_pos rfl, download_loop_turn, t2]
    dsimp only
    rw [if_pos rfl, hstop.1]
  · rw [download_calls, t0]
    dsimp only
    rw [if_pos rfl, download_calls, t1]
    dsimp only
    rw [if_pos rfl, download_calls, t2]
    dsimp only
    rw [if_pos rfl, hstop.2]

theorem mapFind_mapEmplace {V : Type} (k : Str) (v : V) (m : List (Str × V)) :
    (mapFind k (mapEmplace k v m)).isSome = true := by
  unfold mapEmplace
  split
  · assumption
  · rw [mapFind_mapInsert, if_pos rfl]
    rfl

/-- Claim C24: when some peer answers the probe and the fetches of the pieces 0, 1 and 2 all
fail, the loop ends after these three calls, without a fourth; no piece is recorded, the files
of the downloader are as before, so that nothing is written at `dest_path/<filename>`, and the
entry of the file in `active_downloads` has `is_complete` false. -/
theorem C24_first_piece_fails (fetch : PeerInfo → Int → Option Str)
    (reachable : PeerInfo → Bool) (peers : List PeerInfo) (filename dest_path : Str)
    (active : List (Str × DownloadInfo)) (files : Files)
    (hw : peers.filter reachable ≠ [])
    (h0 : fetch (selected_peer (peers.filter reachable) 0) 0 = none)
    (h1 : fetch (selected_peer (peers.filter reachable) 1) 1 = none)
    (h2 : fetch (selected_peer (peers.filter reachable) 2) 2 = none) :
    download_calls fetch (peers.filter reachable) filename dest_path 1000
        (loop_start (mapEmplace filename ⟨filename, dest_path, 0, 0, false⟩ active) files)
      = [(selected_peer (peers.filter reachable) 0, 0),
          (selected_peer (peers.filter reachable) 1, 1),
          (selected_peer (peers.filter reachable) 2, 2)] ∧
    (piece_selection_with fetch reachable peers filename dest_path active files).files
      = files ∧
    (piece_selection_with fetch reachable peers filename dest_path active files).files
      (final_path dest_path filename) = files (final_path dest_path filename) ∧
    DownloadResult.successful_pieces
      (piece_selection_with fetch reachable peers filename dest_path active files) = [] ∧
    ∃ info : DownloadInfo,
      mapFind filename (DownloadResult.active_downloads
        (piece_selection_with fetch reachable peers filename dest_path active files))
        = some info ∧
      info.is_complete = false := by
  obtain ⟨hl, hc⟩ := three_failures fetch (peers.filter reachable) filename dest_path
    (mapEmplace filename ⟨filename, dest_path, 0, 0, false⟩ active) files 997 h0 h1 h2
  have hres : piece_selection_with fetch reachable peers filename dest_path active files
      = ⟨files,
          (match mapFind filename
              (mapEmplace filename ⟨filename, dest_path, 0, 0, false⟩ active) with
            | some info =>
              mapInsert filename { info with is_complete := false }
                (mapEmplace filename ⟨filename, dest_path, 0, 0, false⟩ active)
            | none => mapEmplace filename ⟨filename, dest_path, 0, 0, false⟩ active), []⟩ := by
    unfold piece_selection_with
    dsimp only
    rw [if_neg hw]
    have hl2 : download_loop fetch (peers.filter reachable) filename dest_path 1000
        ⟨[], 0, 0, 0, 0, 0, mapEmplace filename ⟨filename, dest_path, 0, 0, false⟩ active,
          files⟩
        = ⟨[], 3, 3, 3, 0, 0,
            mapEmplace filename ⟨filename, dest_path, 0, 0, false⟩ active, files⟩ := hl
    rw [hl2]
    rfl
  refine ⟨hc, ?_, ?_, ?_, ?_⟩
  · rw [hres]
  · rw [hres]
  · rw [hres]
  · rw [hres]
    dsimp only
    have hsome := mapFind_mapEmplace filename
      (⟨filename, dest_path, 0, 0, false⟩ : DownloadInfo) active
    cases hf : mapFind filename
        (mapEmplace filename (⟨filename, dest_path, 0, 0, false⟩ : DownloadInfo) active) with
    | none => rw [hf] at hsome; exact absurd hsome (by decide)
    | some info =>
      dsimp only
      refine ⟨{ info with is_complete := false }, ?_, rfl⟩
      rw [mapFind_mapInsert, if_pos rfl]

theorem C24_first_piece_fails_witness :
    [examplePeer].filter (fun _ => true) ≠ [] ∧
      download_calls (fun _ i => if i < 3 then none else some "x".toList)
          ([examplePeer].filter (fun _ => true)) "F".toList "d".toList 1000
          (loop_start (mapEmplace "F".toList ⟨"F".toList, "d".toList, 0, 0, false⟩ [])
            exampleFiles)
        = [(selected_peer ([examplePeer].filter (fun _ => true)) 0, 0),
            (selected_peer ([examplePeer].filter (fun _ => true)) 1, 1),
            (selected_peer ([examplePeer].filter (fun _ => true)) 2, 2)] ∧
      (piece_selection_with (fun _ i => if i < 3 then none else some "x".toList)
          (fun _ => true) [examplePeer] "F".toList "d".toList [] exampleFiles).files
        = exampleFiles :=
  ⟨by decide,
    (C24_first_piece_fails (fun _ i => if i < 3 then none else some "x".toList)
      (fun _ => true) [examplePeer] "F".toList "d".toList [] exampleFiles
      (by decide) rfl rfl rfl).1,
    (C24_first_piece_fails (fun _ i => if i < 3 then none else some "x".toList)
      (fun _ => true) [examplePeer] "F".toList "d".toList [] exampleFiles
      (by decide) rfl rfl rfl).2.1⟩

/-! ## Progress accounting -/

theorem updateProgress_find (filename : Str) (downloaded total : Int)
    (active : List (Str × DownloadInfo)) (h : (mapFind filename active).isSome = true) :
    ∃ info : DownloadInfo,
      mapFind filename (updateProgress filename downloaded total active) = some info ∧
      info.downloaded_size = downloaded ∧ info.total_size = total := by
  unfold updateProgress
  cases hf : mapFind filename active with
  | none => rw [hf] at h; exact absurd h (by decide)
  | some info0 =>
    dsimp only
    refine ⟨{ info0 with downloaded_size := downloaded, total_size := total }, ?_, rfl, rfl⟩
    rw [mapFind_mapInsert, if_pos rfl]

theorem progress_turn (fetch : PeerInfo → Int → Option Str) (working : List PeerInfo)
    (filename dest_path : Str) (st st1 : LoopState) (peer : PeerInfo) (i : Int) (go : Bool)
    (hP : st.downloaded_bytes = (st.successful_pieces.length : Int) * 524288 ∧
      (st.successful_pieces = [] → st.total_bytes = 0) ∧
      (st.successful_pieces ≠ [] →
        st.total_bytes = ((st.successful_pieces.length : Int) + 5) * 524288 ∧
        ∃ info : DownloadInfo, mapFind filename st.active_downloads = some info ∧
          info.downloaded_size = (st.successful_pieces.length : Int) * 524288 ∧
          info.total_size = ((st.successful_pieces.length : Int) + 5) * 524288) ∧
      (mapFind filename st.active_downloads).isSome = true)
    (ht : download_turn fetch working filename dest_path st = some (peer, i, st1, go)) :
    st1.downloaded_bytes = (st1.successful_pieces.length : Int) * 524288 ∧
      (st1.successful_pieces = [] → st1.total_bytes = 0) ∧
      (st1.successful_pieces ≠ [] →
        st1.total_bytes = ((st1.successful_pieces.length : Int) + 5) * 524288 ∧
        ∃ info : DownloadInfo, mapFind filename st1.active_downloads = some info ∧
          info.downloaded_size = (st1.successful_pieces.length : Int) * 524288 ∧
          info.total_size = ((st1.successful_pieces.length : Int) + 5) * 524288) ∧
      (mapFind filename st1.active_downloads).isSome = true := by
  obtain ⟨hd, h0, h1, hsome⟩ := hP
  obtain ⟨_, _, _, hcase⟩ := download_turn_cases fetch working filename dest_path st st1 peer i
    go ht
  rcases hcase with ⟨data, _, _, e⟩ | ⟨_, _, _, e⟩ | ⟨_, _, _, e⟩
  · subst e
    dsimp only
    have hlen : ((st.successful_pieces ++ [st.piece_index]).length : Int)
        = (st.successful_pieces.length : Int) + 1 := by
      rw [List.length_append, List.length_singleton]
      push_cast
      rfl
    have htot : max st.total_bytes
        (((st.successful_pieces ++ [st.piece_index]).length + 5 : Int) * 524288)
        = (((st.successful_pieces ++ [st.piece_index]).length : Int) + 5) * 524288 := by
      apply max_eq_right
      rw [hlen]
      by_cases hs : st.successful_pieces = []
      · rw [h0 hs]
        have : (0 : Int) ≤ (st.successful_pieces.length : Int) := Int.ofNat_nonneg _
        omega
      · rw [(h1 hs).1]
        omega
    obtain ⟨info, hinfo, hi1, hi2⟩ := updateProgress_find filename
      (st.downloaded_bytes + 524288)
      (max st.total_bytes
        (((st.successful_pieces ++ [st.piece_index]).length + 5 : Int) * 524288))
      st.active_downloads hsome
    refine ⟨?_, ?_, ?_, ?_⟩
    · rw [hlen, hd]
      omega
    · intro hnil
      exact absurd hnil (by simp)
    · intro _
      refine ⟨htot, info, hinfo, ?_, ?_⟩
      · rw [hi1, hlen, hd]
        omega
      · rw [hi2, htot]
    · rw [hinfo]
      rfl
  · subst e
    exact ⟨hd, h0, h1, hsome⟩
  · subst e
    exact ⟨hd, h0, h1, hsome⟩

theorem total_bytes_mono (fetch : PeerInfo → Int → Option Str) (working : List PeerInfo)
    (filename dest_path : Str) (fuel : Nat) (st : LoopState) :
    (download_loop fetch working filename dest_path fuel st).total_bytes
      ≤ (download_loop fetch working filename dest_path (fuel + 1) st).total_bytes := by
  induction fuel generalizing st with
  | zero =>
    rw [download_loop_turn]
    cases ht : download_turn fetch working filename dest_path st with
    | none => exact le_refl _
    | some r =>
      obtain ⟨peer, i, st1, go⟩ := r
      obtain ⟨_, _, _, hcase⟩ := download_turn_cases fetch working filename dest_path st st1
        peer i go ht
      have hst1 : st.total_bytes ≤ st1.total_bytes := by
        rcases hcase with ⟨data, _, _, e⟩ | ⟨_, _, _, e⟩ | ⟨_, _, _, e⟩
        · subst e
          exact le_max_left _ _
        · subst e
          exact le_refl _
        · subst e
          exact le_refl _
      dsimp only
      cases go with
      | false => exact hst1
      | true => exact hst1
  | succ n ih =>
    rw [download_loop_turn, download_loop_turn fetch working filename dest_path (n + 1)]
    cases ht : download_turn fetch working filename dest_path st with
    | none => exact le_refl _
    | some r =>
      obtain ⟨peer, i, st1, go⟩ := r
      dsimp only
      cases go with
      | false => exact le_refl _
      | true => exact ih st1

theorem quotient_bounds (k : Int) (hk : 1 ≤ k) :
    k * 524288 * 100 / ((k + 5) * 524288) = 100 * k / (k + 5) ∧
      100 * k / (k + 5) ≤ 99 ∧
      (k ≤ 119 → 100 * k / (k + 5) ≤ 95) ∧
      (120 ≤ k → 96 ≤ 100 * k / (k + 5)) := by
  have hpos : (0 : Int) < k + 5 := by omega
  refine ⟨?_, ?_, ?_, ?_⟩
  · have e : k * 524288 * 100 = 100 * k * 524288 := by ring
    rw [e, Int.mul_ediv_mul_of_pos_left _ _ (by decide : (0 : Int) < 524288)]
  · have h := Int.ediv_lt_of_lt_mul hpos (by omega : 100 * k < 100 * (k + 5))
    omega
  · intro h119
    have h := Int.ediv_lt_of_lt_mul hpos (by omega : 100 * k < 96 * (k + 5))
    omega
  · intro h120
    exact Int.le_ediv_of_mul_le hpos (by omega)

set_option maxRecDepth 200000 in
theorem loop_after_120_pieces :
    mapFind "F".toList
        (download_loop (fun _ _ => some []) [examplePeer] "F".toList "d".toList 120
          (loop_start
            (mapEmplace "F".toList (⟨"F".toList, "d".toList, 0, 0, false⟩ : DownloadInfo) [])
            (fun _ => none))).active_downloads
      = some ⟨"F".toList, "d".toList, 65536000, 62914560, false⟩ := by
  decide

/-- Claim C25, as stated, fails: after 120 pieces fetched in 120 turns the entry of the file
holds `downloaded_size = 120 * 524288` and `total_size = 125 * 524288` and is not complete,
and `100 * downloaded / total`, which `show_downloads` prints for it, is 96. -/
theorem C25_quotient_is_96_after_120_pieces :
    mapFind "F".toList
        (download_loop (fun _ _ => some []) [examplePeer] "F".toList "d".toList 120
          (loop_start
            (mapEmplace "F".toList (⟨"F".toList, "d".toList, 0, 0, false⟩ : DownloadInfo) [])
            (fun _ => none))).active_downloads
        = some ⟨"F".toList, "d".toList, 65536000, 62914560, false⟩ ∧
      (65536000 : Int) = 125 * 524288 ∧ (62914560 : Int) = 120 * 524288 ∧
      show_downloads_progress ⟨"F".toList, "d".toList, 65536000, 62914560, false⟩ = 96 ∧
      ¬ (show_downloads_progress ⟨"F".toList, "d".toList, 65536000, 62914560, false⟩ ≤ 95) :=
  ⟨loop_after_120_pieces, by decide, by decide, by decide, by decide⟩

/-- Claim C25, amended: after any number `n` of turns of the loop, entered with an entry for
the file in `active_downloads`, with `k` the number of pieces fetched so far:
`downloaded_bytes` is `k * 524288`; when `k ≥ 1`, `total_bytes` is `(k + 5) * 524288`, the
entry holds these two values and `show_downloads` prints `100 * k / (k + 5)` for it;
`downloaded_bytes ≤ total_bytes`; `total_bytes` after `n + 1` turns is not less than after
`n`; the quotient `100 * downloaded / total` is `100 * k / (k + 5)`, at most 99, at most 95 up
to the 119th piece and at least 96 from the 120th; and the percentage that the loop passes
to its own display is this quotient capped at 95. -/
theorem C25_progress_accounting (fetch : PeerInfo → Int → Option Str)
    (working : List PeerInfo) (filename dest_path : Str) (active : List (Str × DownloadInfo))
    (files : Files) (n : Nat) (hentry : (mapFind filename active).isSome = true) :
    ∃ k : Nat,
      (download_loop fetch working filename dest_path n
        (loop_start active files)).successful_pieces.length = k ∧
      (download_loop fetch working filename dest_path n
        (loop_start active files)).downloaded_bytes = (k : Int) * 524288 ∧
      (1 ≤ k →
        (download_loop fetch working filename dest_path n
          (loop_start active files)).total_bytes = ((k : Int) + 5) * 524288 ∧
        ∃ info : DownloadInfo,
          mapFind filename (download_loop fetch working filename dest_path n
            (loop_start active files)).active_downloads = some info ∧
          info.downloaded_size = (k : Int) * 524288 ∧
          info.total_size = ((k : Int) + 5) * 524288 ∧
          show_downloads_progress info = 100 * (k : Int) / ((k : Int) + 5)) ∧
      (download_loop fetch working filename dest_path n
          (loop_start active files)).downloaded_bytes
        ≤ (download_loop fetch working filename dest_path n
          (loop_start active files)).total_bytes ∧
      (download_loop fetch working filename dest_path n
          (loop_start active files)).total_bytes
        ≤ (download_loop fetch working filename dest_path (n + 1)
          (loop_start active files)).total_bytes ∧
      progress_percent
          (download_loop fetch working filename dest_path n
            (loop_start active files)).downloaded_bytes
          (download_loop fetch working filename dest_path n
            (loop_start active files)).total_bytes ≤ 95 ∧
      (1 ≤ k →
        (download_loop fetch working filename dest_path n
            (loop_start active files)).downloaded_bytes * 100
          / (download_loop fetch working filename dest_path n
            (loop_start active files)).total_bytes = 100 * (k : Int) / ((k : Int) + 5) ∧
        progress_percent
            (download_loop fetch working filename dest_path n
              (loop_start active files)).downloaded_bytes
            (download_loop fetch working filename dest_path n
              (loop_start active files)).total_bytes
          = min (100 * (k : Int) / ((k : Int) + 5)) 95 ∧
        100 * (k : Int) / ((k : Int) + 5) ≤ 99 ∧
        (k ≤ 119 → 100 * (k : Int) / ((k : Int) + 5) ≤ 95) ∧
        (120 ≤ k → 96 ≤ 100 * (k : Int) / ((k : Int) + 5))) := by
  have hP := download_loop_invariant fetch working filename dest_path
    (fun st => st.downloaded_bytes = (st.successful_pieces.length : Int) * 524288 ∧
      (st.successful_pieces = [] → st.total_bytes = 0) ∧
      (st.successful_pieces ≠ [] →
        st.total_bytes = ((st.successful_pieces.length : Int) + 5) * 524288 ∧
        ∃ info : DownloadInfo, mapFind filename st.active_downloads = some info ∧
          info.downloaded_size = (st.successful_pieces.length : Int) * 524288 ∧
          info.total_size = ((st.successful_pieces.length : Int) + 5) * 524288) ∧
      (mapFind filename st.active_downloads).isSome = true)
    (fun st st1 peer i go h ht =>
      progress_turn fetch working filename dest_path st st1 peer i go h ht)
    n (loop_start active files)
    ⟨by simp [loop_start], fun _ => rfl, fun h => absurd rfl h, hentry⟩
  have hmono := total_bytes_mono fetch working filename dest_path n (loop_start active files)
  have key : ∀ st : LoopState,
      (st.downloaded_bytes = (st.successful_pieces.length : Int) * 524288 ∧
        (st.successful_pieces = [] → st.total_bytes = 0) ∧
        (st.successful_pieces ≠ [] →
          st.total_bytes = ((st.successful_pieces.length : Int) + 5) * 524288 ∧
          ∃ info : DownloadInfo, mapFind filename st.active_downloads = some info ∧
            info.downloaded_size = (st.successful_pieces.length : Int) * 524288 ∧
            info.total_size = ((st.successful_pieces.length : Int) + 5) * 524288) ∧
        (mapFind filename st.active_downloads).isSome = true) →
      st.downloaded_bytes = (st.successful_pieces.length : Int) * 524288 ∧
      (1 ≤ st.successful_pieces.length →
        st.total_bytes = ((st.successful_pieces.length : Int) + 5) * 524288 ∧
        ∃ info : DownloadInfo, mapFind filename st.active_downloads = some info ∧
          info.downloaded_size = (st.successful_pieces.length : Int) * 524288 ∧
          info.total_size = ((st.successful_pieces.length : Int) + 5) * 524288 ∧
          show_downloads_progress info
            = 100 * (st.successful_pieces.length : Int)
                / ((st.successful_pieces.length : Int) + 5)) ∧
      st.downloaded_bytes ≤ st.total_bytes ∧
      progress_percent st.downloaded_bytes st.total_bytes ≤ 95 ∧
      (1 ≤ st.successful_pieces.length →
        st.downloaded_bytes * 100 / st.total_bytes
          = 100 * (st.successful_pieces.length : Int)
              / ((st.successful_pieces.length : Int) + 5) ∧
        progress_percent st.downloaded_bytes st.total_bytes
          = min (100 * (st.successful_pieces.length : Int)
              / ((st.successful_pieces.length : Int) + 5)) 95 ∧
        100 * (st.successful_pieces.length : Int)
          / ((st.successful_pieces.length : Int) + 5) ≤ 99 ∧
        (st.successful_pieces.length ≤ 119 →
          100 * (st.successful_pieces.length : Int)
            / ((st.successful_pieces.length : Int) + 5) ≤ 95) ∧
        (120 ≤ st.successful_pieces.length →
          96 ≤ 100 * (st.successful_pieces.length : Int)
            / ((st.successful_pieces.length : Int) + 5))) := by
    intro st hst
    obtain ⟨hd, h0, h1, _⟩ := hst
    have hne : 1 ≤ st.successful_pieces.length → st.successful_pieces ≠ [] :=
      fun hk hnil => by rw [hnil] at hk; exact absurd hk (by decide)
    refine ⟨hd, ?_, ?_, ?_, ?_⟩
    · intro hk
      obtain ⟨ht, info, hinfo, hi1, hi2⟩ := h1 (hne hk)
      refine ⟨ht, info, hinfo, hi1, hi2, ?_⟩
      unfold show_downloads_progress
      rw [hi1, hi2, if_pos (by omega)]
      exact (quotient_bounds _ (by omega)).1
    · by_cases hs : st.successful_pieces = []
      · rw [hd, h0 hs, hs]
        decide
      · rw [hd, (h1 hs).1]
        omega
    · unfold progress_percent
      exact min_le_right _ _
    · intro hk
      obtain ⟨ht, _⟩ := h1 (hne hk)
      obtain ⟨q1, q2, q3, q4⟩ := quotient_bounds (st.successful_pieces.length : Int)
        (by omega)
      refine ⟨?_, ?_, q2, fun h => q3 (by omega), fun h => q4 (by omega)⟩
      · rw [hd, ht]
        exact q1
      · unfold progress_percent
        rw [hd, ht, if_pos (by omega), q1]
  obtain ⟨k1, k2, k3, k4, k5⟩ := key _ hP
  exact ⟨_, rfl, k1, k2, k3, hmono, k4, k5⟩

theorem C25_progress_accounting_witness :
    (mapFind "F".toList
        (mapEmplace "F".toList (⟨"F".toList, "d".toList, 0, 0, false⟩ : DownloadInfo) [])).isSome = true ∧
      (download_loop (fun _ i => if i < 2 then some "x".toList else none) [examplePeer]
        "F".toList "d".toList 1000
        (loop_start (mapEmplace "F".toList (⟨"F".toList, "d".toList, 0, 0, false⟩ : DownloadInfo) [])
          exampleFiles)).total_bytes = 3670016 ∧
      progress_percent 1048576 3670016 = 28 ∧
      progress_percent 62914560 65536000 = 95 ∧ 62914560 * 100 / 65536000 = (96 : Int) ∧
      ∃ k : Nat,
        (download_loop (fun _ i => if i < 2 then some "x".toList else none) [examplePeer]
          "F".toList "d".toList 1000
          (loop_start (mapEmplace "F".toList (⟨"F".toList, "d".toList, 0, 0, false⟩ : DownloadInfo) [])
            exampleFiles)).successful_pieces.length = k ∧
        (download_loop (fun _ i => if i < 2 then some "x".toList else none) [examplePeer]
          "F".toList "d".toList 1000
          (loop_start (mapEmplace "F".toList (⟨"F".toList, "d".toList, 0, 0, false⟩ : DownloadInfo) [])
            exampleFiles)).downloaded_bytes = (k : Int) * 524288 :=
  ⟨by decide, by decide, by decide, by decide, by decide,
    match C25_progress_accounting (fun _ i => if i < 2 then some "x".toList else none)
      [examplePeer] "F".toList "d".toList
      (mapEmplace "F".toList (⟨"F".toList, "d".toList, 0, 0, false⟩ : DownloadInfo) []) exampleFiles 1000
      (by decide) with
    | ⟨k, h1, h2, _⟩ => ⟨k, h1, h2⟩⟩

/-! ## The pieces that a download assembles -/

theorem agree_users (s s1 : Tracker) (hI : MembershipAgree s) (u0 : Str) (usr1 : User)
    (hU : ∀ u : Str, mapFind u s1.users = if u = u0 then some usr1 else mapFind u s.users)
    (hG : s1.groups = s.groups)
    (hC : ∀ g : Str, g ∈ usr1.groups ↔ ∃ usr : User, mapFind u0 s.users = some usr ∧
      g ∈ usr.groups) :
    MembershipAgree s1 := by
  obtain ⟨h1, h2⟩ := hI
  constructor
  · intro u g
    rw [hU, hG]
    by_cases hu : u = u0
    · subst hu
      rw [if_pos rfl, ← h1 u g, ← hC g]
      constructor
      · rintro ⟨usr, he, hg⟩
        cases he
        exact hg
      · intro hg
        exact ⟨usr1, rfl, hg⟩
    · rw [if_neg hu]
      exact h1 u g
  · intro u g hmem
    rw [hG] at hmem
    rw [hU]
    by_cases hu : u = u0
    · rw [if_pos hu]
      exact ⟨usr1, rfl⟩
    · rw [if_neg hu]
      exact h2 u g hmem

theorem agree_groups (s s1 : Tracker) (hI : MembershipAgree s) (g0 : Str) (grp1 : Group)
    (hG : ∀ g : Str, mapFind g s1.groups = if g = g0 then some grp1 else mapFind g s.groups)
    (hU : s1.users = s.users)
    (hC2 : ∀ u : Str, u ∈ grp1.members ↔ ∃ grp : Group, mapFind g0 s.groups = some grp ∧
      u ∈ grp.members)
    (hC4 : ∀ u : Str, u ∈ grp1.pending_requests →
      (∃ usr : User, mapFind u s.users = some usr) ∨
        ∃ grp : Group, mapFind g0 s.groups = some grp ∧ u ∈ grp.pending_requests) :
    MembershipAgree s1 := by
  obtain ⟨h1, h2⟩ := hI
  constructor
  · intro u g
    rw [hG, hU]
    by_cases hg : g = g0
    · subst hg
      rw [if_pos rfl, h1 u g, ← hC2 u]
      constructor
      · intro hm
        exact ⟨grp1, rfl, hm⟩
      · rintro ⟨grp, he, hm⟩
        cases he
        exact hm
    · rw [if_neg hg]
      exact h1 u g
  · intro u g hmem
    rw [hG] at hmem
    rw [hU]
    by_cases hg : g = g0
    · subst hg
      rw [if_pos rfl] at hmem
      obtain ⟨grp, he, hm⟩ := hmem
      cases he
      rcases hm with hm | hp
      · obtain ⟨grp0, hg0, hm0⟩ := (hC2 u).mp hm
        exact h2 u g ⟨grp0, hg0, Or.inl hm0⟩
      · rcases hC4 u hp with hx | ⟨grp0, hg0, hp0⟩
        · exact hx
        · exact h2 u g ⟨grp0, hg0, Or.inr hp0⟩
    · rw [if_neg hg] at hmem
      exact h2 u g hmem

theorem agree_both (s s1 : Tracker) (hI : MembershipAgree s) (u0 g0 : Str) (usr1 : User)
    (grp1 : Group)
    (hU : ∀ u : Str, mapFind u s1.users = if u = u0 then some usr1 else mapFind u s.users)
    (hG : ∀ g : Str, mapFind g s1.groups = if g = g0 then some grp1 else mapFind g s.groups)
    (hC1 : ∀ g : Str, g ≠ g0 → (g ∈ usr1.groups ↔ ∃ usr : User,
      mapFind u0 s.users = some usr ∧ g ∈ usr.groups))
    (hC2 : ∀ u : Str, u ≠ u0 → (u ∈ grp1.members ↔ ∃ grp : Group,
      mapFind g0 s.groups = some grp ∧ u ∈ grp.members))
    (hC3 : g0 ∈ usr1.groups ↔ u0 ∈ grp1.members)
    (hC4 : ∀ u : Str, u ∈ grp1.pending_requests → u ≠ u0 →
      ∃ grp : Group, mapFind g0 s.groups = some grp ∧ u ∈ grp.pending_requests) :
    MembershipAgree s1 := by
  obtain ⟨h1, h2⟩ := hI
  have hsome1 : ∀ (usr : User) (P : User → Prop),
      (∃ x : User, some usr = some x ∧ P x) ↔ P usr := by
    intro usr P
    constructor
    · rintro ⟨x, he, hp⟩
      cases he
      exact hp
    · intro hp
      exact ⟨usr, rfl, hp⟩
  have hsome2 : ∀ (grp : Group) (P : Group → Prop),
      (∃ x : Group, some grp = some x ∧ P x) ↔ P grp := by
    intro grp P
    constructor
    · rintro ⟨x, he, hp⟩
      cases he
      exact hp
    · intro hp
      exact ⟨grp, rfl, hp⟩
  constructor
  · intro u g
    rw [hU, hG]
    by_cases hu : u = u0
    · by_cases hg : g = g0
      · subst hu hg
        rw [if_pos rfl, if_pos rfl, hsome1, hsome2]
        exact hC3
      · subst hu
        rw [if_pos rfl, if_neg hg, hsome1, hC1 g hg]
        exact h1 u g
    · by_cases hg : g = g0
      · subst hg
        rw [if_neg hu, if_pos rfl, hsome2, hC2 u hu]
        exact h1 u g
      · rw [if_neg hu, if_neg hg]
        exact h1 u g
  · intro u g hmem
    rw [hG] at hmem
    rw [hU]
    by_cases hu : u = u0
    · rw [if_pos hu]
      exact ⟨usr1, rfl⟩
    · rw [if_neg hu]
      by_cases hg : g = g0
      · subst hg
        rw [if_pos rfl] at hmem
        obtain ⟨grp, he, hm⟩ := hmem
        cases he
        rcases hm with hm | hp
        · obtain ⟨grp0, hg0, hm0⟩ := (hC2 u hu).mp hm
          exact h2 u g ⟨grp0, hg0, Or.inl hm0⟩
        · obtain ⟨grp0, hg0, hp0⟩ := hC4 u hp hu
          exact h2 u g ⟨grp0, hg0, Or.inr hp0⟩
      · rw [if_neg hg] at hmem
        exact h2 u g hmem

theorem loggedIn_some (s : Tracker) (u : Str) (h : s.loggedIn u = true) :
    ∃ usr : User, mapFind u s.users = some usr := by
  unfold Tracker.loggedIn at h
  cases hf : mapFind u s.users with
  | none => rw [hf] at h; exact absurd h (by decide)
  | some usr => exact ⟨usr, rfl⟩

theorem handle_create_user_agree (s : Tracker) (tokens : List Str) (hI : MembershipAgree s) :
    MembershipAgree (handle_create_user s tokens).2 := by
  unfold handle_create_user
  split
  · rename_i hd u pw tl
    split
    · exact hI
    · rename_i hnew
      have hnone : mapFind u s.users = none := by
        cases hf : mapFind u s.users with
        | none => rfl
        | some v => rw [hf] at hnew; simp at hnew
      refine agree_users s _ hI u ⟨u, pw, [], 0, false, []⟩
        (fun u2 => mapFind_mapInsert u u2 _ s.users) rfl ?_
      intro g
      rw [hnone]
      simp
  · exact hI

theorem handle_login_agree (s s1 : Tracker) (tokens : List Str) (reply : Str)
    (h : handle_login s tokens = .ok (reply, s1)) (hI : MembershipAgree s) :
    MembershipAgree s1 := by
  unfold handle_login at h
  split at h
  · rename_i hd u pw ip port_tok tl
    split at h
    · exact absurd h (by simp)
    · rename_i port hport
      split at h
      · obtain ⟨e, -⟩ := ok_parts h; subst e; exact hI
      · rename_i usr hfind
        split at h
        · obtain ⟨e, -⟩ := ok_parts h; subst e; exact hI
        · obtain ⟨e, -⟩ := ok_parts h
          subst e
          refine agree_users s _ hI u { usr with online := true, ip := ip, port := port }
            ?_ rfl ?_
          · intro u2
            dsimp only
            rw [mapFind_mapModify, hfind]
            rfl
          · intro g
            rw [hfind]
            simp
  · obtain ⟨e, -⟩ := ok_parts h; subst e; exact hI

theorem handle_logout_agree (s : Tracker) (tokens : List Str) (hI : MembershipAgree s) :
    MembershipAgree (handle_logout s tokens).2 := by
  unfold handle_logout
  split
  · rename_i hd u tl
    split
    · rename_i hex
      cases hfind : mapFind u s.users with
      | none => rw [hfind] at hex; simp at hex
      | some usr =>
        refine agree_users s _ hI u { usr with online := false } ?_ rfl ?_
        · intro u2
          dsimp only
          rw [mapFind_mapModify, hfind]
          rfl
        · intro g
          rw [hfind]
          simp
    · exact hI
  · exact hI

theorem handle_create_group_agree (s : Tracker) (tokens : List Str) (hI : MembershipAgree s) :
    MembershipAgree (handle_create_group s tokens).2 := by
  unfold handle_create_group
  split
  · rename_i hd u g tl
    split
    · exact hI
    · rename_i hlog
      split
      · exact hI
      · rename_i hnew
        have hnone : mapFind g s.groups = none := by
          cases hf : mapFind g s.groups with
          | none => rfl
          | some v => rw [hf] at hnew; simp at hnew
        obtain ⟨usr, hfind⟩ := loggedIn_some s u (by simpa using hlog)
        refine agree_both s _ hI u g { usr with groups := setInsert g usr.groups }
          ⟨g, u, setInsert u [], [], []⟩ ?_ ?_ ?_ ?_ ?_ ?_
        · intro u2
          dsimp only
          rw [mapFind_mapModify, hfind]
          rfl
        · intro g2
          exact mapFind_mapInsert g g2 _ s.groups
        · intro g2 hg2
          rw [hfind]
          simp [mem_setInsert, hg2]
        · intro u2 hu2
          rw [hnone]
          simp [mem_setInsert, hu2]
        · simp [mem_setInsert]
        · intro u2 hp
          exact absurd hp (List.not_mem_nil u2)
  · exact hI

theorem handle_join_group_agree (s : Tracker) (tokens : List Str) (hI : MembershipAgree s) :
    MembershipAgree (handle_join_group s tokens).2 := by
  unfold handle_join_group
  split
  · rename_i hd u g tl
    split
    · exact hI
    · rename_i hlog
      split
      · exact hI
      · rename_i grp hg
        split
        · exact hI
        · obtain ⟨usr, hfind⟩ := loggedIn_some s u (by simpa using hlog)
          refine agree_groups s _ hI g
            { grp with pending_requests := setInsert u grp.pending_requests } ?_ rfl ?_ ?_
          · intro g2
            dsimp only
            rw [mapFind_mapModify, hg]
            rfl
          · intro u2
            rw [hg]
            simp
          · intro u2 hp
            rcases (mem_setInsert u2 u grp.pending_requests).mp hp with e | hold
            · left
              rw [e]
              exact ⟨usr, hfind⟩
            · right
              exact ⟨grp, hg, hold⟩
  · exact hI

theorem handle_leave_group_agree (s : Tracker) (tokens : List Str) (hI : MembershipAgree s) :
    MembershipAgree (handle_leave_group s tokens).2 := by
  unfold handle_leave_group
  split
  · rename_i hd u g tl
    split
    · exact hI
    · rename_i hlog
      split
      · exact hI
      · rename_i grp hg
        split
        · exact hI
        · obtain ⟨usr, hfind⟩ := loggedIn_some s u (by simpa using hlog)
          refine agree_both s _ hI u g { usr with groups := setErase g usr.groups }
            (leaveUpdate u grp) ?_ ?_ ?_ ?_ ?_ ?_
          · intro u2
            dsimp only
            rw [mapFind_mapModify, hfind]
            rfl
          · intro g2
            dsimp only
            rw [mapFind_mapModify, hg]
            rfl
          · intro g2 hg2
            rw [hfind]
            simp [mem_setErase, hg2]
          · intro u2 hu2
            rw [hg, leaveUpdate_members]
            simp [mem_setErase, hu2]
          · rw [leaveUpdate_members]
            simp [mem_setErase]
          · intro u2 hp _
            rw [leaveUpdate_pending] at hp
            exact ⟨grp, hg, hp⟩
  · exact hI

theorem handle_accept_request_agree (s : Tracker) (tokens : List Str)
    (hI : MembershipAgree s) : MembershipAgree (handle_accept_request s tokens).2 := by
  unfold handle_accept_request
  split
  · rename_i hd owner g v tl
    split
    · exact hI
    · split
      · exact hI
      · rename_i grp hg
        split
        · exact hI
        · split
          · exact hI
          · rename_i hpend
            have hv : v ∈ grp.pending_requests := by simpa using hpend
            obtain ⟨usr, hfind⟩ := hI.2 v g ⟨grp, hg, Or.inr hv⟩
            refine agree_both s _ hI v g { usr with groups := setInsert g usr.groups }
              (acceptUpdate v grp) ?_ ?_ ?_ ?_ ?_ ?_
            · intro u2
              dsimp only
              rw [mapFind_mapModify, hfind]
              rfl
            · intro g2
              dsimp only
              rw [mapFind_mapModify, hg]
              rfl
            · intro g2 hg2
              rw [hfind]
              simp [mem_setInsert, hg2]
            · intro u2 hu2
              rw [hg]
              simp [acceptUpdate, mem_setInsert, hu2]
            · simp [acceptUpdate, mem_setInsert]
            · intro u2 hp _
              have hp2 : u2 ∈ setErase v grp.pending_requests := hp
              exact ⟨grp, hg, ((mem_setErase u2 v grp.pending_requests).mp hp2).2⟩
  · exact hI

theorem handle_upload_file_agree (s : Tracker) (tokens : List Str) (hI : MembershipAgree s) :
    MembershipAgree (handle_upload_file s tokens).2 := by
  unfold handle_upload_file
  split
  · rename_i hd u g f h b sz tl
    split
    · exact hI
    · split
      · exact hI
      · split
        · exact hI
        · rename_i grp hg
          split
          · exact hI
          · refine agree_groups s _ hI g (addSeeder f u grp) ?_ rfl ?_ ?_
            · intro g2
              dsimp only
              rw [mapFind_mapModify, hg]
              rfl
            · intro u2
              rw [hg]
              simp [addSeeder]
            · intro u2 hp
              right
              exact ⟨grp, hg, hp⟩
  · exact hI

theorem process_command_agree (s s1 : Tracker) (command reply : Str)
    (h : process_command s command = .ok (reply, s1)) (hI : MembershipAgree s) :
    MembershipAgree s1 := by
  have key : ∀ a : Str × Tracker, MembershipAgree a.2 →
      ∀ (r : Str) (t : Tracker),
        (Except.ok a : Except StdExn (Str × Tracker)) = .ok (r, t) → MembershipAgree t := by
    intro a ha r t he
    obtain ⟨e, -⟩ := ok_parts he
    rw [e]
    exact ha
  refine process_command_cases
    (fun res => ∀ (r : Str) (t : Tracker), res = .ok (r, t) → MembershipAgree t) s command
    ?_ ?_ ?_ ?_ ?_ ?_ ?_ ?_ ?_ ?_ ?_ ?_ ?_ ?_ reply s1 h
  · intro _
    exact key _ hI
  · exact key _ hI
  · intro _
    exact key _ (handle_create_user_agree s _ hI)
  · intro _ r t he
    exact handle_login_agree s t _ r he hI
  · intro _
    exact key _ (handle_create_group_agree s _ hI)
  · intro _
    exact key _ (handle_join_group_agree s _ hI)
  · intro _
    exact key _ (handle_leave_group_agree s _ hI)
  · intro _
    exact key _ (by rw [handle_list_groups_state]; exact hI)
  · intro _
    exact key _ (by rw [handle_list_requests_state]; exact hI)
  · intro _
    exact key _ (handle_accept_request_agree s _ hI)
  · intro _
    exact key _ (by rw [handle_list_files_state]; exact hI)
  · intro _
    exact key _ (handle_upload_file_agree s _ hI)
  · intro _
    exact key _ (by rw [handle_download_file_state]; exact hI)
  · intro _
    exact key _ (handle_logout_agree s _ hI)

theorem reachable_agree (s : Tracker) (h : Reachable s) : MembershipAgree s := by
  induction h with
  | init =>
    constructor
    · intro u g
      simp [Tracker.empty, mapFind]
    · intro u g hm
      simp [Tracker.empty, mapFind] at hm
  | step _ hp ih => exact process_command_agree _ _ _ _ hp ih

/-- Claim C26: in every catalog reachable from the empty one through `process_command`, for
every user `u` and group `g`, `g` is in `users[u].groups` exactly when `u` is in
`groups[g].members`; and every user id among the members or the pending requests of a group
is a key of `users`. -/
theorem C26_membership_records_agree (s : Tracker) (h : Reachable s) :
    (∀ u g : Str,
      (∃ usr : User, mapFind u s.users = some usr ∧ g ∈ usr.groups) ↔
        (∃ grp : Group, mapFind g s.groups = some grp ∧ u ∈ grp.members)) ∧
    (∀ (g u : Str) (grp : Group), mapFind g s.groups = some grp →
      u ∈ grp.members ∨ u ∈ grp.pending_requests →
      ∃ usr : User, mapFind u s.users = some usr) := by
  obtain ⟨h1, h2⟩ := reachable_agree s h
  exact ⟨h1, fun g u grp hg hm => h2 u g ⟨grp, hg, hm⟩⟩

theorem C26_membership_records_agree_witness :
    Reachable exampleShared ∧
      mapFind "g1".toList exampleShared.groups
        = some ⟨"g1".toList, "alice".toList, ["alice".toList, "bob".toList], [],
            [("F".toList, ["alice".toList, "bob".toList])]⟩ ∧
      ∃ usr : User, mapFind "bob".toList exampleShared.users = some usr ∧
        "g1".toList ∈ usr.groups :=
  ⟨exampleShared_reachable, by decide,
    ((C26_membership_records_agree exampleShared exampleShared_reachable).1 "bob".toList
      "g1".toList).mpr
      ⟨⟨"g1".toList, "alice".toList, ["alice".toList, "bob".toList], [],
        [("F".toList, ["alice".toList, "bob".toList])]⟩, by decide, by decide⟩⟩

end P2P
